import Mathlib

/-!
# portable-shell: a shallow embedding of the input processor

The definitions below follow `src/src/portable_shell.c`, `src/src/vt100.c` and
`src/include/portable_shell.h`.  C strings are lists of byte values (the bytes
before the terminating NUL), fixed arrays are lists of their elements, the
linked lists of commands and parameters are lists with the most recently
registered entry first, and the `uint16_t` counters are naturals reduced
modulo `65536` wherever the code increments or decrements them.

The read callback is a queue of the values it is going to return, followed by
end-of-stream (`-1`) for ever; both write callbacks append to one output
stream.  Storage owned by the caller (the targets of `value_ptr`) is a list of
typed objects addressed by their index.  Allocation is assumed to succeed.
-/

namespace PortableShell

/-- Contents of a NUL-terminated C string: the bytes before the terminator. -/
abbrev Str := List Nat

/-- Byte values of an ASCII literal. -/
def bytes (s : String) : Str := s.toList.map Char.toNat

/-! ## Constants of `portable_shell.h` -/

def PS_MAX_CMD_LENGTH : Nat := 256
def PS_MAX_ARGS : Nat := 16
def PS_KEY_CTRL_C : Nat := 0x03
def PS_KEY_CTRL_L : Nat := 0x0C
def PS_KEY_BACKSPACE : Nat := 0x7F
def PS_KEY_ENTER : Nat := 0x0D
def PS_KEY_TAB : Nat := 0x09
def PS_KEY_ESC : Nat := 0x1B

/-! ## Machine arithmetic and array primitives -/

/-- Increment of a `uint16_t`. -/
def u16_inc (x : Nat) : Nat := (x + 1) % 65536

/-- Decrement of a `uint16_t`. -/
def u16_dec (x : Nat) : Nat := (x + 65535) % 65536

/-- Value of `max_size - 1` in `size_t` arithmetic (64 bits). -/
def size_pred (x : Nat) : Nat := (x % 2 ^ 64 + (2 ^ 64 - 1)) % 2 ^ 64

/-- Store the elements `xs` into the array `b` from index `i` on. -/
def writeAt {α : Type} (b : List α) (i : Nat) : List α → List α
  | [] => b
  | x :: xs => writeAt (b.set i x) (i + 1) xs

/-- The call `memmove(&b[dst], &b[src], n)` inside one array. -/
def memmove {α : Type} (b : List α) (dst src n : Nat) : List α :=
  writeAt b dst ((b.drop src).take n)

/-- The string that starts at the beginning of a character array. -/
def cstr (b : List Nat) : Str := b.takeWhile (fun x => decide (x ≠ 0))

/-- The value `strlen(b)` for a character array `b`. -/
def strlen (b : List Nat) : Nat := (cstr b).length

/-- The call `strncpy(b, src, n)`: exactly `n` bytes are written, the string
and then NUL padding. -/
def strncpy (b : List Nat) (src : Str) (n : Nat) : List Nat :=
  writeAt b 0 (src.take n ++ List.replicate (n - src.length) 0)

/-! ## Number formatting and parsing of the C library -/

/-- Decimal digits of a natural, most significant first, with a recursion
budget. -/
def decimalAux : Nat → Nat → List Nat → List Nat
  | 0, _, acc => acc
  | fuel + 1, n, acc =>
    if n < 10 then (48 + n) :: acc
    else decimalAux fuel (n / 10) ((48 + n % 10) :: acc)

/-- Decimal text of a natural number. -/
def fmt_nat (n : Nat) : Str := decimalAux (n + 1) n []

/-- The conversion `%d` of `snprintf`. -/
def fmt_d (v : Int) : Str :=
  if v < 0 then 45 :: fmt_nat v.natAbs else fmt_nat v.toNat

/-- The predicate `isspace` in the C locale. -/
def isspace (c : Nat) : Bool := c == 32 || (9 ≤ c && c ≤ 13)

/-- The predicate `isdigit`. -/
def isdigit (c : Nat) : Bool := 48 ≤ c && c ≤ 57

/-- Conversion of a `long` to `int`: reduction into `[-2^31, 2^31)`. -/
def to_int32 (v : Int) : Int := (v + 2 ^ 31) % 2 ^ 32 - 2 ^ 31

/-- Saturation of `strtol` at the range of a 64-bit `long`. -/
def clamp_long (v : Int) : Int :=
  if v < -(2 ^ 63) then -(2 ^ 63) else if 2 ^ 63 - 1 < v then 2 ^ 63 - 1 else v

/-- Value of a run of decimal digits. -/
def digits_value (ds : List Nat) : Nat := ds.foldl (fun a d => 10 * a + (d - 48)) 0

/-- The function `atoi`, that is `(int) strtol(s, NULL, 10)`: leading white
space, an optional sign, then the longest run of digits; no digits give 0. -/
def atoi (s : Str) : Int :=
  let s1 := s.dropWhile isspace
  let v : List Nat → Int := fun r => (digits_value (r.takeWhile isdigit) : Int)
  match s1 with
  | 45 :: r => to_int32 (clamp_long (-(v r)))
  | 43 :: r => to_int32 (clamp_long (v r))
  | _ => to_int32 (clamp_long (v s1))

/-! ## Data model (`portable_shell.h`) -/

/-- Parameter types. -/
inductive PSParamType where
  | PS_PARAM_INT
  | PS_PARAM_FLOAT
  | PS_PARAM_STRING
  | PS_PARAM_BOOL
deriving DecidableEq, Repr

/-- A typed object in the storage owned by the caller.  A `float` is kept as
its 32-bit pattern; a character array is kept with all its elements. -/
inductive Obj where
  | int (v : Int)
  | float (bits : Nat)
  | chars (data : List Nat)
  | bool (b : Bool)
deriving DecidableEq, Repr

/-- A node of the parameter list; `value_ptr` is the index of the object in
the caller's storage. -/
structure PSParameter where
  name : Str
  type : PSParamType
  value_ptr : Nat
  max_size : Nat
deriving DecidableEq, Repr

/-- A command callback: one of the five built-in functions or a callback of
the application, identified by a number. -/
inductive PSCommandFunc where
  | ps_cmd_help
  | ps_cmd_clear
  | ps_cmd_get
  | ps_cmd_set
  | ps_cmd_edit
  | user (id : Nat)
deriving DecidableEq, Repr

/-- A node of the command list; `help` may be NULL. -/
structure PSCommand where
  name : Str
  help : Option Str
  func : PSCommandFunc
deriving DecidableEq, Repr

/-- The configuration handed to `ps_create`.  `read_char` holds the values the
read callback returns, in order (NULL selects standard input); `prompt` may be
NULL. -/
structure PSConfig where
  read_char : Option (List Int)
  history_size : Nat
  vt100_enabled : Bool
  prompt : Option Str
deriving DecidableEq, Repr

/-- The shell instance together with what it reaches through its pointers:
the pending input and produced output of the I/O callbacks, and the caller's
storage `mem`.  `prompt` is `config.prompt`, which `ps_create` makes
non-NULL; `history` has one slot per element of the allocated array. -/
structure Shell where
  input : List Int
  output : List Nat
  vt100_enabled : Bool
  prompt : Str
  cmd_buffer : List Nat
  cmd_pos : Nat
  cmd_len : Nat
  history : List (Option Str)
  history_size : Nat
  history_count : Nat
  history_pos : Nat
  commands : List PSCommand
  parameters : List PSParameter
  running : Bool
  tui_mode : Bool
  mem : List Obj
deriving DecidableEq, Repr

/-- Ways in which a call fails to return a defined result. -/
inductive Stuck where
  | hang
  | undefined
deriving DecidableEq, Repr

/-- What the code reaches outside this repository: the float conversions of
the C library (on 32-bit patterns) and the callbacks of the application. -/
structure Env where
  atof : Str → Nat
  fmt_float : Nat → Str
  user : Nat → Shell → List Str → Except Stuck (Int × Shell)

/-! ## Output (`ps_print`, `ps_println`, `vt100.c`) -/

/-- The call `config.write_char(io_ctx, c)`. -/
def write_char (sh : Shell) (c : Nat) : Shell :=
  { sh with output := sh.output ++ [c] }

/-- The call `config.read_char(io_ctx)`. -/
def read_char (sh : Shell) : Int × Shell :=
  match sh.input with
  | [] => (-1, sh)
  | c :: rest => (c, { sh with input := rest })

def ps_print (sh : Shell) (str : Str) : Shell :=
  { sh with output := sh.output ++ str }

def ps_println (sh : Shell) (str : Str) : Shell :=
  write_char (ps_print sh str) 10

/-- The call `snprintf(buf, size, ...)`: at most `size - 1` bytes are kept. -/
def snprintf (size : Nat) (text : Str) : Str := text.take (size - 1)

def ps_vt100_clear_screen (sh : Shell) : Shell :=
  if sh.vt100_enabled then ps_print sh (bytes "\x1b[2J") else sh

def ps_vt100_clear_line (sh : Shell) : Shell :=
  if sh.vt100_enabled then ps_print sh (bytes "\x1b[2K") else sh

def ps_vt100_cursor_home (sh : Shell) : Shell :=
  if sh.vt100_enabled then ps_print sh (bytes "\x1b[H") else sh

def ps_vt100_cursor_move (sh : Shell) (col : Int) : Shell :=
  if sh.vt100_enabled then
    ps_print sh (snprintf 16 (bytes "\x1b[" ++ fmt_d (col + 1) ++ bytes "G"))
  else sh

def ps_vt100_cursor_left (sh : Shell) (n : Int) : Shell :=
  if sh.vt100_enabled then
    ps_print sh (snprintf 16 (bytes "\x1b[" ++ fmt_d n ++ bytes "D"))
  else sh

def ps_vt100_cursor_right (sh : Shell) (n : Int) : Shell :=
  if sh.vt100_enabled then
    ps_print sh (snprintf 16 (bytes "\x1b[" ++ fmt_d n ++ bytes "C"))
  else sh

def ps_vt100_color (sh : Shell) (fg bg : Int) : Shell :=
  if sh.vt100_enabled then
    if bg ≥ 0 then
      ps_print sh (snprintf 32 (bytes "\x1b[" ++ fmt_d fg ++ bytes ";" ++ fmt_d bg ++ bytes "m"))
    else
      ps_print sh (snprintf 32 (bytes "\x1b[" ++ fmt_d fg ++ bytes "m"))
  else sh

def ps_vt100_reset (sh : Shell) : Shell :=
  if sh.vt100_enabled then ps_print sh (bytes "\x1b[0m") else sh

def ps_bell (sh : Shell) : Shell := write_char sh 7

def ps_print_prompt (sh : Shell) : Shell :=
  if sh.vt100_enabled then
    ps_vt100_reset (ps_print (ps_vt100_color sh 32 (-1)) sh.prompt)
  else ps_print sh sh.prompt

def ps_redraw_line (sh : Shell) : Shell :=
  let sh1 := write_char sh 13
  let sh2 := ps_vt100_clear_line sh1
  let sh3 := ps_print sh2 sh2.prompt
  let sh4 := ps_print sh3 (cstr sh3.cmd_buffer)
  ps_vt100_cursor_move sh4 ((sh4.prompt.length : Int) + (sh4.cmd_pos : Int))

/-! ## History (`ps_add_to_history`) -/

/-- The pointer `shell->history[idx]` for an `int` index; a slot outside the
allocated array reads as NULL. -/
def history_at (sh : Shell) (idx : Int) : Option Str :=
  if idx < 0 then none else (sh.history[idx.toNat]?).join

def ps_add_to_history (sh : Shell) (cmd : Str) : Shell :=
  if sh.history_size = 0 then sh
  else if cmd.length = 0 then sh
  else if sh.history_count > 0 ∧
      history_at sh ((sh.history_count : Int) - 1) = some cmd then sh
  else
    let sh1 :=
      if sh.history_count ≥ sh.history_size then
        { sh with
          history := memmove sh.history 0 1 (sh.history_size - 1)
          history_count := u16_dec sh.history_count }
      else sh
    { sh1 with
      history := sh1.history.set sh1.history_count (some cmd)
      history_count := u16_inc sh1.history_count
      history_pos := 0 }

/-- The entries the history holds: the strings in the first `history_count`
slots, oldest first. -/
def history_entries (sh : Shell) : List Str :=
  (sh.history.take sh.history_count).filterMap id

/-! ## Argument parsing (`ps_parse_args`) -/

/-- Membership in the delimiter set `" \t"`. -/
def is_delim (c : Nat) : Bool := c == 32 || c == 9

/-- One call of `strtok` on the text that is left: the next token and the text
after the delimiter that ends it, or NULL. -/
def strtok (s : Str) : Option (Str × Str) :=
  match s.dropWhile is_delim with
  | [] => none
  | c :: r =>
    some ((c :: r).takeWhile (fun x => !is_delim x),
          ((c :: r).dropWhile (fun x => !is_delim x)).drop 1)

/-- The loop of `ps_parse_args` with `n` free slots of `argv` left. -/
def parse_loop : Nat → Str → List Str
  | 0, _ => []
  | n + 1, s =>
    match strtok s with
    | none => []
    | some (token, rest) => token :: parse_loop n rest

/-- The vector `argv`; `argc` is its length. -/
def ps_parse_args (cmd : Str) : List Str := parse_loop PS_MAX_ARGS cmd

/-! ## Registries -/

def ps_register_command (sh : Shell) (name : Option Str) (help : Option Str)
    (func : Option PSCommandFunc) : Int × Shell :=
  match name, func with
  | some n, some f =>
    (0, { sh with commands := { name := n, help := help, func := f } :: sh.commands })
  | _, _ => (-1, sh)

/-- Removal of the first node with the given name; `none` when there is none. -/
def remove_command (name : Str) : List PSCommand → Option (List PSCommand)
  | [] => none
  | cmd :: rest =>
    if cmd.name = name then some rest
    else (remove_command name rest).map (fun r => cmd :: r)

def ps_unregister_command (sh : Shell) (name : Option Str) : Int × Shell :=
  match name with
  | none => (-1, sh)
  | some n =>
    match remove_command n sh.commands with
    | some cs => (0, { sh with commands := cs })
    | none => (-1, sh)

def ps_register_parameter (sh : Shell) (name : Option Str) (type : PSParamType)
    (value_ptr : Option Nat) (max_size : Nat) : Int × Shell :=
  match name, value_ptr with
  | some n, some p =>
    (0, { sh with parameters :=
            { name := n, type := type, value_ptr := p, max_size := max_size }
              :: sh.parameters })
  | _, _ => (-1, sh)

/-- Removal of the first parameter node with the given name. -/
def remove_parameter (name : Str) : List PSParameter → Option (List PSParameter)
  | [] => none
  | p :: rest =>
    if p.name = name then some rest
    else (remove_parameter name rest).map (fun r => p :: r)

def ps_unregister_parameter (sh : Shell) (name : Option Str) : Int × Shell :=
  match name with
  | none => (-1, sh)
  | some n =>
    match remove_parameter n sh.parameters with
    | some ps => (0, { sh with parameters := ps })
    | none => (-1, sh)

def ps_get_parameter (sh : Shell) (name : Str) : Option PSParameter :=
  sh.parameters.find? (fun p => decide (p.name = name))

/-! ## Built-in commands -/

/-- The loop of `ps_cmd_help` over the command list. -/
def help_loop (sh : Shell) : List PSCommand → Shell
  | [] => sh
  | cmd :: rest =>
    let sh1 := ps_print (ps_print sh (bytes "  ")) cmd.name
    let sh2 :=
      match cmd.help with
      | some h => ps_print (ps_print sh1 (bytes " - ")) h
      | none => sh1
    help_loop (ps_println sh2 []) rest

def ps_cmd_help (sh : Shell) (_argv : List Str) : Int × Shell :=
  (0, help_loop (ps_println sh (bytes "Available commands:")) sh.commands)

def ps_cmd_clear (sh : Shell) (_argv : List Str) : Int × Shell :=
  (0, ps_vt100_cursor_home (ps_vt100_clear_screen sh))

/-- Text of a boolean. -/
def bool_text (b : Bool) : Str := if b then bytes "true" else bytes "false"

/-- The string read through a `char*` into a character array; reading is not
defined when the array holds no NUL. -/
def read_string (data : List Nat) : Except Stuck Str :=
  if 0 ∈ data then .ok (cstr data) else .error .undefined

def ps_cmd_get (E : Env) (sh : Shell) (argv : List Str) : Except Stuck (Int × Shell) :=
  match argv with
  | _ :: a1 :: _ =>
    match ps_get_parameter sh a1 with
    | none => .ok (-1, ps_println (ps_print sh (bytes "Parameter not found: ")) a1)
    | some param =>
      let sh1 := ps_print (ps_print sh a1) (bytes " = ")
      match param.type, sh1.mem[param.value_ptr]? with
      | .PS_PARAM_INT, some (.int v) => .ok (0, ps_println sh1 (snprintf 128 (fmt_d v)))
      | .PS_PARAM_FLOAT, some (.float x) =>
        .ok (0, ps_println sh1 (snprintf 128 (E.fmt_float x)))
      | .PS_PARAM_STRING, some (.chars data) =>
        match read_string data with
        | .ok text => .ok (0, ps_println sh1 text)
        | .error e => .error e
      | .PS_PARAM_BOOL, some (.bool b) => .ok (0, ps_println sh1 (bool_text b))
      | _, _ => .error .undefined
  | _ => .ok (-1, ps_println sh (bytes "Usage: get <parameter>"))

/-- The two stores of the string case of `ps_cmd_set`:
`strncpy(dst, value, max_size - 1)` and `dst[max_size - 1] = 0`, both inside
the array or not defined. -/
def store_string (data : List Nat) (max_size : Nat) (value : Str) : Except Stuck (List Nat) :=
  if size_pred max_size < data.length then
    .ok ((strncpy data value (size_pred max_size)).set (size_pred max_size) 0)
  else .error .undefined

def ps_cmd_set (E : Env) (sh : Shell) (argv : List Str) : Except Stuck (Int × Shell) :=
  match argv with
  | _ :: a1 :: a2 :: _ =>
    match ps_get_parameter sh a1 with
    | none => .ok (-1, ps_println (ps_print sh (bytes "Parameter not found: ")) a1)
    | some param =>
      let done : Obj → Except Stuck (Int × Shell) := fun o =>
        let sh1 := { sh with mem := sh.mem.set param.value_ptr o }
        .ok (0, ps_println (ps_print (ps_print (ps_print sh1 (bytes "Set ")) a1) (bytes " = ")) a2)
      match param.type, sh.mem[param.value_ptr]? with
      | .PS_PARAM_INT, some (.int _) => done (.int (atoi a2))
      | .PS_PARAM_FLOAT, some (.float _) => done (.float (E.atof a2))
      | .PS_PARAM_STRING, some (.chars data) =>
        match store_string data param.max_size a2 with
        | .ok data1 => done (.chars data1)
        | .error e => .error e
      | .PS_PARAM_BOOL, some (.bool _) =>
        done (.bool (decide (a2 = bytes "true" ∨ a2 = bytes "1" ∨ a2 = bytes "yes")))
      | _, _ => .error .undefined
  | _ => .ok (-1, ps_println sh (bytes "Usage: set <parameter> <value>"))

/-- The conversion `%-Ns`: the text padded with spaces on the right. -/
def pad_right (width : Nat) (text : Str) : Str :=
  text ++ List.replicate (width - text.length) 32

/-- Name of a parameter type in the table of `ps_cmd_edit`. -/
def type_str : PSParamType → Str
  | .PS_PARAM_INT => bytes "int"
  | .PS_PARAM_FLOAT => bytes "float"
  | .PS_PARAM_STRING => bytes "string"
  | .PS_PARAM_BOOL => bytes "bool"

/-- The buffer `value[64]` of `ps_cmd_edit` for one parameter. -/
def edit_value (E : Env) (sh : Shell) (param : PSParameter) : Except Stuck Str :=
  match param.type, sh.mem[param.value_ptr]? with
  | .PS_PARAM_INT, some (.int v) => .ok (snprintf 64 (fmt_d v))
  | .PS_PARAM_FLOAT, some (.float x) => .ok (snprintf 64 (E.fmt_float x))
  | .PS_PARAM_STRING, some (.chars data) =>
    match read_string data with
    | .ok text => .ok (snprintf 64 text)
    | .error e => .error e
  | .PS_PARAM_BOOL, some (.bool b) => .ok (snprintf 64 (bool_text b))
  | _, _ => .error .undefined

/-- The loop of `ps_cmd_edit` that prints one table row per parameter. -/
def edit_rows (E : Env) (sh : Shell) : List PSParameter → Except Stuck Shell
  | [] => .ok sh
  | param :: rest =>
    match edit_value E sh param with
    | .error e => .error e
    | .ok value =>
      let line := snprintf 128
        (pad_right 23 param.name ++ bytes " " ++ pad_right 9 (type_str param.type)
          ++ bytes " " ++ value)
      edit_rows E (ps_println sh line) rest

/-- The loop of `ps_cmd_edit` that reads until `q` or `Q`; it does not end
when the input ends first. -/
def wait_for_q : List Int → Except Stuck (List Int)
  | [] => .error .hang
  | c :: rest => if c = 113 ∨ c = 81 then .ok rest else wait_for_q rest

def ps_cmd_edit (E : Env) (sh : Shell) (_argv : List Str) : Except Stuck (Int × Shell) :=
  match sh.parameters with
  | [] => .ok (-1, ps_println sh (bytes "No parameters to edit"))
  | _ :: _ =>
    let sh1 := ps_vt100_clear_screen (ps_print sh (bytes "\x1b[?1049h"))
    let sh2 := ps_vt100_color sh1 37 44
    let sh3 := ps_print sh2
      (bytes " Parameter Editor - Use arrow keys to navigate, Enter to edit, 'q' to quit ")
    let sh4 := ps_println (ps_println (ps_vt100_reset sh3) []) []
    let sh5 := ps_println sh4 (bytes "Parameter Name           Type      Value")
    let sh6 := ps_println sh5
      (bytes "--------------------------------------------------------")
    match edit_rows E sh6 sh6.parameters with
    | .error e => .error e
    | .ok sh7 =>
      let sh8 := ps_println (ps_println sh7 []) (bytes "Press 'q' to return to shell")
      match wait_for_q sh8.input with
      | .error e => .error e
      | .ok rest => .ok (0, ps_print { sh8 with input := rest } (bytes "\x1b[?1049l"))

/-! ## Dispatch (`ps_execute_command`) -/

/-- The call `cmd->func(shell, argc, argv)`. -/
def call_func (E : Env) (f : PSCommandFunc) (sh : Shell) (argv : List Str) :
    Except Stuck (Int × Shell) :=
  match f with
  | .ps_cmd_help => .ok (ps_cmd_help sh argv)
  | .ps_cmd_clear => .ok (ps_cmd_clear sh argv)
  | .ps_cmd_get => ps_cmd_get E sh argv
  | .ps_cmd_set => ps_cmd_set E sh argv
  | .ps_cmd_edit => ps_cmd_edit E sh argv
  | .user id => E.user id sh argv

/-- The search of `ps_execute_command`: the first node of the list whose name
equals `argv[0]`. -/
def find_command (name : Str) : List PSCommand → Option PSCommand
  | [] => none
  | cmd :: rest => if cmd.name = name then some cmd else find_command name rest

def ps_execute_command (E : Env) (sh : Shell) : Except Stuck (Int × Shell) :=
  match ps_parse_args (cstr sh.cmd_buffer) with
  | [] => .ok (-1, sh)
  | a0 :: args =>
    match find_command a0 sh.commands with
    | some cmd => call_func E cmd.func sh (a0 :: args)
    | none => .ok (-1, ps_println (ps_print sh (bytes "Command not found: ")) a0)

/-! ## The character processor -/

/-- The copy of a history entry shared by the Up and Down arrows: copy the entry into
the line buffer and put the cursor at its end; a NULL slot changes nothing. -/
def load_history (sh : Shell) (idx : Int) : Shell :=
  match history_at sh idx with
  | some entry =>
    let buf := strncpy sh.cmd_buffer entry (PS_MAX_CMD_LENGTH - 1)
    { sh with cmd_buffer := buf, cmd_len := strlen buf % 65536, cmd_pos := strlen buf % 65536 }
  | none => sh

def ps_handle_escape_sequence (sh0 : Shell) : Shell :=
  match read_char sh0 with
  | (c1, sh1) =>
    if c1 ≠ 91 then sh1
    else
      match read_char sh1 with
      | (c2, sh) =>
        if c2 = 65 then
          if sh.history_count > 0 ∧ sh.history_pos < sh.history_count then
            let sh2 := { sh with history_pos := u16_inc sh.history_pos }
            match history_at sh2 ((sh2.history_count : Int) - (sh2.history_pos : Int)) with
            | some _ =>
              ps_redraw_line
                (load_history sh2 ((sh2.history_count : Int) - (sh2.history_pos : Int)))
            | none => sh2
          else sh
        else if c2 = 66 then
          if sh.history_pos > 0 then
            let sh2 := { sh with history_pos := u16_dec sh.history_pos }
            if sh2.history_pos = 0 then
              ps_redraw_line
                { sh2 with cmd_buffer := sh2.cmd_buffer.set 0 0, cmd_len := 0, cmd_pos := 0 }
            else
              ps_redraw_line
                (load_history sh2 ((sh2.history_count : Int) - (sh2.history_pos : Int)))
          else sh
        else if c2 = 67 then
          if sh.cmd_pos < sh.cmd_len then
            ps_vt100_cursor_right { sh with cmd_pos := u16_inc sh.cmd_pos } 1
          else sh
        else if c2 = 68 then
          if sh.cmd_pos > 0 then
            ps_vt100_cursor_left { sh with cmd_pos := u16_dec sh.cmd_pos } 1
          else sh
        else if c2 = 72 then
          ps_vt100_cursor_move { sh with cmd_pos := 0 } (sh.prompt.length : Int)
        else if c2 = 70 then
          ps_vt100_cursor_move { sh with cmd_pos := sh.cmd_len }
            ((sh.prompt.length : Int) + (sh.cmd_len : Int))
        else if c2 = 51 then
          match read_char sh with
          | (c3, sh2) =>
            if c3 = 126 ∧ sh2.cmd_pos < sh2.cmd_len then
              ps_redraw_line
                { sh2 with
                  cmd_buffer := memmove sh2.cmd_buffer sh2.cmd_pos (sh2.cmd_pos + 1)
                    (sh2.cmd_len - sh2.cmd_pos)
                  cmd_len := u16_dec sh2.cmd_len }
            else sh2
        else sh

/-- The function `ps_process_char` for the byte `c` (the value of the `char`
argument as an unsigned byte; the range test `c >= 32 && c < 127` and the case
labels select the same bytes whether `char` is signed or not).  The returned
`int` is always 0 and is left out. -/
def ps_process_char (E : Env) (sh : Shell) (c : Nat) : Except Stuck Shell :=
  if c = PS_KEY_CTRL_C then
    let sh1 := ps_println sh (bytes "^C")
    .ok (ps_print_prompt
      { sh1 with cmd_len := 0, cmd_pos := 0, cmd_buffer := sh1.cmd_buffer.set 0 0 })
  else if c = PS_KEY_CTRL_L then
    let sh1 := ps_print_prompt (ps_vt100_clear_screen sh)
    .ok (ps_print sh1 (cstr sh1.cmd_buffer))
  else if c = PS_KEY_ENTER ∨ c = 10 then
    let sh1 := ps_println sh []
    if sh1.cmd_len > 0 then
      let sh2 := { sh1 with cmd_buffer := sh1.cmd_buffer.set sh1.cmd_len 0 }
      let sh3 := ps_add_to_history sh2 (cstr sh2.cmd_buffer)
      match ps_execute_command E sh3 with
      | .error e => .error e
      | .ok (_, sh4) =>
        .ok (ps_print_prompt
          { sh4 with cmd_len := 0, cmd_pos := 0, cmd_buffer := sh4.cmd_buffer.set 0 0 })
    else .ok (ps_print_prompt sh1)
  else if c = PS_KEY_BACKSPACE ∨ c = 8 then
    if sh.cmd_pos > 0 then
      .ok (ps_redraw_line
        { sh with
          cmd_buffer := memmove sh.cmd_buffer (sh.cmd_pos - 1) sh.cmd_pos
            (sh.cmd_len - sh.cmd_pos + 1)
          cmd_pos := u16_dec sh.cmd_pos
          cmd_len := u16_dec sh.cmd_len })
    else .ok sh
  else if c = PS_KEY_TAB then .ok (ps_bell sh)
  else if c = PS_KEY_ESC then .ok (ps_handle_escape_sequence sh)
  else if 32 ≤ c ∧ c < 127 then
    if sh.cmd_len < PS_MAX_CMD_LENGTH - 1 then
      let buf1 :=
        if sh.cmd_pos < sh.cmd_len then
          memmove sh.cmd_buffer (sh.cmd_pos + 1) sh.cmd_pos (sh.cmd_len - sh.cmd_pos)
        else sh.cmd_buffer
      let buf2 := buf1.set sh.cmd_pos c
      .ok (ps_redraw_line
        { sh with
          cmd_buffer := buf2.set (u16_inc sh.cmd_len) 0
          cmd_pos := u16_inc sh.cmd_pos
          cmd_len := u16_inc sh.cmd_len })
    else .ok sh
  else .ok sh

/-! ## Creation (`ps_create`) -/

/-- The six built-in commands in the order of the list after `ps_create`
(the last one registered is the head). -/
def builtin_commands : List PSCommand :=
  [ { name := bytes "edit", help := some (bytes "Edit parameters in TUI mode"),
      func := .ps_cmd_edit },
    { name := bytes "set", help := some (bytes "Set parameter value"), func := .ps_cmd_set },
    { name := bytes "get", help := some (bytes "Get parameter value"), func := .ps_cmd_get },
    { name := bytes "cls", help := some (bytes "Clear screen"), func := .ps_cmd_clear },
    { name := bytes "clear", help := some (bytes "Clear screen"), func := .ps_cmd_clear },
    { name := bytes "help", help := some (bytes "Display available commands"),
      func := .ps_cmd_help } ]

/-- The function `ps_create`: `config` may be NULL; `stdin` is what the default
read callback will return and `mem` is the storage of the caller. -/
def ps_create (config : Option PSConfig) (stdin : List Int) (mem : List Obj) : Shell :=
  let input := match config with
    | some cfg => cfg.read_char.getD stdin
    | none => stdin
  let history_size := match config with
    | some cfg => cfg.history_size % 65536
    | none => 10
  let vt100 := match config with
    | some cfg => cfg.vt100_enabled
    | none => true
  let prompt := match config with
    | some cfg => cfg.prompt.getD (bytes "$ ")
    | none => bytes "$ "
  { input := input
    output := []
    vt100_enabled := vt100
    prompt := prompt
    cmd_buffer := List.replicate PS_MAX_CMD_LENGTH 0
    cmd_pos := 0
    cmd_len := 0
    history := List.replicate history_size none
    history_size := history_size
    history_count := 0
    history_pos := 0
    commands := builtin_commands
    parameters := []
    running := false
    tui_mode := false
    mem := mem }

/-- Feed the bytes one after the other to `ps_process_char`. -/
def feed (E : Env) (sh : Shell) : List Nat → Except Stuck Shell
  | [] => .ok sh
  | c :: cs =>
    match ps_process_char E sh c with
    | .error e => .error e
    | .ok sh1 => feed E sh1 cs

/-- The body of the loop of `ps_run`: read one value from the transport, leave
at end-of-stream, otherwise hand the byte `(char)c` to `ps_process_char`. -/
def run_body (E : Env) (sh : Shell) : Except Stuck Shell :=
  match read_char sh with
  | (c, sh1) => if c < 0 then .ok sh1 else ps_process_char E sh1 (c.toNat % 256)

/-- The loop body of `ps_run` carried out `n` times. -/
def run_steps (E : Env) : Nat → Shell → Except Stuck Shell
  | 0, sh => .ok sh
  | n + 1, sh =>
    match run_body E sh with
    | .error e => .error e
    | .ok sh1 => run_steps E n sh1

/-- The loop of `ps_run` with a bound on the number of iterations; `none`
when the bound is reached before the loop is left. -/
def ps_run_loop (E : Env) : Nat → Shell → Option (Except Stuck Shell)
  | 0, _ => none
  | fuel + 1, sh =>
    if sh.running then
      match read_char sh with
      | (c, sh1) =>
        if c < 0 then some (.ok sh1)
        else
          match ps_process_char E sh1 (c.toNat % 256) with
          | .error e => some (.error e)
          | .ok sh2 => ps_run_loop E fuel sh2
    else some (.ok sh)

/-- The function `ps_run` with a bound on the iterations of its loop. -/
def ps_run (E : Env) (fuel : Nat) (sh : Shell) : Option (Except Stuck Shell) :=
  ps_run_loop E fuel (ps_print_prompt { sh with running := true })

/-! ## Sessions, invariant and specification-side functions -/

/-- The states of a session: a freshly created shell, on which parameters are
registered, for which the session loop reads the transport, and to which bytes
are fed, every call returning. -/
inductive Reachable (E : Env) : Shell → Prop where
  | create (config : Option PSConfig) (stdin : List Int) (mem : List Obj) :
      Reachable E (ps_create config stdin mem)
  | register_parameter {sh : Shell} (name : Option Str) (type : PSParamType)
      (value_ptr : Option Nat) (max_size : Nat) :
      Reachable E sh → Reachable E (ps_register_parameter sh name type value_ptr max_size).2
  | read_char {sh : Shell} : Reachable E sh → Reachable E (read_char sh).2
  | process_char {sh sh1 : Shell} (c : Nat) :
      Reachable E sh → ps_process_char E sh c = .ok sh1 → Reachable E sh1

/-- The state invariant kept by every step of a session. -/
structure Inv (sh : Shell) : Prop where
  buf_len : sh.cmd_buffer.length = 256
  pos_le : sh.cmd_pos ≤ sh.cmd_len
  len_le : sh.cmd_len ≤ 255
  buf_last : sh.cmd_buffer[255]? = some 0
  hist_len : sh.history.length = sh.history_size
  size_lt : sh.history_size < 65536
  count_le : sh.history_count ≤ sh.history_size
  hpos_le : sh.history_pos ≤ sh.history_count
  entries : ∃ es : List Str, sh.history.take sh.history_count = es.map some ∧
    (∀ e ∈ es, e ≠ [] ∧ e.length ≤ 255 ∧ 0 ∉ e) ∧ es.Chain' (fun a b => a ≠ b)
  builtin : ∀ cmd ∈ sh.commands, ∀ id, cmd.func ≠ .user id

/-- Two states that differ at most in the I/O streams and the caller's
storage. -/
def Frame (sh sh1 : Shell) : Prop :=
  ∃ i o m, sh1 = { sh with input := i, output := o, mem := m }

/-- Commit the lines to the history, one call of `ps_add_to_history` each. -/
def commit_all (sh : Shell) (lines : List Str) : Shell :=
  lines.foldl ps_add_to_history sh

/-- The last `n` elements of a list. -/
def last_n {α : Type} (n : Nat) (l : List α) : List α := l.drop (l.length - n)

/-- The lines a history without bound would keep: the empty lines dropped, then
every line equal to the line kept just before it dropped. -/
def kept_lines (lines : List Str) : List Str :=
  (lines.filter (fun l => decide (l ≠ []))).destutter (fun a b => a ≠ b)

/-- The maximal runs of bytes other than space and tab, in their order. -/
def token_runs (line : Str) : List Str :=
  (line.splitOnP is_delim).filter (fun t => decide (t ≠ []))

/-- An environment for the examples: no float support, and callbacks that write
their own number as one byte and return 0. -/
def demo_env : Env :=
  { atof := fun _ => 0, fmt_float := fun _ => [],
    user := fun id sh _ => .ok (0, write_char sh id) }

/-- The state a call returned, or the given state when it did not return. -/
def returned (r : Except Stuck Shell) (dflt : Shell) : Shell :=
  match r with
  | .ok sh => sh
  | .error _ => dflt

/-- A plain configuration for the examples: no escape output, given input and
history capacity. -/
def demo_config (input : List Int) (history_size : Nat) : PSConfig :=
  { read_char := some input, history_size := history_size, vt100_enabled := false,
    prompt := some (bytes "> ") }

/-- The entries after one commit, written on lists: nothing changes when the
history is disabled, the line is empty or equals the newest entry; otherwise
the line is appended and the last `n` entries are kept. -/
def next_entries (n : Nat) (es : List Str) (cmd : Str) : List Str :=
  if n = 0 ∨ cmd = [] ∨ es.getLast? = some cmd then es else last_n n (es ++ [cmd])

/-- The values a transport delivers for an ASCII literal. -/
def keys (s : String) : List Int := (bytes s).map Int.ofNat

/-- The shell of the examples: history capacity 2 and the given text waiting in
the transport. -/
def demo_create (input : String) : Shell :=
  ps_create (some (demo_config (keys input) 2)) [] []

/-- The example session after `n` iterations of the session loop. -/
def demo_run (input : String) (n : Nat) : Shell :=
  returned (run_steps demo_env n (demo_create input)) (demo_create input)

/-- The bytes `ps_print_prompt` writes. -/
def prompt_output (sh : Shell) : Str :=
  if sh.vt100_enabled then bytes "\x1b[32m" ++ sh.prompt ++ bytes "\x1b[0m" else sh.prompt

/-- Whether a token starts with an optionally signed sequence of decimal
digits: a digit, or a sign followed by a digit. -/
def starts_with_number (t : Str) : Bool :=
  match t with
  | [] => false
  | c :: r =>
    if isdigit c then true
    else if c = 43 ∨ c = 45 then
      match r with
      | [] => false
      | d :: _ => isdigit d
    else false

/-- Register the parameters of the list one after the other, the first
element first. -/
def register_all (sh : Shell) (regs : List PSParameter) : Shell :=
  regs.foldl
    (fun s p => (ps_register_parameter s (some p.name) p.type (some p.value_ptr) p.max_size).2)
    sh

/-- One row of the table of `ps_cmd_edit`: the buffer `line[128]` for a
parameter and its formatted value. -/
def edit_row (p : PSParameter) (value : Str) : Str :=
  snprintf 128
    (pad_right 23 p.name ++ bytes " " ++ pad_right 9 (type_str p.type) ++ bytes " " ++ value)

/-- The rows of a table, each followed by a newline, for a list of parameters
and the list of their formatted values. -/
def table_rows (ps : List PSParameter) (values : List Str) : Str :=
  (List.zipWith (fun p v => edit_row p v ++ [10]) ps values).flatten

/-- What `ps_cmd_edit` writes before the rows of the table. -/
def edit_header (sh : Shell) : Str :=
  bytes "\x1b[?1049h"
    ++ (if sh.vt100_enabled then bytes "\x1b[2J" ++ bytes "\x1b[37;44m" else [])
    ++ bytes " Parameter Editor - Use arrow keys to navigate, Enter to edit, 'q' to quit "
    ++ (if sh.vt100_enabled then bytes "\x1b[0m" else [])
    ++ [10] ++ [10]
    ++ bytes "Parameter Name           Type      Value" ++ [10]
    ++ bytes "--------------------------------------------------------" ++ [10]

/-- What `ps_cmd_edit` writes after the rows of the table, up to the
sequence that leaves the alternate screen. -/
def edit_footer : Str :=
  [10] ++ bytes "Press 'q' to return to shell" ++ [10]

/-- The parameters of the examples: `a` on the first and `b` on the second
object of the caller, registered in this order. -/
def demo_params : List PSParameter :=
  [ { name := bytes "a", type := .PS_PARAM_INT, value_ptr := 0, max_size := 0 },
    { name := bytes "b", type := .PS_PARAM_INT, value_ptr := 1, max_size := 0 } ]

/-- The shell of the examples for the parameter browser: the caller owns the
`int` objects 1 and 2, and `x`, `q`, `!` wait in the transport. -/
def demo_edit_shell : Shell :=
  ps_create (some (demo_config (keys "xq!") 2)) [] [.int 1, .int 2]

/-- Two states with the same configuration, registries and flags: they differ
at most in the I/O streams, the caller's storage, the line buffer and the
history. -/
def SameConfig (sh sh1 : Shell) : Prop :=
  sh1.vt100_enabled = sh.vt100_enabled ∧ sh1.prompt = sh.prompt ∧
    sh1.history_size = sh.history_size ∧ sh1.commands = sh.commands ∧
    sh1.parameters = sh.parameters ∧ sh1.running = sh.running ∧ sh1.tui_mode = sh.tui_mode

/-- The example session with a given history capacity after `n` iterations
of the session loop. -/
def demo_run_capacity (capacity : Nat) (input : String) (n : Nat) : Shell :=
  returned
    (run_steps demo_env n (ps_create (some (demo_config (keys input) capacity)) [] []))
    (ps_create (some (demo_config (keys input) capacity)) [] [])

/-- The example shell with the `int` parameter `a` registered and the given
text waiting in the transport. -/
def demo_param_shell (input : String) : Shell :=
  register_all (ps_create (some (demo_config (keys input) 2)) [] [.int 1, .int 2])
    [{ name := bytes "a", type := .PS_PARAM_INT, value_ptr := 0, max_size := 0 }]

/-! ## The escape decoder of the specification, as a machine fed one byte at a time -/

/-- The states of the input state machine of the specification. -/
inductive SpecMode where
  | Normal
  | EscapeSeen
  | CsiSeen
  | CsiDigit3
deriving DecidableEq, Repr

/-- The state of the specification's machine as far as the line buffer and the
history go: the mode, the line and its cursor, the history entries (oldest
first) and the browse position. -/
structure SpecState where
  mode : SpecMode
  line : Str
  cursor : Nat
  entries : List Str
  browse : Nat
deriving DecidableEq, Repr

/-- One transition of the specification's machine, written from the text of
the specification for the escape decoder: Escape in `Normal`, and every byte
in `EscapeSeen`, `CsiSeen` and `CsiDigit3`.  The other transitions from
`Normal` are not part of this definition (`none`). -/
def spec_escape_step (s : SpecState) (b : Nat) : Option SpecState :=
  match s.mode with
  | .Normal => if b = 0x1B then some { s with mode := .EscapeSeen } else none
  | .EscapeSeen =>
    if b = 91 then some { s with mode := .CsiSeen } else some { s with mode := .Normal }
  | .CsiSeen =>
    if b = 65 then
      if s.browse < s.entries.length then
        some { s with
          mode := .Normal
          browse := s.browse + 1
          line := s.entries.getD (s.entries.length - (s.browse + 1)) []
          cursor := (s.entries.getD (s.entries.length - (s.browse + 1)) []).length }
      else some { s with mode := .Normal }
    else if b = 66 then
      if s.browse > 0 then
        if s.browse - 1 = 0 then
          some { s with mode := .Normal, browse := 0, line := [], cursor := 0 }
        else
          some { s with
            mode := .Normal
            browse := s.browse - 1
            line := s.entries.getD (s.entries.length - (s.browse - 1)) []
            cursor := (s.entries.getD (s.entries.length - (s.browse - 1)) []).length }
      else some { s with mode := .Normal }
    else if b = 67 then
      if s.cursor < s.line.length then some { s with mode := .Normal, cursor := s.cursor + 1 }
      else some { s with mode := .Normal }
    else if b = 68 then
      if s.cursor > 0 then some { s with mode := .Normal, cursor := s.cursor - 1 }
      else some { s with mode := .Normal }
    else if b = 72 then some { s with mode := .Normal, cursor := 0 }
    else if b = 70 then some { s with mode := .Normal, cursor := s.line.length }
    else if b = 51 then some { s with mode := .CsiDigit3 }
    else some { s with mode := .Normal }
  | .CsiDigit3 =>
    if b = 126 ∧ s.cursor < s.line.length then
      some { s with
        mode := .Normal
        line := s.line.take s.cursor ++ s.line.drop (s.cursor + 1) }
    else some { s with mode := .Normal }

/-- The specification's machine fed a sequence of bytes, one per transition. -/
def spec_escape_feed (s : SpecState) : List Nat → Option SpecState
  | [] => some s
  | b :: bs =>
    match spec_escape_step s b with
    | none => none
    | some s1 => spec_escape_feed s1 bs

/-- The state of the specification's machine that a shell state stands for,
between two gestures: the string in the line buffer, the cursor, the stored
entries and the browse position. -/
def abstract_state (sh : Shell) : SpecState :=
  { mode := .Normal
    line := cstr sh.cmd_buffer
    cursor := sh.cmd_pos
    entries := history_entries sh
    browse := sh.history_pos }

/-- The length field of the line buffer is the length of the string the
buffer holds. -/
def LineOK (sh : Shell) : Prop := strlen sh.cmd_buffer = sh.cmd_len

/-! ## Output frames, the redraw protocol and printable lines -/

/-- Two states that differ at most in the output written. -/
def OutFrame (sh sh1 : Shell) : Prop := ∃ o, sh1 = { sh with output := o }

/-- The bytes of the redraw protocol as the specification lists them, for the
state the redraw leaves: carriage return, `ESC[2K`, the prompt, the string in
the line buffer, and `ESC[<k>G` with `k` the decimal of the prompt length plus
the cursor plus one. -/
def redraw_bytes (sh : Shell) : Str :=
  [13] ++ bytes "\x1b[2K" ++ sh.prompt ++ cstr sh.cmd_buffer
    ++ bytes "\x1b[" ++ fmt_nat (sh.prompt.length + sh.cmd_pos + 1) ++ bytes "G"

/-- Every byte of the line and of the stored history entries passes the range
test `c >= 32 && c < 127`. -/
def LinePrintable (sh : Shell) : Prop :=
  (∀ b ∈ cstr sh.cmd_buffer, 32 ≤ b ∧ b < 127) ∧
    ∀ e ∈ history_entries sh, ∀ b ∈ e, 32 ≤ b ∧ b < 127

/-- A configuration for the examples with escape output: history capacity 2
and the prompt `> `. -/
def demo_vt100_config (input : List Int) : PSConfig :=
  { read_char := some input, history_size := 2, vt100_enabled := true,
    prompt := some (bytes "> ") }

/-- The example session with escape output after `n` iterations of the
session loop. -/
def demo_vt100_run (input : String) (n : Nat) : Shell :=
  returned
    (run_steps demo_env n (ps_create (some (demo_vt100_config (keys input))) [] []))
    (ps_create (some (demo_vt100_config (keys input))) [] [])

/-- The example shell with a string parameter `s` of the given capacity on an
array of eight bytes `x` owned by the caller. -/
def demo_string_shell (max_size : Nat) : Shell :=
  (ps_register_parameter (ps_create (some (demo_config [] 2)) [] [.chars (List.replicate 8 120)])
    (some (bytes "s")) .PS_PARAM_STRING (some 0) max_size).2

/-! ## Lemmas on the array primitives -/

theorem length_writeAt {α : Type} (xs : List α) (b : List α) (i : Nat) :
    (writeAt b i xs).length = b.length := by
  induction xs generalizing b i with
  | nil => rfl
  | cons x xs ih => simp [writeAt, ih]

theorem getElem?_writeAt_of_ge {α : Type} (xs : List α) (b : List α) (i j : Nat)
    (h : i + xs.length ≤ j) : (writeAt b i xs)[j]? = b[j]? := by
  induction xs generalizing b i with
  | nil => rfl
  | cons x xs ih =>
    simp only [writeAt, List.length_cons] at h ⊢
    rw [ih _ _ (by omega), List.getElem?_set_ne (by omega)]

theorem getElem?_writeAt_of_lt {α : Type} (xs : List α) (b : List α) (i j : Nat)
    (h : j < i) : (writeAt b i xs)[j]? = b[j]? := by
  induction xs generalizing b i with
  | nil => rfl
  | cons x xs ih =>
    simp only [writeAt]
    rw [ih _ _ (by omega), List.getElem?_set_ne (by omega)]

theorem getElem?_writeAt_mid {α : Type} (xs : List α) (b : List α) (i j : Nat)
    (h1 : i ≤ j) (h2 : j < i + xs.length) (h3 : j < b.length) :
    (writeAt b i xs)[j]? = xs[j - i]? := by
  induction xs generalizing b i with
  | nil => simp at h2; omega
  | cons x xs ih =>
    simp only [writeAt, List.length_cons] at h2 ⊢
    by_cases hj : j = i
    · subst hj
      rw [getElem?_writeAt_of_lt _ _ _ _ (by omega)]
      simp [h3]
    · rw [ih _ _ (by omega) (by omega) (by simpa using h3)]
      have : j - i = (j - (i + 1)) + 1 := by omega
      rw [this, List.getElem?_cons_succ]

theorem writeAt_eq {α : Type} (xs : List α) (b : List α) (i : Nat)
    (h : i + xs.length ≤ b.length) :
    writeAt b i xs = b.take i ++ xs ++ b.drop (i + xs.length) := by
  apply List.ext_getElem?
  intro j
  by_cases h1 : j < i
  · rw [getElem?_writeAt_of_lt _ _ _ _ h1, List.append_assoc,
      List.getElem?_append_left (by simp; omega), List.getElem?_take_of_lt h1]
  · by_cases h2 : j < i + xs.length
    · rw [getElem?_writeAt_mid _ _ _ _ (by omega) h2 (by omega),
        List.getElem?_append_left (by simp; omega),
        List.getElem?_append_right (by simp; omega)]
      simp
      congr 1
      omega
    · rw [getElem?_writeAt_of_ge _ _ _ _ (by omega),
        List.getElem?_append_right (by simp; omega)]
      simp
      congr 1
      omega

theorem length_memmove {α : Type} (b : List α) (dst src n : Nat) :
    (memmove b dst src n).length = b.length := length_writeAt _ _ _

theorem length_strncpy (b : List Nat) (src : Str) (n : Nat) :
    (strncpy b src n).length = b.length := length_writeAt _ _ _

/-- A NUL at index `k` bounds the string length by `k`. -/
theorem strlen_le_of_nul (b : List Nat) (k : Nat) (h : b[k]? = some 0) : strlen b ≤ k := by
  induction b generalizing k with
  | nil => simp at h
  | cons x xs ih =>
    unfold strlen cstr at *
    cases k with
    | zero =>
      simp at h
      subst h
      simp
    | succ k =>
      rw [List.getElem?_cons_succ] at h
      rw [List.takeWhile_cons]
      split
      · simpa using ih k h
      · simp

theorem not_mem_cstr (b : List Nat) : 0 ∉ cstr b := by
  intro h
  have := List.mem_takeWhile_imp h
  simp at this

/-- The string at the start of an array that holds `s`, a NUL, and more. -/
theorem cstr_append_nul (s rest : List Nat) (h : 0 ∉ s) : cstr (s ++ 0 :: rest) = s := by
  induction s with
  | nil => simp [cstr]
  | cons x xs ih =>
    have hx : x ≠ 0 := fun e => h (by simp [e])
    have hxs : 0 ∉ xs := fun e => h (by simp [e])
    have := ih hxs
    unfold cstr at *
    rw [List.cons_append, List.takeWhile_cons, if_pos (by simpa using hx), this]

/-! ## Frame lemmas: what output and built-in commands leave alone -/

theorem Frame.refl (sh : Shell) : Frame sh sh := ⟨sh.input, sh.output, sh.mem, rfl⟩

theorem Frame.trans {a b c : Shell} (h1 : Frame a b) (h2 : Frame b c) : Frame a c := by
  obtain ⟨i, o, m, rfl⟩ := h1
  obtain ⟨i2, o2, m2, rfl⟩ := h2
  exact ⟨i2, o2, m2, rfl⟩

theorem Frame.print {sh a : Shell} (h : Frame sh a) (s : Str) : Frame sh (ps_print a s) :=
  h.trans ⟨a.input, a.output ++ s, a.mem, rfl⟩

theorem Frame.write_char {sh a : Shell} (h : Frame sh a) (c : Nat) :
    Frame sh (write_char a c) :=
  h.trans ⟨a.input, a.output ++ [c], a.mem, rfl⟩

theorem Frame.println {sh a : Shell} (h : Frame sh a) (s : Str) :
    Frame sh (ps_println a s) :=
  (h.print s).write_char 10

theorem Frame.read_char {sh a : Shell} (h : Frame sh a) : Frame sh (read_char a).2 := by
  unfold PortableShell.read_char
  split
  · exact h
  · exact h.trans ⟨_, a.output, a.mem, rfl⟩

theorem Frame.clear_screen {sh a : Shell} (h : Frame sh a) :
    Frame sh (ps_vt100_clear_screen a) := by
  unfold ps_vt100_clear_screen
  split
  · exact h.print _
  · exact h

theorem Frame.clear_line {sh a : Shell} (h : Frame sh a) :
    Frame sh (ps_vt100_clear_line a) := by
  unfold ps_vt100_clear_line
  split
  · exact h.print _
  · exact h

theorem Frame.cursor_home {sh a : Shell} (h : Frame sh a) :
    Frame sh (ps_vt100_cursor_home a) := by
  unfold ps_vt100_cursor_home
  split
  · exact h.print _
  · exact h

theorem Frame.cursor_move {sh a : Shell} (h : Frame sh a) (col : Int) :
    Frame sh (ps_vt100_cursor_move a col) := by
  unfold ps_vt100_cursor_move
  split
  · exact h.print _
  · exact h

theorem Frame.cursor_left {sh a : Shell} (h : Frame sh a) (n : Int) :
    Frame sh (ps_vt100_cursor_left a n) := by
  unfold ps_vt100_cursor_left
  split
  · exact h.print _
  · exact h

theorem Frame.cursor_right {sh a : Shell} (h : Frame sh a) (n : Int) :
    Frame sh (ps_vt100_cursor_right a n) := by
  unfold ps_vt100_cursor_right
  split
  · exact h.print _
  · exact h

theorem Frame.color {sh a : Shell} (h : Frame sh a) (fg bg : Int) :
    Frame sh (ps_vt100_color a fg bg) := by
  unfold ps_vt100_color
  split
  · split
    · exact h.print _
    · exact h.print _
  · exact h

theorem Frame.reset {sh a : Shell} (h : Frame sh a) : Frame sh (ps_vt100_reset a) := by
  unfold ps_vt100_reset
  split
  · exact h.print _
  · exact h

theorem Frame.bell {sh a : Shell} (h : Frame sh a) : Frame sh (ps_bell a) :=
  h.write_char 7

theorem Frame.print_prompt {sh a : Shell} (h : Frame sh a) : Frame sh (ps_print_prompt a) := by
  unfold ps_print_prompt
  split
  · exact (((h.color _ _).print _).reset)
  · exact h.print _

theorem Frame.redraw_line {sh a : Shell} (h : Frame sh a) : Frame sh (ps_redraw_line a) := by
  unfold ps_redraw_line
  exact (((((h.write_char 13).clear_line).print _).print _).cursor_move _)

theorem Frame.help_loop {sh a : Shell} (h : Frame sh a) (cs : List PSCommand) :
    Frame sh (help_loop a cs) := by
  induction cs generalizing a with
  | nil => exact h
  | cons cmd rest ih =>
    unfold PortableShell.help_loop
    apply ih
    cases cmd.help with
    | none => exact ((h.print _).print _).println _
    | some t => exact ((((h.print _).print _).print _).print _).println _

theorem frame_cmd_help (sh : Shell) (argv : List Str) : Frame sh (ps_cmd_help sh argv).2 :=
  ((Frame.refl sh).println _).help_loop _

theorem frame_cmd_clear (sh : Shell) (argv : List Str) : Frame sh (ps_cmd_clear sh argv).2 :=
  ((Frame.refl sh).clear_screen).cursor_home

theorem frame_cmd_get (E : Env) (sh : Shell) (argv : List Str) (r : Int) (sh1 : Shell)
    (h : ps_cmd_get E sh argv = .ok (r, sh1)) : Frame sh sh1 := by
  unfold ps_cmd_get at h
  split at h
  · split at h
    · cases h
      exact ((Frame.refl sh).print _).println _
    · simp only at h
      split at h
      · cases h
        exact (((Frame.refl sh).print _).print _).println _
      · cases h
        exact (((Frame.refl sh).print _).print _).println _
      · split at h
        · cases h
          exact (((Frame.refl sh).print _).print _).println _
        · cases h
      · cases h
        exact (((Frame.refl sh).print _).print _).println _
      · cases h
  · cases h
    exact (Frame.refl sh).println _

theorem frame_cmd_set (E : Env) (sh : Shell) (argv : List Str) (r : Int) (sh1 : Shell)
    (h : ps_cmd_set E sh argv = .ok (r, sh1)) : Frame sh sh1 := by
  have key : ∀ (p : Nat) (o : Obj) (a1 a2 : Str), Frame sh
      (ps_println (ps_print (ps_print (ps_print { sh with mem := sh.mem.set p o }
        (bytes "Set ")) a1) (bytes " = ")) a2) := fun p o a1 a2 =>
    ((((Frame.trans (Frame.refl sh) ⟨sh.input, sh.output, sh.mem.set p o, rfl⟩).print _).print
      _).print _).println _
  unfold ps_cmd_set at h
  split at h
  · split at h
    · cases h
      exact ((Frame.refl sh).print _).println _
    · simp only at h
      split at h
      · cases h
        exact key _ _ _ _
      · cases h
        exact key _ _ _ _
      · split at h
        · cases h
          exact key _ _ _ _
        · cases h
      · cases h
        exact key _ _ _ _
      · cases h
  · cases h
    exact (Frame.refl sh).println _

theorem Frame.edit_rows {sh a : Shell} (E : Env) (ps : List PSParameter) (b : Shell)
    (h : Frame sh a) (hr : edit_rows E a ps = .ok b) : Frame sh b := by
  induction ps generalizing a with
  | nil =>
    unfold PortableShell.edit_rows at hr
    cases hr
    exact h
  | cons p rest ih =>
    unfold PortableShell.edit_rows at hr
    split at hr
    · cases hr
    · exact ih (h.println _) hr

theorem frame_cmd_edit (E : Env) (sh : Shell) (argv : List Str) (r : Int) (sh1 : Shell)
    (h : ps_cmd_edit E sh argv = .ok (r, sh1)) : Frame sh sh1 := by
  unfold ps_cmd_edit at h
  split at h
  · cases h
    exact (Frame.refl sh).println _
  · simp only at h
    split at h
    · cases h
    · rename_i sh7 hrows
      split at h
      · cases h
      · cases h
        have h5 := (((((((Frame.refl sh).print (bytes "\x1b[?1049h")).clear_screen).color
          37 44).print (bytes
            " Parameter Editor - Use arrow keys to navigate, Enter to edit, 'q' to quit ")).reset
          ).println []).println []
        have h6 := Frame.edit_rows E _ sh7
          ((h5.println (bytes "Parameter Name           Type      Value")).println
            (bytes "--------------------------------------------------------")) hrows
        exact (((h6.println _).println _).trans ⟨_, _, _, rfl⟩).print _

theorem frame_call_func (E : Env) (f : PSCommandFunc) (sh : Shell) (argv : List Str)
    (r : Int) (sh1 : Shell) (hf : ∀ id, f ≠ .user id)
    (h : call_func E f sh argv = .ok (r, sh1)) : Frame sh sh1 := by
  cases f with
  | ps_cmd_help =>
    simp only [call_func, Except.ok.injEq] at h
    have := frame_cmd_help sh argv
    rwa [h] at this
  | ps_cmd_clear =>
    simp only [call_func, Except.ok.injEq] at h
    have := frame_cmd_clear sh argv
    rwa [h] at this
  | ps_cmd_get => exact frame_cmd_get E sh argv r sh1 h
  | ps_cmd_set => exact frame_cmd_set E sh argv r sh1 h
  | ps_cmd_edit => exact frame_cmd_edit E sh argv r sh1 h
  | user id => exact absurd rfl (hf id)

theorem find_command_mem (name : Str) (cs : List PSCommand) (cmd : PSCommand)
    (h : find_command name cs = some cmd) : cmd ∈ cs ∧ cmd.name = name := by
  induction cs with
  | nil => simp [find_command] at h
  | cons c rest ih =>
    unfold find_command at h
    split at h
    · cases h
      exact ⟨List.mem_cons_self _ _, by assumption⟩
    · exact ⟨List.mem_cons_of_mem _ (ih h).1, (ih h).2⟩

theorem frame_execute_command (E : Env) (sh : Shell) (r : Int) (sh1 : Shell)
    (hb : ∀ cmd ∈ sh.commands, ∀ id, cmd.func ≠ .user id)
    (h : ps_execute_command E sh = .ok (r, sh1)) : Frame sh sh1 := by
  unfold ps_execute_command at h
  split at h
  · cases h
    exact Frame.refl sh
  · split at h
    · rename_i cmd hfind
      exact frame_call_func E _ sh _ r sh1 (hb cmd (find_command_mem _ _ _ hfind).1) h
    · cases h
      exact ((Frame.refl sh).print _).println _

theorem Inv.of_frame {sh sh1 : Shell} (h : Inv sh) (hf : Frame sh sh1) : Inv sh1 := by
  obtain ⟨i, o, m, rfl⟩ := hf
  exact ⟨h.buf_len, h.pos_le, h.len_le, h.buf_last, h.hist_len, h.size_lt, h.count_le,
    h.hpos_le, h.entries, h.builtin⟩

/-! ## The history commit -/

theorem take_eq_map_some_length {es : List Str} {h : List (Option Str)} {n : Nat}
    (hn : n ≤ h.length) (hes : h.take n = es.map some) : es.length = n := by
  have := congrArg List.length hes
  simp at this
  omega

theorem history_at_last (sh : Shell) (es : List Str) (cmd : Str)
    (hcnt : sh.history_count ≤ sh.history.length)
    (hes : sh.history.take sh.history_count = es.map some) :
    (sh.history_count > 0 ∧ history_at sh ((sh.history_count : Int) - 1) = some cmd) ↔
      es.getLast? = some cmd := by
  have hl := take_eq_map_some_length hcnt hes
  rcases Nat.eq_zero_or_pos sh.history_count with h0 | hpos
  · have : es = [] := by
      apply List.eq_nil_of_length_eq_zero
      omega
    simp [h0, this]
  · have hidx : ((sh.history_count : Int) - 1).toNat = sh.history_count - 1 := by omega
    have hnn : ¬ ((sh.history_count : Int) - 1 < 0) := by omega
    have hget : sh.history[sh.history_count - 1]? = (es.map some)[sh.history_count - 1]? := by
      rw [← hes, List.getElem?_take_of_lt (by omega)]
    unfold history_at
    rw [if_neg hnn, hidx, hget, List.getLast?_eq_getElem?, hl]
    simp only [hpos, true_and, List.getElem?_map]
    cases es[sh.history_count - 1]? <;> simp

theorem add_to_history_spec (sh : Shell) (cmd : Str) (es : List Str)
    (hlen : sh.history.length = sh.history_size) (hsz : sh.history_size < 65536)
    (hcnt : sh.history_count ≤ sh.history_size) (hpos : sh.history_pos ≤ sh.history_count)
    (hes : sh.history.take sh.history_count = es.map some) :
    ps_add_to_history sh cmd =
      { sh with history := (ps_add_to_history sh cmd).history,
                history_count := (ps_add_to_history sh cmd).history_count,
                history_pos := (ps_add_to_history sh cmd).history_pos } ∧
    (ps_add_to_history sh cmd).history.length = sh.history_size ∧
    (ps_add_to_history sh cmd).history_count ≤ sh.history_size ∧
    (ps_add_to_history sh cmd).history_pos ≤ (ps_add_to_history sh cmd).history_count ∧
    (ps_add_to_history sh cmd).history.take (ps_add_to_history sh cmd).history_count =
      (next_entries sh.history_size es cmd).map some := by
  have hl := take_eq_map_some_length (by omega) hes
  have hdup := history_at_last sh es cmd (by omega) hes
  by_cases h0 : sh.history_size = 0
  · have hval : ps_add_to_history sh cmd = sh := by
      unfold ps_add_to_history
      rw [if_pos h0]
    have hne : next_entries sh.history_size es cmd = es := by
      unfold next_entries
      rw [if_pos (Or.inl h0)]
    rw [hval, hne]
    exact ⟨rfl, hlen, hcnt, hpos, hes⟩
  by_cases h1 : cmd.length = 0
  · have hval : ps_add_to_history sh cmd = sh := by
      unfold ps_add_to_history
      rw [if_neg h0, if_pos h1]
    have hne : next_entries sh.history_size es cmd = es := by
      unfold next_entries
      rw [if_pos (Or.inr (Or.inl (List.eq_nil_of_length_eq_zero h1)))]
    rw [hval, hne]
    exact ⟨rfl, hlen, hcnt, hpos, hes⟩
  by_cases h2 : sh.history_count > 0 ∧ history_at sh ((sh.history_count : Int) - 1) = some cmd
  · have hval : ps_add_to_history sh cmd = sh := by
      unfold ps_add_to_history
      rw [if_neg h0, if_neg h1, if_pos h2]
    have hne : next_entries sh.history_size es cmd = es := by
      unfold next_entries
      rw [if_pos (Or.inr (Or.inr (hdup.mp h2)))]
    rw [hval, hne]
    exact ⟨rfl, hlen, hcnt, hpos, hes⟩
  have hne : next_entries sh.history_size es cmd = last_n sh.history_size (es ++ [cmd]) := by
    unfold next_entries
    rw [if_neg]
    rintro (h | h | h)
    · exact h0 h
    · exact h1 (by simp [h])
    · exact h2 (hdup.mpr h)
  rw [hne]
  by_cases h3 : sh.history_count ≥ sh.history_size
  · have hc : sh.history_count = sh.history_size := by omega
    have hdec : u16_dec sh.history_count = sh.history_size - 1 := by unfold u16_dec; omega
    have hinc : u16_inc (sh.history_size - 1) = sh.history_size := by unfold u16_inc; omega
    have hval : ps_add_to_history sh cmd =
        { sh with
          history := (memmove sh.history 0 1 (sh.history_size - 1)).set
            (sh.history_size - 1) (some cmd)
          history_count := sh.history_size
          history_pos := 0 } := by
      unfold ps_add_to_history
      rw [if_neg h0, if_neg h1, if_neg h2]
      simp only [if_pos h3, hdec, hinc]
    rw [hval]
    refine ⟨rfl, by simp [length_memmove, hlen], le_refl _, by simp, ?_⟩
    have hfull : sh.history = es.map some := by
      rw [← hes, List.take_of_length_le (by omega)]
    apply List.ext_getElem?
    intro j
    unfold last_n memmove
    simp only
    by_cases hj : j < sh.history_size - 1
    · rw [List.getElem?_take_of_lt (by omega), List.getElem?_set_ne (by omega),
        getElem?_writeAt_mid _ _ _ _ (by omega) (by simp; omega) (by omega)]
      rw [Nat.sub_zero, List.getElem?_take_of_lt hj, List.getElem?_drop, hfull,
        List.getElem?_map, List.getElem?_map, List.getElem?_drop,
        List.getElem?_append_left (by simp; omega)]
      have e0 : 1 + j = (es ++ [cmd]).length - sh.history_size + j := by simp; omega
      rw [e0]
    · by_cases hj2 : j = sh.history_size - 1
      · subst hj2
        rw [List.getElem?_take_of_lt (by omega),
          List.getElem?_set_self (by simp [length_writeAt]; omega), List.getElem?_map,
          List.getElem?_drop, List.getElem?_append_right (by simp; omega)]
        have e1 : (es ++ [cmd]).length - sh.history_size + (sh.history_size - 1) -
            es.length = 0 := by simp; omega
        rw [e1]
        rfl
      · rw [List.getElem?_eq_none (by simp [length_writeAt]; omega),
          List.getElem?_eq_none (by simp; omega)]
  · have hinc : u16_inc sh.history_count = sh.history_count + 1 := by unfold u16_inc; omega
    have hval : ps_add_to_history sh cmd =
        { sh with
          history := sh.history.set sh.history_count (some cmd)
          history_count := sh.history_count + 1
          history_pos := 0 } := by
      unfold ps_add_to_history
      rw [if_neg h0, if_neg h1, if_neg h2]
      simp only [if_neg h3, hinc]
    rw [hval]
    refine ⟨rfl, by simp [hlen], by simp; omega, by simp, ?_⟩
    apply List.ext_getElem?
    intro j
    unfold last_n
    simp only
    have hd : (es ++ [cmd]).length - sh.history_size = 0 := by simp; omega
    rw [hd, List.drop_zero]
    by_cases hj : j < sh.history_count
    · rw [List.getElem?_take_of_lt (by omega), List.getElem?_set_ne (by omega)]
      have : sh.history[j]? = (es.map some)[j]? := by
        rw [← hes, List.getElem?_take_of_lt hj]
      rw [this, List.map_append, List.getElem?_append_left (by simp; omega)]
    · by_cases hj2 : j = sh.history_count
      · subst hj2
        rw [List.getElem?_take_of_lt (by omega), List.getElem?_set_self (by omega),
          List.map_append, List.getElem?_append_right (by simp; omega)]
        simp [hl]
      · rw [List.getElem?_eq_none (by simp; omega), List.getElem?_eq_none (by simp; omega)]

theorem next_entries_props (n : Nat) (es : List Str) (cmd : Str)
    (hcmd : cmd.length ≤ 255 ∧ 0 ∉ cmd)
    (hes : ∀ e ∈ es, e ≠ [] ∧ e.length ≤ 255 ∧ 0 ∉ e)
    (hch : es.Chain' (fun a b => a ≠ b)) :
    (∀ e ∈ next_entries n es cmd, e ≠ [] ∧ e.length ≤ 255 ∧ 0 ∉ e) ∧
      (next_entries n es cmd).Chain' (fun a b => a ≠ b) := by
  unfold next_entries
  split
  · exact ⟨hes, hch⟩
  · rename_i hc
    simp only [not_or] at hc
    have hsuf : last_n n (es ++ [cmd]) <:+ es ++ [cmd] := List.drop_suffix _ _
    constructor
    · intro e he
      have hmem := hsuf.subset he
      rcases List.mem_append.mp hmem with h | h
      · exact hes e h
      · simp only [List.mem_singleton] at h
        subst h
        exact ⟨hc.2.1, hcmd.1, hcmd.2⟩
    · refine List.Chain'.suffix ?_ hsuf
      refine List.Chain'.append hch (List.chain'_singleton _) ?_
      intro x hx y hy
      simp only [List.head?_cons, Option.mem_def, Option.some.injEq] at hy
      subst hy
      intro e
      subst e
      exact hc.2.2 hx

theorem Inv.add_to_history {sh : Shell} (h : Inv sh) (cmd : Str)
    (hcmd : cmd.length ≤ 255 ∧ 0 ∉ cmd) : Inv (ps_add_to_history sh cmd) := by
  obtain ⟨es, hes, hprops, hch⟩ := h.entries
  obtain ⟨hval, h1, h2, h3, h4⟩ :=
    add_to_history_spec sh cmd es h.hist_len h.size_lt h.count_le h.hpos_le hes
  have hp := next_entries_props sh.history_size es cmd hcmd hprops hch
  rw [hval]
  exact ⟨h.buf_len, h.pos_le, h.len_le, h.buf_last, h1, h.size_lt, h2, h3,
    ⟨_, h4, hp.1, hp.2⟩, h.builtin⟩

/-! ## The invariant is kept by every step -/

theorem Inv.set_line {sh : Shell} (h : Inv sh) (buf : List Nat) (pos len : Nat)
    (hb : buf.length = 256) (hl : buf[255]? = some 0) (hp : pos ≤ len) (hle : len ≤ 255) :
    Inv { sh with cmd_buffer := buf, cmd_pos := pos, cmd_len := len } :=
  ⟨hb, hp, hle, hl, h.hist_len, h.size_lt, h.count_le, h.hpos_le, h.entries, h.builtin⟩

theorem Inv.set_hpos {sh : Shell} (h : Inv sh) (p : Nat) (hp : p ≤ sh.history_count) :
    Inv { sh with history_pos := p } :=
  ⟨h.buf_len, h.pos_le, h.len_le, h.buf_last, h.hist_len, h.size_lt, h.count_le, hp,
    h.entries, h.builtin⟩

theorem length_strncpy_data (src : Str) (n : Nat) :
    (src.take n ++ List.replicate (n - src.length) 0).length = n := by
  simp
  omega

theorem Inv.load_history {sh : Shell} (h : Inv sh) (idx : Int) : Inv (load_history sh idx) := by
  unfold PortableShell.load_history
  split
  · rename_i entry _
    have hlast : (strncpy sh.cmd_buffer entry (PS_MAX_CMD_LENGTH - 1))[255]? = some 0 := by
      unfold strncpy
      rw [getElem?_writeAt_of_ge _ _ _ _ (by rw [length_strncpy_data]; decide)]
      exact h.buf_last
    have hle := strlen_le_of_nul _ _ hlast
    refine Inv.set_line h _ _ _ ?_ hlast (le_refl _) (by omega)
    rw [length_strncpy]
    exact h.buf_len
  · exact h

theorem Inv.handle_escape {sh0 : Shell} (h0 : Inv sh0) :
    Inv (ps_handle_escape_sequence sh0) := by
  unfold ps_handle_escape_sequence
  have hf1 := Frame.read_char (Frame.refl sh0)
  generalize read_char sh0 = r1 at hf1
  obtain ⟨c1, sh1⟩ := r1
  have h1 : Inv sh1 := h0.of_frame hf1
  simp only
  split
  · exact h1
  have hf2 := Frame.read_char (Frame.refl sh1)
  generalize read_char sh1 = r2 at hf2
  obtain ⟨c2, sh⟩ := r2
  have h : Inv sh := h1.of_frame hf2
  have hsz := h.size_lt
  have hcnt := h.count_le
  have hpc := h.hpos_le
  have hpl := h.pos_le
  have hll := h.len_le
  simp only
  split
  · -- Up
    split
    · rename_i hc
      have h2 : Inv { sh with history_pos := u16_inc sh.history_pos } :=
        h.set_hpos _ (by unfold u16_inc; omega)
      split
      · exact (h2.load_history _).of_frame (Frame.refl _).redraw_line
      · exact h2
    · exact h
  split
  · -- Down
    split
    · rename_i hc
      have h2 : Inv { sh with history_pos := u16_dec sh.history_pos } :=
        h.set_hpos _ (by unfold u16_dec; omega)
      split
      · refine Inv.of_frame ?_ (Frame.refl _).redraw_line
        refine Inv.set_line h2 _ _ _ (by simp [h.buf_len]) ?_ (le_refl _) (by omega)
        rw [List.getElem?_set_ne (by omega)]
        exact h.buf_last
      · exact (h2.load_history _).of_frame (Frame.refl _).redraw_line
    · exact h
  split
  · -- Right
    split
    · refine Inv.of_frame ?_ ((Frame.refl _).cursor_right 1)
      exact Inv.set_line h _ _ _ h.buf_len h.buf_last (by unfold u16_inc; omega) hll
    · exact h
  split
  · -- Left
    split
    · refine Inv.of_frame ?_ ((Frame.refl _).cursor_left 1)
      exact Inv.set_line h _ _ _ h.buf_len h.buf_last (by unfold u16_dec; omega) hll
    · exact h
  split
  · refine Inv.of_frame ?_ ((Frame.refl _).cursor_move _)
    exact Inv.set_line h _ _ _ h.buf_len h.buf_last (Nat.zero_le _) hll
  split
  · refine Inv.of_frame ?_ ((Frame.refl _).cursor_move _)
    exact Inv.set_line h _ _ _ h.buf_len h.buf_last (le_refl _) hll
  split
  · -- Delete
    have hf3 := Frame.read_char (Frame.refl sh)
    generalize read_char sh = r3 at hf3
    obtain ⟨c3, sh2⟩ := r3
    have h2 : Inv sh2 := h.of_frame hf3
    have hpl2 := h2.pos_le
    have hll2 := h2.len_le
    simp only
    split
    · rename_i hc
      refine Inv.of_frame ?_ (Frame.refl _).redraw_line
      refine Inv.set_line h2 _ _ _ (by rw [length_memmove]; exact h2.buf_len) ?_
        (by unfold u16_dec; omega) (by unfold u16_dec; omega)
      unfold memmove
      rw [getElem?_writeAt_of_ge _ _ _ _ (by simp; omega)]
      exact h2.buf_last
    · exact h2
  · exact h

theorem getElem?_set_zero_last (l : List Nat) (i : Nat) (hlen : l.length = 256)
    (hl : l[255]? = some 0) : (l.set i 0)[255]? = some 0 := by
  by_cases hi : i = 255
  · subst hi
    rw [List.getElem?_set_self (by omega)]
  · rw [List.getElem?_set_ne hi]
    exact hl

theorem Inv.reset_line {sh : Shell} (h : Inv sh) :
    Inv { sh with cmd_len := 0, cmd_pos := 0, cmd_buffer := sh.cmd_buffer.set 0 0 } :=
  Inv.set_line h _ _ _ (by simp [h.buf_len])
    (getElem?_set_zero_last _ _ h.buf_len h.buf_last) (le_refl _) (Nat.zero_le _)

theorem Inv.process_char (E : Env) {sh : Shell} (h : Inv sh) (c : Nat) (sh1 : Shell)
    (hr : ps_process_char E sh c = .ok sh1) : Inv sh1 := by
  have hpl := h.pos_le
  have hll := h.len_le
  unfold ps_process_char at hr
  split at hr
  · -- Ctrl-C
    cases hr
    exact (Inv.reset_line (h.of_frame ((Frame.refl sh).println _))).of_frame
      (Frame.refl _).print_prompt
  split at hr
  · cases hr
    exact h.of_frame ((((Frame.refl sh).clear_screen).print_prompt).print _)
  split at hr
  · -- Enter
    have h1 : Inv (ps_println sh []) := h.of_frame ((Frame.refl sh).println _)
    simp only at hr
    split at hr
    · have h2 : Inv { ps_println sh [] with
          cmd_buffer := (ps_println sh []).cmd_buffer.set (ps_println sh []).cmd_len 0 } :=
        Inv.set_line h1 _ _ _ (by simp [h1.buf_len])
          (getElem?_set_zero_last _ _ h1.buf_len h1.buf_last) h1.pos_le h1.len_le
      have hnul : ((ps_println sh []).cmd_buffer.set (ps_println sh []).cmd_len 0)[
          (ps_println sh []).cmd_len]? = some 0 := by
        rw [List.getElem?_set_self (by have := h1.buf_len; have := h1.len_le; omega)]
      have hlen := strlen_le_of_nul _ _ hnul
      have h3 := h2.add_to_history
        (cstr ((ps_println sh []).cmd_buffer.set (ps_println sh []).cmd_len 0))
        ⟨by unfold strlen at hlen; have := h1.len_le; omega, not_mem_cstr _⟩
      split at hr
      · cases hr
      · rename_i r sh4 hex
        cases hr
        have h4 : Inv sh4 := h3.of_frame (frame_execute_command E _ r sh4 h3.builtin hex)
        exact (Inv.reset_line h4).of_frame (Frame.refl _).print_prompt
    · cases hr
      exact h1.of_frame (Frame.refl _).print_prompt
  split at hr
  · -- Backspace
    split at hr
    · cases hr
      refine Inv.of_frame ?_ (Frame.refl _).redraw_line
      refine Inv.set_line h _ _ _ (by rw [length_memmove]; exact h.buf_len) ?_
        (by unfold u16_dec; omega) (by unfold u16_dec; omega)
      unfold memmove
      rw [getElem?_writeAt_of_ge _ _ _ _ (by simp; omega)]
      exact h.buf_last
    · cases hr
      exact h
  split at hr
  · cases hr
    exact h.of_frame (Frame.refl sh).bell
  split at hr
  · cases hr
    exact h.handle_escape
  split at hr
  · -- printable
    split at hr
    · rename_i hlt
      have hlt2 : sh.cmd_len < 255 := hlt
      cases hr
      refine Inv.of_frame ?_ (Frame.refl _).redraw_line
      refine Inv.set_line h _ _ _ ?_ ?_ (by unfold u16_inc; omega) (by unfold u16_inc; omega)
      · split <;> simp [length_memmove, h.buf_len]
      · refine getElem?_set_zero_last _ _ ?_ ?_
        · split <;> simp [length_memmove, h.buf_len]
        · rw [List.getElem?_set_ne (by omega)]
          split
          · unfold memmove
            rw [getElem?_writeAt_of_ge _ _ _ _ (by simp; omega)]
            exact h.buf_last
          · exact h.buf_last
    · cases hr
      exact h
  · cases hr
    exact h

theorem Inv.create (config : Option PSConfig) (stdin : List Int) (mem : List Obj) :
    Inv (ps_create config stdin mem) := by
  refine ⟨by simp only [ps_create, PS_MAX_CMD_LENGTH, List.length_replicate], le_refl _,
    Nat.zero_le _, ?_, by simp only [ps_create, List.length_replicate], ?_, Nat.zero_le _,
    le_refl _, ⟨[], by simp only [ps_create, List.take_zero, List.map_nil], by simp, by simp⟩,
    ?_⟩
  · simp only [ps_create, PS_MAX_CMD_LENGTH, List.getElem?_replicate]
    rfl
  · cases config with
    | none => simp only [ps_create]; decide
    | some cfg => simp only [ps_create]; omega
  · intro cmd hc id
    simp only [ps_create, builtin_commands, List.mem_cons, List.mem_singleton,
      List.not_mem_nil, or_false] at hc
    rcases hc with h | h | h | h | h | h <;> subst h <;> simp

theorem Inv.of_reachable (E : Env) {sh : Shell} (h : Reachable E sh) : Inv sh := by
  induction h with
  | create config stdin mem => exact Inv.create config stdin mem
  | register_parameter name type value_ptr max_size _ ih =>
    unfold ps_register_parameter
    split
    · exact ⟨ih.buf_len, ih.pos_le, ih.len_le, ih.buf_last, ih.hist_len, ih.size_lt,
        ih.count_le, ih.hpos_le, ih.entries, ih.builtin⟩
    · exact ih
  | read_char _ ih => exact ih.of_frame (Frame.refl _).read_char
  | process_char c _ hstep ih => exact ih.process_char E c _ hstep

/-! ## Sessions -/

theorem Reachable.run_body (E : Env) {sh sh1 : Shell} (h : Reachable E sh)
    (hr : run_body E sh = .ok sh1) : Reachable E sh1 := by
  unfold PortableShell.run_body at hr
  have h1 := Reachable.read_char h
  generalize PortableShell.read_char sh = r at hr h1
  obtain ⟨c, sh0⟩ := r
  simp only at hr h1
  split at hr
  · cases hr
    exact h1
  · exact Reachable.process_char _ h1 hr

theorem Reachable.run_steps (E : Env) (n : Nat) {sh sh1 : Shell} (h : Reachable E sh)
    (hr : run_steps E n sh = .ok sh1) : Reachable E sh1 := by
  induction n generalizing sh with
  | zero =>
    unfold PortableShell.run_steps at hr
    cases hr
    exact h
  | succ n ih =>
    unfold PortableShell.run_steps at hr
    split at hr
    · cases hr
    · rename_i sh2 hb
      exact ih (h.run_body E hb) hr

theorem demo_reachable (input : String) (n : Nat)
    (h : run_steps demo_env n (demo_create input) = .ok (demo_run input n)) :
    Reachable demo_env (demo_run input n) :=
  Reachable.run_steps demo_env n (Reachable.create _ _ _) h

theorem history_entries_of_take (sh : Shell) (es : List Str)
    (h : sh.history.take sh.history_count = es.map some) : history_entries sh = es := by
  unfold history_entries
  rw [h]
  induction es with
  | nil => rfl
  | cons e es ih => simp

/-! ## Every call returns while no parameter is registered -/

theorem add_to_history_fields (sh : Shell) (cmd : Str) :
    ps_add_to_history sh cmd =
      { sh with
        history := (ps_add_to_history sh cmd).history
        history_count := (ps_add_to_history sh cmd).history_count
        history_pos := (ps_add_to_history sh cmd).history_pos } := by
  unfold ps_add_to_history
  split_ifs <;> rfl

theorem call_func_returns (E : Env) (f : PSCommandFunc) (sh : Shell) (argv : List Str)
    (hf : ∀ id, f ≠ .user id) (hp : sh.parameters = []) :
    ∃ r sh1, call_func E f sh argv = .ok (r, sh1) := by
  have hnone : ∀ x, ps_get_parameter sh x = none := by
    intro x
    unfold ps_get_parameter
    rw [hp]
    rfl
  cases f with
  | ps_cmd_help => exact ⟨_, _, rfl⟩
  | ps_cmd_clear => exact ⟨_, _, rfl⟩
  | ps_cmd_get =>
    unfold call_func ps_cmd_get
    simp only
    split
    · rw [hnone]
      exact ⟨_, _, rfl⟩
    · exact ⟨_, _, rfl⟩
  | ps_cmd_set =>
    unfold call_func ps_cmd_set
    simp only
    split
    · rw [hnone]
      exact ⟨_, _, rfl⟩
    · exact ⟨_, _, rfl⟩
  | ps_cmd_edit =>
    unfold call_func ps_cmd_edit
    simp only
    rw [hp]
    exact ⟨_, _, rfl⟩
  | user id => exact absurd rfl (hf id)

theorem execute_command_returns (E : Env) (sh : Shell)
    (hb : ∀ cmd ∈ sh.commands, ∀ id, cmd.func ≠ .user id) (hp : sh.parameters = []) :
    ∃ r sh1, ps_execute_command E sh = .ok (r, sh1) := by
  unfold ps_execute_command
  split
  · exact ⟨_, _, rfl⟩
  · split
    · rename_i cmd hfind
      exact call_func_returns E _ sh _ (hb cmd (find_command_mem _ _ _ hfind).1) hp
    · exact ⟨_, _, rfl⟩

theorem process_char_returns (E : Env) (sh : Shell)
    (hb : ∀ cmd ∈ sh.commands, ∀ id, cmd.func ≠ .user id) (hp : sh.parameters = [])
    (c : Nat) : ∃ sh1, ps_process_char E sh c = .ok sh1 := by
  unfold ps_process_char
  split
  · exact ⟨_, rfl⟩
  split
  · exact ⟨_, rfl⟩
  split
  · simp only
    split
    · obtain ⟨r, sh4, h4⟩ := execute_command_returns E
        (ps_add_to_history
          { ps_println sh [] with
            cmd_buffer := (ps_println sh []).cmd_buffer.set (ps_println sh []).cmd_len 0 }
          (cstr ((ps_println sh []).cmd_buffer.set (ps_println sh []).cmd_len 0)))
        (by rw [add_to_history_fields]; exact hb) (by rw [add_to_history_fields]; exact hp)
      rw [h4]
      exact ⟨_, rfl⟩
    · exact ⟨_, rfl⟩
  split
  · split <;> exact ⟨_, rfl⟩
  split
  · exact ⟨_, rfl⟩
  split
  · exact ⟨_, rfl⟩
  split
  · split <;> exact ⟨_, rfl⟩
  · exact ⟨_, rfl⟩

/-! ## C1: bounds of the line buffer -/

/-- C1: in every state of a session that starts from a freshly created shell,
after every processed byte (escape sequences, history browsing and Enter with
the built-in commands included), `0 <= cmd_pos <= cmd_len <= 255`; and while
no parameter is registered, `ps_process_char` returns for every byte, in a
state with these bounds. -/
theorem line_buffer_bounds (E : Env) (sh : Shell) (h : Reachable E sh) :
    (0 ≤ sh.cmd_pos ∧ sh.cmd_pos ≤ sh.cmd_len ∧ sh.cmd_len ≤ PS_MAX_CMD_LENGTH - 1) ∧
      (sh.parameters = [] → ∀ c : Nat, ∃ sh1, ps_process_char E sh c = .ok sh1 ∧
        sh1.cmd_pos ≤ sh1.cmd_len ∧ sh1.cmd_len ≤ PS_MAX_CMD_LENGTH - 1) := by
  have hi := Inv.of_reachable E h
  refine ⟨⟨Nat.zero_le _, hi.pos_le, hi.len_le⟩, ?_⟩
  intro hp c
  obtain ⟨sh1, h1⟩ := process_char_returns E sh hi.builtin hp c
  have hi1 := hi.process_char E c sh1 h1
  exact ⟨sh1, h1, hi1.pos_le, hi1.len_le⟩

set_option maxRecDepth 1000000 in
/-- Witness for C1: after the transport delivered `ab` and a Left arrow the
cursor is 1 and the length is 2. -/
theorem line_buffer_bounds_witness :
    Reachable demo_env (demo_run "ab\x1b[D" 3) ∧
      (demo_run "ab\x1b[D" 3).cmd_pos = 1 ∧ (demo_run "ab\x1b[D" 3).cmd_len = 2 ∧
      (0 ≤ (demo_run "ab\x1b[D" 3).cmd_pos ∧
        (demo_run "ab\x1b[D" 3).cmd_pos ≤ (demo_run "ab\x1b[D" 3).cmd_len ∧
        (demo_run "ab\x1b[D" 3).cmd_len ≤ PS_MAX_CMD_LENGTH - 1) :=
  ⟨demo_reachable _ _ (by rfl), by rfl, by rfl,
    (line_buffer_bounds demo_env _ (demo_reachable _ _ (by rfl))).1⟩

/-! ## C3: the history invariant -/

/-- C3: in every state of a session that starts from a freshly created shell,
every one of the first `history_count` slots holds an entry, no entry is
empty, no two adjacent entries are equal, and `history_count <= history_size`. -/
theorem history_invariant (E : Env) (sh : Shell) (h : Reachable E sh) :
    (history_entries sh).length = sh.history_count ∧
      (∀ e ∈ history_entries sh, e ≠ []) ∧
      (history_entries sh).Chain' (fun a b => a ≠ b) ∧
      sh.history_count ≤ sh.history_size := by
  have hi := Inv.of_reachable E h
  obtain ⟨es, hes, hprops, hch⟩ := hi.entries
  have hl := take_eq_map_some_length (by have := hi.hist_len; have := hi.count_le; omega) hes
  rw [history_entries_of_take sh es hes]
  exact ⟨hl, fun e he => (hprops e he).1, hch, hi.count_le⟩

set_option maxRecDepth 1000000 in
/-- Witness for C3: with capacity 2, the lines `a`, `a`, `b`, `c` leave the
entries `b`, `c`. -/
theorem history_invariant_witness :
    Reachable demo_env (demo_run "a\na\nb\nc\n" 8) ∧
      history_entries (demo_run "a\na\nb\nc\n" 8) = [bytes "b", bytes "c"] ∧
      ((history_entries (demo_run "a\na\nb\nc\n" 8)).length =
          (demo_run "a\na\nb\nc\n" 8).history_count ∧
        (∀ e ∈ history_entries (demo_run "a\na\nb\nc\n" 8), e ≠ []) ∧
        (history_entries (demo_run "a\na\nb\nc\n" 8)).Chain' (fun a b => a ≠ b) ∧
        (demo_run "a\na\nb\nc\n" 8).history_count ≤ (demo_run "a\na\nb\nc\n" 8).history_size) :=
  ⟨demo_reachable _ _ (by rfl), by rfl,
    history_invariant demo_env _ (demo_reachable _ _ (by rfl))⟩

/-! ## C2: the stored entries -/

theorem destutter'_append_singleton (l : List Str) (a x : Str) :
    (l ++ [x]).destutter' (fun a b => a ≠ b) a =
      if (l.destutter' (fun a b => a ≠ b) a).getLast? = some x then
        l.destutter' (fun a b => a ≠ b) a
      else l.destutter' (fun a b => a ≠ b) a ++ [x] := by
  induction l generalizing a with
  | nil =>
    simp only [List.nil_append, List.destutter'_singleton, List.destutter'_nil,
      List.getLast?_singleton, Option.some.injEq]
    by_cases h : a = x <;> simp [h]
  | cons b l ih =>
    rw [List.cons_append, List.destutter'_cons, List.destutter'_cons]
    by_cases h : a ≠ b
    · rw [if_pos h, if_pos h, ih b]
      have hne : l.destutter' (fun a b => a ≠ b) b ≠ [] := List.destutter'_ne_nil _ _
      have hlast : (a :: l.destutter' (fun a b => a ≠ b) b).getLast? =
          (l.destutter' (fun a b => a ≠ b) b).getLast? := by
        cases hd : l.destutter' (fun a b => a ≠ b) b with
        | nil => exact absurd hd hne
        | cons y ys => rw [List.getLast?_cons_cons]
      rw [hlast]
      split <;> simp
    · rw [if_neg h, if_neg h, ih a]

theorem kept_lines_append (ls : List Str) (cmd : Str) :
    kept_lines (ls ++ [cmd]) =
      if cmd = [] ∨ (kept_lines ls).getLast? = some cmd then kept_lines ls
      else kept_lines ls ++ [cmd] := by
  unfold kept_lines
  rw [List.filter_append]
  by_cases hc : cmd = []
  · simp [hc]
  · have hf : List.filter (fun l => decide (l ≠ [])) [cmd] = [cmd] := by simp [hc]
    rw [hf]
    simp only [hc, false_or]
    cases hfl : List.filter (fun l => decide (l ≠ [])) ls with
    | nil => simp [List.destutter]
    | cons a l =>
      rw [List.cons_append, List.destutter_cons', List.destutter_cons']
      exact destutter'_append_singleton l a cmd

theorem getLast?_last_n (n : Nat) (hn : 1 ≤ n) (k : List Str) :
    (last_n n k).getLast? = k.getLast? := by
  unfold last_n
  rw [List.getLast?_drop]
  split
  · rename_i h
    have : k = [] := List.eq_nil_of_length_eq_zero (by omega)
    simp [this]
  · rfl

theorem last_n_append_singleton (n : Nat) (k : List Str) (x : Str) :
    last_n n (last_n n k ++ [x]) = last_n n (k ++ [x]) := by
  unfold last_n
  apply List.ext_getElem?
  intro j
  simp only [List.getElem?_drop, List.length_append, List.length_drop, List.length_singleton]
  by_cases h : k.length ≤ n
  · have e : k.length - n = 0 := by omega
    simp only [e, List.drop_zero, Nat.sub_zero]
  · have e1 : k.length - (k.length - n) + 1 - n + j = 1 + j := by omega
    have e2 : k.length + 1 - n + j = (k.length - n) + (1 + j) := by omega
    rw [e1, e2]
    by_cases hj : 1 + j < n
    · rw [List.getElem?_append_left (by simp; omega), List.getElem?_append_left (by omega),
        List.getElem?_drop]
    · rw [List.getElem?_append_right (by simp; omega), List.getElem?_append_right (by omega)]
      simp only [List.length_drop]
      congr 1
      omega

theorem next_entries_last_n (n : Nat) (hn : 1 ≤ n) (ls : List Str) (cmd : Str) :
    next_entries n (last_n n (kept_lines ls)) cmd = last_n n (kept_lines (ls ++ [cmd])) := by
  unfold next_entries
  rw [kept_lines_append, getLast?_last_n n hn]
  have h0 : ¬ n = 0 := by omega
  simp only [h0, false_or]
  split
  · rfl
  · exact last_n_append_singleton n _ cmd

theorem commit_all_spec (sh : Shell) (n : Nat) (hn1 : 1 ≤ n) (hn2 : n < 65536)
    (hsize : sh.history_size = n) (hlen : sh.history.length = n)
    (hcount : sh.history_count = 0) (hpos : sh.history_pos = 0) (lines : List Str) :
    (commit_all sh lines).history_size = n ∧ (commit_all sh lines).history.length = n ∧
      (commit_all sh lines).history_count ≤ n ∧
      (commit_all sh lines).history_pos ≤ (commit_all sh lines).history_count ∧
      (commit_all sh lines).history.take (commit_all sh lines).history_count =
        (last_n n (kept_lines lines)).map some := by
  induction lines using List.reverseRecOn with
  | nil =>
    refine ⟨hsize, hlen, ?_, ?_, ?_⟩
    · show sh.history_count ≤ n
      omega
    · show sh.history_pos ≤ sh.history_count
      omega
    · show List.take sh.history_count sh.history = _
      rw [hcount, List.take_zero]
      have : kept_lines [] = [] := rfl
      rw [this]
      simp [last_n]
  | append_singleton ls cmd ih =>
    obtain ⟨h1, h2, h3, h4, h5⟩ := ih
    have hstep : commit_all sh (ls ++ [cmd]) = ps_add_to_history (commit_all sh ls) cmd := by
      unfold commit_all
      rw [List.foldl_append]
      rfl
    rw [hstep]
    obtain ⟨hval, g1, g2, g3, g4⟩ := add_to_history_spec (commit_all sh ls) cmd _
      (by rw [h2, h1]) (by omega) (by omega) h4 h5
    rw [h1] at g1 g2 g4
    rw [next_entries_last_n n hn1] at g4
    refine ⟨?_, g1, g2, g3, g4⟩
    rw [hval]
    exact h1

/-- C2: for a history capacity `1 <= n` (a `uint16_t`), the entries stored
after any sequence of commits to the empty history of a fresh shell are the
last `n` of the kept lines (empty lines dropped, then every line equal to the
line kept just before it dropped), oldest first; committing `a`, `a` stores
one entry, and with capacity 2 committing `a`, `b`, `c` stores `b`, `c`. -/
theorem history_entries_commit_all (cfg : PSConfig) (stdin : List Int) (mem : List Obj)
    (n : Nat) (hn1 : 1 ≤ n) (hn2 : n < 65536) (lines : List Str) :
    history_entries (commit_all (ps_create (some { cfg with history_size := n }) stdin mem)
        lines) = last_n n (kept_lines lines) ∧
      history_entries (commit_all (ps_create (some { cfg with history_size := n }) stdin mem)
        [bytes "a", bytes "a"]) = [bytes "a"] ∧
      history_entries (commit_all (ps_create (some { cfg with history_size := 2 }) stdin mem)
        [bytes "a", bytes "b", bytes "c"]) = [bytes "b", bytes "c"] := by
  have hmod : n % 65536 = n := Nat.mod_eq_of_lt hn2
  have key : ∀ (m : Nat), 1 ≤ m → m < 65536 → ∀ ls : List Str,
      history_entries (commit_all (ps_create (some { cfg with history_size := m }) stdin mem)
        ls) = last_n m (kept_lines ls) := by
    intro m hm1 hm2 ls
    have hm : m % 65536 = m := Nat.mod_eq_of_lt hm2
    obtain ⟨_, _, _, _, h5⟩ := commit_all_spec
      (ps_create (some { cfg with history_size := m }) stdin mem) m hm1 hm2
      (by simp only [ps_create, hm]) (by simp only [ps_create, hm, List.length_replicate])
      rfl rfl ls
    exact history_entries_of_take _ _ h5
  refine ⟨key n hn1 hn2 lines, ?_, ?_⟩
  · rw [key n hn1 hn2]
    have : kept_lines [bytes "a", bytes "a"] = [bytes "a"] := by decide
    rw [this]
    unfold last_n
    have e : [bytes "a"].length - n = 0 := by simp; omega
    rw [e]
    rfl
  · rw [key 2 (by decide) (by decide)]
    decide

set_option maxRecDepth 100000 in
/-- Witness for C2: capacity 2 and the lines `a`, the empty line, `a`, `b`,
`c`. -/
theorem history_entries_commit_all_witness :
    (1 ≤ 2 ∧ 2 < 65536) ∧
      history_entries (commit_all (ps_create (some { demo_config [] 0 with history_size := 2 })
        [] []) [bytes "a", [], bytes "a", bytes "b", bytes "c"]) = [bytes "b", bytes "c"] :=
  ⟨by decide, ((history_entries_commit_all (demo_config [] 0) [] [] 2 (by decide) (by decide)
    [bytes "a", [], bytes "a", bytes "b", bytes "c"]).1).trans (by decide)⟩

/-! ## C4 and C6: history browsing -/

theorem run_body_esc (E : Env) (sh : Shell) (rest : List Int)
    (hin : sh.input = 27 :: rest) :
    run_body E sh = .ok (ps_handle_escape_sequence { sh with input := rest }) := by
  unfold run_body read_char
  rw [hin]
  simp only [ps_process_char, PS_KEY_CTRL_C, PS_KEY_CTRL_L, PS_KEY_ENTER, PS_KEY_BACKSPACE,
    PS_KEY_TAB, PS_KEY_ESC]
  rfl

theorem handle_escape_csi (sh : Shell) (c2 : Int) (rest : List Int)
    (hin : sh.input = 91 :: c2 :: rest) :
    ps_handle_escape_sequence sh =
      (let sh := { sh with input := rest }
       if c2 = 65 then
          if sh.history_count > 0 ∧ sh.history_pos < sh.history_count then
            let sh2 := { sh with history_pos := u16_inc sh.history_pos }
            match history_at sh2 ((sh2.history_count : Int) - (sh2.history_pos : Int)) with
            | some _ =>
              ps_redraw_line
                (load_history sh2 ((sh2.history_count : Int) - (sh2.history_pos : Int)))
            | none => sh2
          else sh
        else if c2 = 66 then
          if sh.history_pos > 0 then
            let sh2 := { sh with history_pos := u16_dec sh.history_pos }
            if sh2.history_pos = 0 then
              ps_redraw_line
                { sh2 with cmd_buffer := sh2.cmd_buffer.set 0 0, cmd_len := 0, cmd_pos := 0 }
            else
              ps_redraw_line
                (load_history sh2 ((sh2.history_count : Int) - (sh2.history_pos : Int)))
          else sh
        else if c2 = 67 then
          if sh.cmd_pos < sh.cmd_len then
            ps_vt100_cursor_right { sh with cmd_pos := u16_inc sh.cmd_pos } 1
          else sh
        else if c2 = 68 then
          if sh.cmd_pos > 0 then
            ps_vt100_cursor_left { sh with cmd_pos := u16_dec sh.cmd_pos } 1
          else sh
        else if c2 = 72 then
          ps_vt100_cursor_move { sh with cmd_pos := 0 } (sh.prompt.length : Int)
        else if c2 = 70 then
          ps_vt100_cursor_move { sh with cmd_pos := sh.cmd_len }
            ((sh.prompt.length : Int) + (sh.cmd_len : Int))
        else if c2 = 51 then
          match read_char sh with
          | (c3, sh2) =>
            if c3 = 126 ∧ sh2.cmd_pos < sh2.cmd_len then
              ps_redraw_line
                { sh2 with
                  cmd_buffer := memmove sh2.cmd_buffer sh2.cmd_pos (sh2.cmd_pos + 1)
                    (sh2.cmd_len - sh2.cmd_pos)
                  cmd_len := u16_dec sh2.cmd_len }
            else sh2
        else sh) := by
  unfold ps_handle_escape_sequence read_char
  rw [hin]
  rfl

theorem drop_255_of_last (buf : List Nat) (hlen : buf.length = 256)
    (hlast : buf[255]? = some 0) : buf.drop 255 = [0] := by
  apply List.ext_getElem?
  intro j
  rw [List.getElem?_drop]
  cases j with
  | zero => simpa using hlast
  | succ j =>
    rw [List.getElem?_eq_none (by omega)]
    simp

theorem strncpy_entry (buf : List Nat) (entry : Str) (hlen : buf.length = 256)
    (hlast : buf[255]? = some 0) (hle : entry.length ≤ 255) :
    strncpy buf entry (PS_MAX_CMD_LENGTH - 1) =
      entry ++ 0 :: List.replicate (255 - entry.length) 0 := by
  unfold strncpy
  have hn : PS_MAX_CMD_LENGTH - 1 = 255 := rfl
  rw [hn, writeAt_eq _ _ _ (by rw [length_strncpy_data]; omega), length_strncpy_data,
    List.take_zero, List.nil_append, Nat.zero_add, drop_255_of_last buf hlen hlast,
    List.take_of_length_le (by omega), List.append_assoc]
  congr 1
  rw [← List.replicate_succ, List.replicate_succ']

theorem cstr_entry (entry : Str) (k : Nat) (hz : 0 ∉ entry) :
    cstr (entry ++ 0 :: List.replicate k 0) = entry :=
  cstr_append_nul entry _ hz

theorem load_history_eq (sh : Shell) (idx : Int) (entry : Str)
    (h : history_at sh idx = some entry) (hlen : sh.cmd_buffer.length = 256)
    (hlast : sh.cmd_buffer[255]? = some 0) (hle : entry.length ≤ 255) (hz : 0 ∉ entry) :
    load_history sh idx =
      { sh with
        cmd_buffer := entry ++ 0 :: List.replicate (255 - entry.length) 0
        cmd_len := entry.length
        cmd_pos := entry.length } := by
  unfold load_history
  rw [h]
  simp only
  rw [strncpy_entry _ _ hlen hlast hle]
  unfold strlen
  rw [cstr_entry _ _ hz]
  have : entry.length % 65536 = entry.length := by omega
  rw [this]

theorem history_at_entry (sh : Shell) (h : Inv sh) (q : Nat) (hq1 : 1 ≤ q)
    (hq2 : q ≤ sh.history_count) :
    ∃ entry, history_at sh ((sh.history_count : Int) - (q : Int)) = some entry ∧
      (history_entries sh)[sh.history_count - q]? = some entry ∧
      entry.length ≤ 255 ∧ 0 ∉ entry := by
  obtain ⟨es, hes, hprops, _⟩ := h.entries
  have hl := take_eq_map_some_length (by have := h.hist_len; have := h.count_le; omega) hes
  have hlt : sh.history_count - q < es.length := by omega
  refine ⟨es[sh.history_count - q], ?_, ?_, ?_⟩
  · unfold history_at
    have hnn : ¬ ((sh.history_count : Int) - (q : Int) < 0) := by omega
    have hidx : ((sh.history_count : Int) - (q : Int)).toNat = sh.history_count - q := by omega
    rw [if_neg hnn, hidx]
    have : sh.history[sh.history_count - q]? = (es.map some)[sh.history_count - q]? := by
      rw [← hes, List.getElem?_take_of_lt (by omega)]
    rw [this, List.getElem?_map, List.getElem?_eq_getElem hlt]
    rfl
  · rw [history_entries_of_take sh es hes, List.getElem?_eq_getElem hlt]
  · have := hprops _ (List.getElem_mem hlt)
    exact ⟨this.2.1, this.2.2⟩

theorem redraw_line_fields (a : Shell) :
    ps_redraw_line a = { a with output := (ps_redraw_line a).output } := by
  simp only [ps_redraw_line, ps_vt100_cursor_move, ps_vt100_clear_line, ps_print, write_char]
  cases a.vt100_enabled <;> rfl

/-- C4: when the transport delivers ESC, `[`, `A` in a session state whose
history holds `history_count >= 1` entries and whose browse position `p` is
below that count, the browse position becomes `p + 1`, the line buffer holds
the entry at index `history_count - (p + 1)`, and cursor and length both equal
the length of that entry; with exactly one entry the buffer holds that
entry. -/
theorem up_arrow_recalls (E : Env) (sh : Shell) (rest : List Int) (h : Reachable E sh)
    (hin : sh.input = 27 :: 91 :: 65 :: rest) (hsize : 1 ≤ sh.history_count)
    (hp : sh.history_pos < sh.history_count) :
    ∃ entry sh1, (history_entries sh)[sh.history_count - (sh.history_pos + 1)]? = some entry ∧
      run_body E sh = .ok sh1 ∧ sh1.input = rest ∧
      sh1.history_pos = sh.history_pos + 1 ∧ cstr sh1.cmd_buffer = entry ∧
      sh1.cmd_pos = entry.length ∧ sh1.cmd_len = entry.length ∧
      history_entries sh1 = history_entries sh ∧
      (sh.history_count = 1 → history_entries sh = [entry]) := by
  have hi := Inv.of_reachable E h
  obtain ⟨entry, hat, hent, hle, hz⟩ :=
    history_at_entry sh hi (sh.history_pos + 1) (by omega) (by omega)
  have hinc : u16_inc sh.history_pos = sh.history_pos + 1 := by
    have := hi.size_lt
    have := hi.count_le
    unfold u16_inc
    omega
  have hat2 : history_at
      { sh with input := rest, history_pos := sh.history_pos + 1 }
      ((sh.history_count : Int) - ((sh.history_pos + 1 : Nat) : Int)) = some entry := hat
  have hrun : run_body E sh = .ok (ps_redraw_line
      { sh with
        input := rest
        history_pos := sh.history_pos + 1
        cmd_buffer := entry ++ 0 :: List.replicate (255 - entry.length) 0
        cmd_len := entry.length
        cmd_pos := entry.length }) := by
    rw [run_body_esc E sh _ hin, handle_escape_csi _ 65 rest rfl]
    simp only [if_true, hinc]
    rw [if_pos ⟨by omega, hp⟩, hat2, load_history_eq _ _ entry hat2 hi.buf_len hi.buf_last hle hz]
  refine ⟨entry, _, hent, hrun, ?_⟩
  rw [redraw_line_fields]
  refine ⟨rfl, rfl, cstr_entry _ _ hz, rfl, rfl, rfl, ?_⟩
  intro h1
  obtain ⟨es, hes, _, _⟩ := hi.entries
  have hl := take_eq_map_some_length (by have := hi.hist_len; have := hi.count_le; omega) hes
  rw [history_entries_of_take sh es hes] at hent ⊢
  have h0 : sh.history_count - (sh.history_pos + 1) = 0 := by omega
  rw [h0] at hent
  match es, hl, hent with
  | [e], _, hent =>
    simp only [List.getElem?_cons_zero, Option.some.injEq] at hent
    rw [hent]
  | [], hl, _ => simp at hl; omega
  | _ :: _ :: _, hl, _ => simp at hl; omega

set_option maxRecDepth 1000000 in
/-- Witness for C4: one entry `hi` in the history, then the Up arrow. -/
theorem up_arrow_recalls_witness :
    (Reachable demo_env (demo_run "hi\n\x1b[A" 3) ∧
      (demo_run "hi\n\x1b[A" 3).input = 27 :: 91 :: 65 :: [] ∧
      1 ≤ (demo_run "hi\n\x1b[A" 3).history_count ∧
      (demo_run "hi\n\x1b[A" 3).history_pos < (demo_run "hi\n\x1b[A" 3).history_count) ∧
    ∃ entry sh1,
      (history_entries (demo_run "hi\n\x1b[A" 3))[(demo_run "hi\n\x1b[A" 3).history_count -
        ((demo_run "hi\n\x1b[A" 3).history_pos + 1)]? = some entry ∧
      run_body demo_env (demo_run "hi\n\x1b[A" 3) = .ok sh1 ∧ sh1.input = [] ∧
      sh1.history_pos = (demo_run "hi\n\x1b[A" 3).history_pos + 1 ∧
      cstr sh1.cmd_buffer = entry ∧
      sh1.cmd_pos = entry.length ∧ sh1.cmd_len = entry.length ∧
      history_entries sh1 = history_entries (demo_run "hi\n\x1b[A" 3) ∧
      ((demo_run "hi\n\x1b[A" 3).history_count = 1 →
        history_entries (demo_run "hi\n\x1b[A" 3) = [entry]) :=
  ⟨⟨demo_reachable _ _ (by rfl), by rfl, by decide, by decide⟩,
    up_arrow_recalls demo_env _ [] (demo_reachable _ _ (by rfl)) (by rfl) (by decide)
      (by decide)⟩

theorem cstr_set_zero (buf : List Nat) : cstr (buf.set 0 0) = [] := by
  cases buf with
  | nil => rfl
  | cons x xs => simp [cstr]

/-- C6: history browsing never wraps.  In every session state the browse
position is at most the number of entries; the Up arrow at the oldest entry
and the Down arrow at position 0 change nothing but the consumed input; the
Down arrow from position 1 gives position 0 and an empty line (length 0,
cursor 0); the Down arrow from a position `p > 1` gives position `p - 1` and
the entry at index `history_count - (p - 1)` with the cursor at its end. -/
theorem history_browsing_never_wraps (E : Env) (sh : Shell) (rest : List Int)
    (h : Reachable E sh) :
    sh.history_pos ≤ sh.history_count ∧
    (sh.input = 27 :: 91 :: 65 :: rest → sh.history_pos = sh.history_count →
      run_body E sh = .ok { sh with input := rest }) ∧
    (sh.input = 27 :: 91 :: 66 :: rest → sh.history_pos = 0 →
      run_body E sh = .ok { sh with input := rest }) ∧
    (sh.input = 27 :: 91 :: 66 :: rest → sh.history_pos = 1 →
      ∃ sh1, run_body E sh = .ok sh1 ∧ sh1.input = rest ∧ sh1.history_pos = 0 ∧
        sh1.cmd_len = 0 ∧ sh1.cmd_pos = 0 ∧ cstr sh1.cmd_buffer = [] ∧
        history_entries sh1 = history_entries sh) ∧
    (sh.input = 27 :: 91 :: 66 :: rest → 1 < sh.history_pos →
      ∃ entry sh1,
        (history_entries sh)[sh.history_count - (sh.history_pos - 1)]? = some entry ∧
        run_body E sh = .ok sh1 ∧ sh1.input = rest ∧
        sh1.history_pos = sh.history_pos - 1 ∧ cstr sh1.cmd_buffer = entry ∧
        sh1.cmd_pos = entry.length ∧ sh1.cmd_len = entry.length ∧
        history_entries sh1 = history_entries sh) := by
  have hi := Inv.of_reachable E h
  have hsz := hi.size_lt
  have hcl := hi.count_le
  have hpc := hi.hpos_le
  refine ⟨hpc, ?_, ?_, ?_, ?_⟩
  · intro hin hp
    rw [run_body_esc E sh _ hin, handle_escape_csi _ 65 rest rfl]
    simp only [if_true]
    rw [if_neg (by omega)]
  · intro hin hp
    rw [run_body_esc E sh _ hin, handle_escape_csi _ 66 rest rfl]
    simp only [if_true]
    rw [if_neg (by decide), if_neg (by omega)]
  · intro hin hp
    have hdec : u16_dec sh.history_pos = 0 := by unfold u16_dec; omega
    refine ⟨ps_redraw_line
      { sh with
        input := rest
        history_pos := 0
        cmd_buffer := sh.cmd_buffer.set 0 0
        cmd_len := 0
        cmd_pos := 0 }, ?_, ?_⟩
    · rw [run_body_esc E sh _ hin, handle_escape_csi _ 66 rest rfl]
      simp only [if_true, hdec]
      rw [if_neg (by decide), if_pos (by omega)]
    · rw [redraw_line_fields]
      exact ⟨rfl, rfl, rfl, rfl, cstr_set_zero _, rfl⟩
  · intro hin hp
    obtain ⟨entry, hat, hent, hle, hz⟩ :=
      history_at_entry sh hi (sh.history_pos - 1) (by omega) (by omega)
    have hdec : u16_dec sh.history_pos = sh.history_pos - 1 := by unfold u16_dec; omega
    have hat2 : history_at
        { sh with input := rest, history_pos := sh.history_pos - 1 }
        ((sh.history_count : Int) - ((sh.history_pos - 1 : Nat) : Int)) = some entry := hat
    refine ⟨entry, ps_redraw_line
      { sh with
        input := rest
        history_pos := sh.history_pos - 1
        cmd_buffer := entry ++ 0 :: List.replicate (255 - entry.length) 0
        cmd_len := entry.length
        cmd_pos := entry.length }, hent, ?_, ?_⟩
    · rw [run_body_esc E sh _ hin, handle_escape_csi _ 66 rest rfl]
      simp only [if_true, hdec]
      rw [if_neg (by decide), if_pos (by omega), if_neg (by omega),
        load_history_eq _ _ entry hat2 hi.buf_len hi.buf_last hle hz]
    · rw [redraw_line_fields]
      exact ⟨rfl, rfl, cstr_entry _ _ hz, rfl, rfl, rfl⟩

set_option maxRecDepth 1000000 in
/-- Witness for C6: with the single entry `a` recalled, a second Up arrow
changes nothing. -/
theorem history_browsing_never_wraps_witness :
    Reachable demo_env (demo_run "a\n\x1b[A\x1b[A\x1b[B" 3) ∧
      (demo_run "a\n\x1b[A\x1b[A\x1b[B" 3).input = 27 :: 91 :: 65 :: [27, 91, 66] ∧
      (demo_run "a\n\x1b[A\x1b[A\x1b[B" 3).history_pos =
        (demo_run "a\n\x1b[A\x1b[A\x1b[B" 3).history_count ∧
      run_body demo_env (demo_run "a\n\x1b[A\x1b[A\x1b[B" 3) =
        .ok { demo_run "a\n\x1b[A\x1b[A\x1b[B" 3 with input := [27, 91, 66] } :=
  ⟨demo_reachable _ _ (by rfl), by rfl, by rfl,
    (history_browsing_never_wraps demo_env _ [27, 91, 66] (demo_reachable _ _ (by rfl))).2.1
      (by rfl) (by rfl)⟩

/-! ## C5: the browse position after Enter -/

set_option maxRecDepth 1000000 in
/-- C5 (the code at the failing input): the transport delivers `a`, Enter, Up,
Enter, Up.  The second Enter submits the recalled line `a`, which equals the
newest entry; `ps_add_to_history` returns before it resets `history_pos`, so
the browse position stays 1 and the following Up arrow recalls nothing although
the history holds `a`. -/
theorem enter_on_recalled_line_keeps_browse_position :
    history_entries (demo_run "a\n\x1b[A\n\x1b[A" 4) = [bytes "a"] ∧
      (demo_run "a\n\x1b[A\n\x1b[A" 3).history_pos = 1 ∧
      cstr (demo_run "a\n\x1b[A\n\x1b[A" 3).cmd_buffer = bytes "a" ∧
      run_steps demo_env 4 (demo_create "a\n\x1b[A\n\x1b[A") =
        .ok (demo_run "a\n\x1b[A\n\x1b[A" 4) ∧
      (demo_run "a\n\x1b[A\n\x1b[A" 4).history_pos = 1 ∧
      (demo_run "a\n\x1b[A\n\x1b[A" 4).cmd_len = 0 ∧
      run_steps demo_env 5 (demo_create "a\n\x1b[A\n\x1b[A") =
        .ok (demo_run "a\n\x1b[A\n\x1b[A" 5) ∧
      (demo_run "a\n\x1b[A\n\x1b[A" 5).input = [] ∧
      (demo_run "a\n\x1b[A\n\x1b[A" 5).cmd_len = 0 ∧
      cstr (demo_run "a\n\x1b[A\n\x1b[A" 5).cmd_buffer = [] :=
  ⟨by rfl, by rfl, by rfl, by rfl, by rfl, by rfl, by rfl, by rfl, by rfl, by rfl⟩

/-! ## C7: the last registered command wins -/

theorem find_command_head (name : Str) (help : Option Str) (f : PSCommandFunc)
    (cs : List PSCommand) :
    find_command name ({ name := name, help := help, func := f } :: cs) =
      some { name := name, help := help, func := f } := by
  simp [find_command]

/-- C7: for every state of the command list (the built-ins included), every
name and every callback `f`, after `ps_register_command` of `f` under that
name the search of the dispatcher finds the new node, and the dispatch of a
line whose first token is that name is the one call `f(shell, argc, argv)`;
no node registered earlier under the name is called. -/
theorem last_registered_wins (E : Env) (sh : Shell) (name : Str) (help : Option Str)
    (f : PSCommandFunc) (args : List Str)
    (hline : ps_parse_args (cstr sh.cmd_buffer) = name :: args) :
    (ps_register_command sh (some name) help (some f)).1 = 0 ∧
      find_command name (ps_register_command sh (some name) help (some f)).2.commands =
        some { name := name, help := help, func := f } ∧
      ps_execute_command E (ps_register_command sh (some name) help (some f)).2 =
        call_func E f (ps_register_command sh (some name) help (some f)).2 (name :: args) := by
  refine ⟨rfl, find_command_head _ _ _ _, ?_⟩
  unfold ps_execute_command
  have hbuf : (ps_register_command sh (some name) help (some f)).2.cmd_buffer =
      sh.cmd_buffer := rfl
  rw [hbuf, hline]
  simp only
  have hfind : find_command name (ps_register_command sh (some name) help (some f)).2.commands =
      some { name := name, help := help, func := f } := find_command_head _ _ _ _
  rw [hfind]

set_option maxRecDepth 1000000 in
/-- Witness for C7: `status` is typed, callback 1 and then callback 2 are
registered under that name; the dispatch writes the byte of callback 2 only. -/
theorem last_registered_wins_witness :
    ps_parse_args (cstr
        (ps_register_command (demo_run "status" 6) (some (bytes "status")) none
          (some (.user 1))).2.cmd_buffer) = bytes "status" :: [] ∧
      (ps_execute_command demo_env
          (ps_register_command
            (ps_register_command (demo_run "status" 6) (some (bytes "status")) none
              (some (.user 1))).2
            (some (bytes "status")) none (some (.user 2))).2 =
        call_func demo_env (.user 2)
          (ps_register_command
            (ps_register_command (demo_run "status" 6) (some (bytes "status")) none
              (some (.user 1))).2
            (some (bytes "status")) none (some (.user 2))).2 (bytes "status" :: [])) ∧
      (returned ((ps_execute_command demo_env
          (ps_register_command
            (ps_register_command (demo_run "status" 6) (some (bytes "status")) none
              (some (.user 1))).2
            (some (bytes "status")) none (some (.user 2))).2).map Prod.snd)
          (demo_run "status" 6)).output = (demo_run "status" 6).output ++ [2] :=
  ⟨by rfl,
    (last_registered_wins demo_env
      (ps_register_command (demo_run "status" 6) (some (bytes "status")) none
        (some (.user 1))).2 (bytes "status") none (.user 2) [] (by rfl)).2.2,
    by rfl⟩

/-! ## C8: the argument vector -/

theorem splitOnP_eq_takeWhile (s : Str) :
    s.splitOnP is_delim =
      s.takeWhile (fun x => !is_delim x) ::
        (match s.dropWhile (fun x => !is_delim x) with
         | [] => []
         | _ :: r => r.splitOnP is_delim) := by
  induction s with
  | nil => rfl
  | cons x xs ih =>
    rw [List.splitOnP_cons]
    by_cases hx : is_delim x = true
    · simp [hx, List.takeWhile_cons, List.dropWhile_cons]
    · have hx2 : is_delim x = false := by simpa using hx
      rw [ih]
      simp [hx2, List.takeWhile_cons, List.dropWhile_cons, List.modifyHead]

theorem token_runs_dropWhile (s : Str) :
    token_runs (s.dropWhile is_delim) = token_runs s := by
  induction s with
  | nil => rfl
  | cons x xs ih =>
    by_cases hx : is_delim x = true
    · rw [List.dropWhile_cons, if_pos hx, ih]
      unfold token_runs
      rw [List.splitOnP_cons, if_pos hx]
      simp
    · rw [List.dropWhile_cons, if_neg hx]

theorem token_runs_cons (c : Nat) (r : Str) (hc : is_delim c = false) :
    token_runs (c :: r) =
      (c :: r).takeWhile (fun x => !is_delim x) ::
        token_runs (((c :: r).dropWhile (fun x => !is_delim x)).drop 1) := by
  unfold token_runs
  rw [splitOnP_eq_takeWhile (c :: r)]
  have hne : (c :: r).takeWhile (fun x => !is_delim x) ≠ [] := by
    simp [List.takeWhile_cons, hc]
  rw [List.filter_cons_of_pos (by simpa using hne)]
  congr 1
  cases (c :: r).dropWhile (fun x => !is_delim x) with
  | nil => rfl
  | cons y ys => rfl

theorem dropWhile_head_not (s : Str) (c : Nat) (r : Str)
    (h : s.dropWhile is_delim = c :: r) : is_delim c = false := by
  induction s with
  | nil => simp at h
  | cons x xs ih =>
    rw [List.dropWhile_cons] at h
    split at h
    · exact ih h
    · rename_i hx
      simp only [List.cons.injEq] at h
      rw [← h.1]
      simpa using hx

theorem parse_loop_eq (n : Nat) (s : Str) : parse_loop n s = (token_runs s).take n := by
  induction n generalizing s with
  | zero => simp [parse_loop]
  | succ n ih =>
    unfold parse_loop strtok
    cases hd : s.dropWhile is_delim with
    | nil =>
      have : token_runs s = [] := by
        rw [← token_runs_dropWhile, hd]
        rfl
      simp [this]
    | cons c r =>
      have hc := dropWhile_head_not s c r hd
      simp only
      rw [ih, ← token_runs_dropWhile s, hd, token_runs_cons c r hc, List.take_succ_cons]

theorem parse_loop_tokens (n : Nat) (s : Str) :
    ∀ t ∈ parse_loop n s, t ≠ [] ∧ ∀ c ∈ t, c ≠ 32 ∧ c ≠ 9 := by
  induction n generalizing s with
  | zero => simp [parse_loop]
  | succ n ih =>
    unfold parse_loop strtok
    cases hd : s.dropWhile is_delim with
    | nil => simp
    | cons c r =>
      have hc := dropWhile_head_not s c r hd
      simp only
      intro t ht
      rcases List.mem_cons.mp ht with h | h
      · subst h
        constructor
        · simp [List.takeWhile_cons, hc]
        · intro x hx
          have := List.mem_takeWhile_imp hx
          simp only [is_delim, Bool.not_eq_true', Bool.or_eq_false_iff, beq_eq_false_iff_ne,
            ne_eq] at this
          exact this
      · exact ih _ t h

/-- C8: for every line the argument vector is the first `min(k, 16)` of the
`k` maximal runs of bytes other than space and tab, in their order; no token
is empty, no token contains a space or a tab, and the runs after the 16th are
dropped. -/
theorem parse_args_token_runs (line : Str) :
    ps_parse_args line = (token_runs line).take 16 ∧
      (ps_parse_args line).length = min (token_runs line).length 16 ∧
      (∀ t ∈ ps_parse_args line, t ≠ [] ∧ ∀ c ∈ t, c ≠ 32 ∧ c ≠ 9) := by
  have h : ps_parse_args line = (token_runs line).take 16 := parse_loop_eq 16 line
  refine ⟨h, ?_, parse_loop_tokens 16 line⟩
  rw [h, List.length_take, Nat.min_comm]

/-! ## C9: Enter on an unknown command -/

theorem print_prompt_eq (a : Shell) :
    ps_print_prompt a = { a with output := a.output ++ prompt_output a } := by
  unfold ps_print_prompt prompt_output
  by_cases h : a.vt100_enabled = true
  · have e : snprintf 32 (bytes "\x1b[" ++ fmt_d 32 ++ bytes "m") = bytes "\x1b[32m" := by
      decide
    have e2 : snprintf 32 (bytes "\x1b[" ++ (fmt_d 32 ++ bytes "m")) = bytes "\x1b[32m" := e
    have hneg : ¬ ((-1 : Int) ≥ 0) := by decide
    rw [if_pos h, if_pos h]
    simp only [ps_vt100_reset, ps_vt100_color, ps_print, h, if_true, hneg, if_false, e, e2,
      List.append_assoc]
  · rw [if_neg h, if_neg h]
    rfl

theorem add_to_history_congr (sh : Shell) (o : List Nat) (b : List Nat) (cmd : Str) :
    ps_add_to_history { sh with output := o, cmd_buffer := b } cmd =
      { ps_add_to_history sh cmd with output := o, cmd_buffer := b } := by
  unfold ps_add_to_history
  simp only [history_at]
  split_ifs <;> rfl

/-- C9 (as amended): for every typed line whose first token names no
registered command, Enter leaves the line buffer cleared (length 0, cursor 0),
writes a newline, `Command not found: <token>`, a newline and the prompt, and
alters no parameter and no parameter value; the history is changed exactly
as the commit of the line by `ps_add_to_history` changes it, which happens
before the dispatch, and the dispatch itself changes no history state. -/
theorem enter_unknown_command (E : Env) (sh : Shell) (c : Nat) (tok : Str) (args : List Str)
    (hc : c = 13 ∨ c = 10) (hlen : 0 < sh.cmd_len)
    (hparse : ps_parse_args (cstr (sh.cmd_buffer.set sh.cmd_len 0)) = tok :: args)
    (hfind : find_command tok sh.commands = none) :
    ∃ sh1, ps_process_char E sh c = .ok sh1 ∧
      sh1.cmd_len = 0 ∧ sh1.cmd_pos = 0 ∧ cstr sh1.cmd_buffer = [] ∧
      sh1.output = sh.output ++ [10] ++ bytes "Command not found: " ++ tok ++ [10]
        ++ prompt_output sh ∧
      sh1.mem = sh.mem ∧ sh1.parameters = sh.parameters ∧
      sh1.history =
        (ps_add_to_history sh (cstr (sh.cmd_buffer.set sh.cmd_len 0))).history ∧
      sh1.history_count =
        (ps_add_to_history sh (cstr (sh.cmd_buffer.set sh.cmd_len 0))).history_count ∧
      sh1.history_pos =
        (ps_add_to_history sh (cstr (sh.cmd_buffer.set sh.cmd_len 0))).history_pos ∧
      ps_execute_command E
          (ps_add_to_history { sh with cmd_buffer := sh.cmd_buffer.set sh.cmd_len 0 }
            (cstr (sh.cmd_buffer.set sh.cmd_len 0))) =
        .ok (-1, ps_println (ps_print
          (ps_add_to_history { sh with cmd_buffer := sh.cmd_buffer.set sh.cmd_len 0 }
            (cstr (sh.cmd_buffer.set sh.cmd_len 0))) (bytes "Command not found: ")) tok) := by
  have hk1 : ¬ c = PS_KEY_CTRL_C := by rcases hc with h | h <;> subst h <;> decide
  have hk2 : ¬ c = PS_KEY_CTRL_L := by rcases hc with h | h <;> subst h <;> decide
  have hk3 : c = PS_KEY_ENTER ∨ c = 10 := hc
  have hex : ∀ o, ps_execute_command E
      (ps_add_to_history { sh with output := o, cmd_buffer := sh.cmd_buffer.set sh.cmd_len 0 }
        (cstr (sh.cmd_buffer.set sh.cmd_len 0))) =
      .ok (-1, ps_println (ps_print
        (ps_add_to_history
          { sh with output := o, cmd_buffer := sh.cmd_buffer.set sh.cmd_len 0 }
          (cstr (sh.cmd_buffer.set sh.cmd_len 0))) (bytes "Command not found: ")) tok) := by
    intro o
    unfold ps_execute_command
    rw [add_to_history_congr, add_to_history_fields]
    simp only
    rw [hparse]
    simp only
    rw [hfind]
  have hstep : ps_process_char E sh c = .ok (ps_print_prompt
      { ps_println (ps_print (ps_add_to_history
          { sh with output := sh.output ++ [] ++ [10],
                    cmd_buffer := sh.cmd_buffer.set sh.cmd_len 0 }
          (cstr (sh.cmd_buffer.set sh.cmd_len 0))) (bytes "Command not found: ")) tok with
        cmd_len := 0
        cmd_pos := 0
        cmd_buffer := (ps_add_to_history
          { sh with output := sh.output ++ [] ++ [10],
                    cmd_buffer := sh.cmd_buffer.set sh.cmd_len 0 }
          (cstr (sh.cmd_buffer.set sh.cmd_len 0))).cmd_buffer.set 0 0 }) := by
    unfold ps_process_char
    rw [if_neg hk1, if_neg hk2, if_pos hk3]
    simp only [ps_println, ps_print, write_char]
    rw [if_pos hlen]
    have := hex (sh.output ++ [] ++ [10])
    simp only [ps_println, ps_print, write_char] at this
    rw [this]
  refine ⟨_, hstep, ?_⟩
  · rw [print_prompt_eq, add_to_history_congr, add_to_history_fields]
    refine ⟨rfl, rfl, cstr_set_zero _, ?_, rfl, rfl, rfl, rfl, rfl, ?_⟩
    · simp [ps_println, ps_print, write_char, prompt_output]
    · have := hex sh.output
      exact this

set_option maxRecDepth 1000000 in
/-- Witness for the amended C9: `frobnicate` typed into the example shell, then
Enter. -/
theorem enter_unknown_command_witness :
    ((10 = 13 ∨ 10 = 10) ∧ 0 < (demo_run "frobnicate\n" 10).cmd_len ∧
      ps_parse_args (cstr ((demo_run "frobnicate\n" 10).cmd_buffer.set
        (demo_run "frobnicate\n" 10).cmd_len 0)) = bytes "frobnicate" :: [] ∧
      find_command (bytes "frobnicate") (demo_run "frobnicate\n" 10).commands = none) ∧
    ∃ sh1, ps_process_char demo_env (demo_run "frobnicate\n" 10) 10 = .ok sh1 ∧
      sh1.cmd_len = 0 ∧ sh1.cmd_pos = 0 ∧
      sh1.output = (demo_run "frobnicate\n" 10).output ++ [10] ++ bytes "Command not found: "
        ++ bytes "frobnicate" ++ [10] ++ prompt_output (demo_run "frobnicate\n" 10) ∧
      sh1.mem = (demo_run "frobnicate\n" 10).mem :=
  ⟨⟨by decide, by decide, by rfl, by rfl⟩,
    match enter_unknown_command demo_env (demo_run "frobnicate\n" 10) 10 (bytes "frobnicate") []
      (by decide) (by decide) (by rfl) (by rfl) with
    | ⟨sh1, h1, h2, h3, _, h5, h6, _⟩ => ⟨sh1, h1, h2, h3, h5, h6⟩⟩

set_option maxRecDepth 1000000 in
/-- C9 (counterexample): in the example shell with an empty history the line
`frobnicate` names no command, and Enter stores it: the history holds one entry
afterwards. -/
theorem unknown_command_changes_history :
    find_command (bytes "frobnicate") (demo_run "frobnicate\n" 10).commands = none ∧
      ps_parse_args (cstr (demo_run "frobnicate\n" 10).cmd_buffer) = [bytes "frobnicate"] ∧
      (demo_run "frobnicate\n" 10).input = [10] ∧
      run_body demo_env (demo_run "frobnicate\n" 10) = .ok (demo_run "frobnicate\n" 11) ∧
      history_entries (demo_run "frobnicate\n" 10) = [] ∧
      (demo_run "frobnicate\n" 10).history_count = 0 ∧
      history_entries (demo_run "frobnicate\n" 11) = [bytes "frobnicate"] ∧
      (demo_run "frobnicate\n" 11).history_count = 1 ∧
      history_entries (demo_run "frobnicate\n" 11) ≠
        history_entries (demo_run "frobnicate\n" 10) :=
  ⟨by rfl, by rfl, by rfl, by rfl, by rfl, by rfl, by rfl, by rfl, by decide⟩

/-! ## C10: the round trip of `set` and `get` for an `int` -/

theorem decimalAux_spec (fuel n : Nat) (acc : List Nat) (h : n < fuel) :
    ∃ ds : List Nat, decimalAux fuel n acc = ds ++ acc ∧ ds ≠ [] ∧
      (∀ d ∈ ds, 48 ≤ d ∧ d ≤ 57) ∧
      (∀ a : Nat, ds.foldl (fun a d => 10 * a + (d - 48)) a = a * 10 ^ ds.length + n) ∧
      (∀ k : Nat, 1 ≤ k → n < 10 ^ k → ds.length ≤ k) := by
  induction fuel generalizing n acc with
  | zero => omega
  | succ fuel ih =>
    unfold decimalAux
    by_cases hn : n < 10
    · rw [if_pos hn]
      refine ⟨[48 + n], rfl, by simp, ?_, ?_, ?_⟩
      · intro d hd
        simp only [List.mem_singleton] at hd
        omega
      · intro a
        simp only [List.foldl_cons, List.foldl_nil, List.length_singleton, pow_one]
        omega
      · intro k hk _
        simpa using hk
    · rw [if_neg hn]
      obtain ⟨ds, hds, _, hdig, hval, hlen⟩ := ih (n / 10) ((48 + n % 10) :: acc) (by omega)
      refine ⟨ds ++ [48 + n % 10], by rw [hds]; simp, by simp, ?_, ?_, ?_⟩
      · intro d hd
        rcases List.mem_append.mp hd with h1 | h1
        · exact hdig d h1
        · simp only [List.mem_singleton] at h1
          omega
      · intro a
        rw [List.foldl_append, hval a]
        simp only [List.foldl_cons, List.foldl_nil, List.length_append, List.length_singleton,
          pow_succ]
        have e : 48 + n % 10 - 48 = n % 10 := by omega
        rw [e]
        have := Nat.div_add_mod n 10
        nlinarith [this]
      · intro k hk hnk
        have hk2 : 2 ≤ k := by
          by_contra hcon
          have : k = 1 := by omega
          subst this
          simp at hnk
          omega
        have hlt : n / 10 < 10 ^ (k - 1) := by
          rw [Nat.div_lt_iff_lt_mul (by decide)]
          have : 10 ^ k = 10 ^ (k - 1) * 10 := by
            rw [← pow_succ]
            congr 1
            omega
          omega
        have := hlen (k - 1) (by omega) hlt
        simp only [List.length_append, List.length_singleton]
        omega

theorem fmt_nat_spec (n : Nat) :
    fmt_nat n ≠ [] ∧ (∀ d ∈ fmt_nat n, 48 ≤ d ∧ d ≤ 57) ∧ digits_value (fmt_nat n) = n ∧
      (∀ k : Nat, 1 ≤ k → n < 10 ^ k → (fmt_nat n).length ≤ k) := by
  obtain ⟨ds, hds, hne, hdig, hval, hlen⟩ := decimalAux_spec (n + 1) n [] (by omega)
  unfold fmt_nat digits_value
  rw [hds, List.append_nil]
  refine ⟨hne, hdig, ?_, hlen⟩
  rw [hval 0]
  simp

theorem to_int32_clamp_long (v : Int) (h1 : -(2 ^ 31) ≤ v) (h2 : v < 2 ^ 31) :
    to_int32 (clamp_long v) = v := by
  unfold to_int32 clamp_long
  have e31 : (2 : Int) ^ 31 = 2147483648 := by norm_num
  have e32 : (2 : Int) ^ 32 = 4294967296 := by norm_num
  have e63 : (2 : Int) ^ 63 = 9223372036854775808 := by norm_num
  rw [e31] at h1 h2
  rw [e31, e32, e63]
  rw [if_neg (by omega), if_neg (by omega)]
  omega

theorem takeWhile_isdigit_fmt_nat (n : Nat) :
    (fmt_nat n).takeWhile isdigit = fmt_nat n := by
  rw [List.takeWhile_eq_self_iff]
  intro d hd
  have := (fmt_nat_spec n).2.1 d hd
  simp [isdigit, this.1, this.2]

theorem atoi_fmt_d (n : Int) (h1 : -(2 ^ 31) ≤ n) (h2 : n < 2 ^ 31) :
    atoi (fmt_d n) = n := by
  obtain ⟨hne, hdig, hval, _⟩ := fmt_nat_spec n.toNat
  obtain ⟨hne2, hdig2, hval2, _⟩ := fmt_nat_spec n.natAbs
  unfold atoi fmt_d
  by_cases hn : n < 0
  · rw [if_pos hn]
    have hsp : (45 :: fmt_nat n.natAbs).dropWhile isspace = 45 :: fmt_nat n.natAbs := by
      rw [List.dropWhile_cons, if_neg (by decide)]
    simp only [hsp]
    rw [takeWhile_isdigit_fmt_nat, hval2, to_int32_clamp_long _ (by omega) (by omega)]
    omega
  · rw [if_neg hn]
    match hfm : fmt_nat n.toNat, hne, hdig with
    | d :: r, _, hdig =>
      have hd := hdig d (List.mem_cons_self _ _)
      have hsp : (d :: r).dropWhile isspace = d :: r := by
        rw [List.dropWhile_cons, if_neg]
        simp [isspace]
        omega
      simp only [hsp]
      have h45 : d ≠ 45 := by omega
      have h43 : d ≠ 43 := by omega
      have htw : (d :: r).takeWhile isdigit = d :: r := by
        rw [← hfm]
        exact takeWhile_isdigit_fmt_nat _
      split
      · rename_i heq
        simp only [List.cons.injEq] at heq
        exact absurd heq.1 h45
      · rename_i heq
        simp only [List.cons.injEq] at heq
        exact absurd heq.1 h43
      · rw [htw, ← hfm, hval, to_int32_clamp_long _ (by omega) (by omega)]
        omega

theorem length_fmt_d (n : Int) (h1 : -(2 ^ 31) ≤ n) (h2 : n < 2 ^ 31) :
    (fmt_d n).length ≤ 11 := by
  have e31 : (2 : Int) ^ 31 = 2147483648 := by norm_num
  rw [e31] at h1 h2
  have e10 : (10 : Nat) ^ 10 = 10000000000 := by norm_num
  unfold fmt_d
  split
  · have := (fmt_nat_spec n.natAbs).2.2.2 10 (by decide) (by rw [e10]; omega)
    simp only [List.length_cons]
    omega
  · have := (fmt_nat_spec n.toNat).2.2.2 10 (by decide) (by rw [e10]; omega)
    omega

theorem lt_length_of_getElem? {α : Type} (l : List α) (i : Nat) (a : α)
    (h : l[i]? = some a) : i < l.length := by
  by_contra hcon
  rw [List.getElem?_eq_none (by omega)] at h
  cases h

/-- C10: for every parameter `x` found by lookup whose type is `int` and whose
storage holds an `int`, and every `n` with `-2^31 <= n < 2^31`, the command
`set x <decimal n>` returns 0 and stores `n`, and the following `get x` returns
0 and writes exactly `x = <decimal n>` and a newline. -/
theorem set_get_int_round_trip (E : Env) (sh : Shell) (x : Str) (n : Int) (p : PSParameter)
    (v0 : Int) (hn1 : -(2 ^ 31) ≤ n) (hn2 : n < 2 ^ 31)
    (hp : ps_get_parameter sh x = some p) (ht : p.type = .PS_PARAM_INT)
    (hv : sh.mem[p.value_ptr]? = some (.int v0)) :
    ∃ sh1 sh2, ps_cmd_set E sh [bytes "set", x, fmt_d n] = .ok (0, sh1) ∧
      sh1.mem[p.value_ptr]? = some (.int n) ∧
      ps_cmd_get E sh1 [bytes "get", x] = .ok (0, sh2) ∧
      sh2.output = sh1.output ++ (x ++ bytes " = " ++ fmt_d n ++ [10]) ∧
      sh2.mem = sh1.mem := by
  have hlt := lt_length_of_getElem? _ _ _ hv
  have hset : ps_cmd_set E sh [bytes "set", x, fmt_d n] = .ok (0,
      ps_println (ps_print (ps_print (ps_print
        { sh with mem := sh.mem.set p.value_ptr (.int n) } (bytes "Set ")) x) (bytes " = "))
        (fmt_d n)) := by
    unfold ps_cmd_set
    simp only
    rw [hp]
    simp only
    rw [ht, hv]
    simp only
    rw [atoi_fmt_d n hn1 hn2]
  obtain ⟨s1, hs1⟩ : ∃ s1, s1 = ps_println (ps_print (ps_print (ps_print
      { sh with mem := sh.mem.set p.value_ptr (.int n) } (bytes "Set ")) x) (bytes " = "))
      (fmt_d n) := ⟨_, rfl⟩
  rw [← hs1] at hset
  have hp1 : ps_get_parameter s1 x = some p := by
    rw [hs1]
    exact hp
  have hm1 : s1.mem[p.value_ptr]? = some (.int n) := by
    rw [hs1]
    show (sh.mem.set p.value_ptr (.int n))[p.value_ptr]? = some (.int n)
    rw [List.getElem?_set_self hlt]
  have hsn : snprintf 128 (fmt_d n) = fmt_d n := by
    unfold snprintf
    rw [List.take_of_length_le]
    have := length_fmt_d n hn1 hn2
    omega
  have hget : ps_cmd_get E s1 [bytes "get", x] = .ok (0,
      ps_println (ps_print (ps_print s1 x) (bytes " = ")) (fmt_d n)) := by
    unfold ps_cmd_get
    simp only
    rw [hp1]
    simp only
    have hm : (ps_print (ps_print s1 x) (bytes " = ")).mem[p.value_ptr]? =
        some (.int n) := hm1
    rw [ht, hm]
    simp only
    rw [hsn]
  refine ⟨s1, _, hset, hm1, hget, ?_, rfl⟩
  simp [ps_println, ps_print, write_char]

set_option maxRecDepth 1000000 in
/-- Witness for C10: the `int` parameter `x` registered at 5, and `n = -10`,
whose decimal text is `-10`. -/
theorem set_get_int_round_trip_witness :
    (-(2 ^ 31) ≤ (-10 : Int) ∧ (-10 : Int) < 2 ^ 31 ∧
      ps_get_parameter
        (ps_register_parameter (ps_create none [] [.int 5]) (some (bytes "x"))
          .PS_PARAM_INT (some 0) 0).2 (bytes "x") =
        some { name := bytes "x", type := .PS_PARAM_INT, value_ptr := 0, max_size := 0 } ∧
      (ps_register_parameter (ps_create none [] [.int 5]) (some (bytes "x"))
          .PS_PARAM_INT (some 0) 0).2.mem[0]? = some (.int 5) ∧
      fmt_d (-10) = bytes "-10") ∧
    ∃ sh1 sh2,
      ps_cmd_set demo_env
        (ps_register_parameter (ps_create none [] [.int 5]) (some (bytes "x"))
          .PS_PARAM_INT (some 0) 0).2 [bytes "set", bytes "x", fmt_d (-10)] = .ok (0, sh1) ∧
      sh1.mem[(0 : Nat)]? = some (.int (-10)) ∧
      ps_cmd_get demo_env sh1 [bytes "get", bytes "x"] = .ok (0, sh2) ∧
      sh2.output = sh1.output ++ (bytes "x" ++ bytes " = " ++ fmt_d (-10) ++ [10]) ∧
      sh2.mem = sh1.mem :=
  ⟨⟨by decide, by decide, by rfl, by rfl, by decide⟩,
    set_get_int_round_trip demo_env
      (ps_register_parameter (ps_create none [] [.int 5]) (some (bytes "x"))
        .PS_PARAM_INT (some 0) 0).2 (bytes "x") (-10)
      { name := bytes "x", type := .PS_PARAM_INT, value_ptr := 0, max_size := 0 } 5
      (by decide) (by decide) (by rfl) rfl (by rfl)⟩

/-! ## C19: the renderer with VT100 off, and the bell -/

/-- C19: with `vt100_enabled` false every renderer operation returns the state
it was given, so it writes no byte, for every argument; `ps_bell` appends
exactly the byte 0x07 to the output whatever the flag is, and changes nothing
else. -/
theorem renderer_noop_when_disabled (sh : Shell) (col n fg bg : Int)
    (h : sh.vt100_enabled = false) :
    ps_vt100_clear_screen sh = sh ∧ ps_vt100_clear_line sh = sh ∧
      ps_vt100_cursor_home sh = sh ∧ ps_vt100_cursor_move sh col = sh ∧
      ps_vt100_cursor_left sh n = sh ∧ ps_vt100_cursor_right sh n = sh ∧
      ps_vt100_color sh fg bg = sh ∧ ps_vt100_reset sh = sh ∧
      (∀ a : Shell, ps_bell a = { a with output := a.output ++ [7] }) := by
  refine ⟨?_, ?_, ?_, ?_, ?_, ?_, ?_, ?_, fun a => rfl⟩
  · simp [ps_vt100_clear_screen, h]
  · simp [ps_vt100_clear_line, h]
  · simp [ps_vt100_cursor_home, h]
  · simp [ps_vt100_cursor_move, h]
  · simp [ps_vt100_cursor_left, h]
  · simp [ps_vt100_cursor_right, h]
  · simp [ps_vt100_color, h]
  · simp [ps_vt100_reset, h]

set_option maxRecDepth 1000000 in
/-- Witness for C19: the example shell is created with VT100 off; with VT100
on `ps_vt100_cursor_move` to column 10 writes `ESC[11G`, and the bell writes
0x07 in both. -/
theorem renderer_noop_when_disabled_witness :
    (demo_create "").vt100_enabled = false ∧
      (ps_vt100_cursor_move (demo_create "") 10).output = [] ∧
      (ps_vt100_color (demo_create "") 31 40).output = [] ∧
      (ps_bell (demo_create "")).output = [7] ∧
      (ps_create none [] []).vt100_enabled = true ∧
      (ps_vt100_cursor_move (ps_create none [] []) 10).output = bytes "\x1b[11G" ∧
      (ps_bell (ps_create none [] [])).output = [7] :=
  ⟨by rfl,
    by rw [(renderer_noop_when_disabled (demo_create "") 10 1 31 40 (by rfl)).2.2.2.1]; rfl,
    by rw [(renderer_noop_when_disabled (demo_create "") 10 1 31 40 (by rfl)).2.2.2.2.2.2.1]; rfl,
    by rfl, by rfl, by rfl, by rfl⟩

/-! ## C11: `set` on a `bool` -/

/-- C11: for every parameter found by lookup whose type is `bool` and whose
storage holds a `bool`, and every value token `t`, the command `set <name> t`
returns 0 and stores a boolean that is true if and only if `t` is exactly
`true`, `1` or `yes`. -/
theorem set_bool_coercion (E : Env) (sh : Shell) (x t : Str) (p : PSParameter) (b0 : Bool)
    (hp : ps_get_parameter sh x = some p) (ht : p.type = .PS_PARAM_BOOL)
    (hv : sh.mem[p.value_ptr]? = some (.bool b0)) :
    ∃ b sh1, ps_cmd_set E sh [bytes "set", x, t] = .ok (0, sh1) ∧
      sh1.mem[p.value_ptr]? = some (.bool b) ∧
      (b = true ↔ (t = bytes "true" ∨ t = bytes "1" ∨ t = bytes "yes")) := by
  have hlt := lt_length_of_getElem? _ _ _ hv
  refine ⟨decide (t = bytes "true" ∨ t = bytes "1" ∨ t = bytes "yes"),
    ps_println (ps_print (ps_print (ps_print
      { sh with
        mem := sh.mem.set p.value_ptr
          (.bool (decide (t = bytes "true" ∨ t = bytes "1" ∨ t = bytes "yes"))) }
      (bytes "Set ")) x) (bytes " = ")) t, ?_, ?_, ?_⟩
  · unfold ps_cmd_set
    simp only
    rw [hp]
    simp only
    rw [ht, hv]
  · show (sh.mem.set p.value_ptr _)[p.value_ptr]? = _
    rw [List.getElem?_set_self hlt]
  · simp

set_option maxRecDepth 1000000 in
/-- Witness for C11: the `bool` parameter `flag`; `yes` and `1` store true,
`maybe`, `True` and `YES` store false. -/
theorem set_bool_coercion_witness :
    (ps_get_parameter
        (ps_register_parameter (ps_create none [] [.bool false]) (some (bytes "flag"))
          .PS_PARAM_BOOL (some 0) 0).2 (bytes "flag") =
        some { name := bytes "flag", type := .PS_PARAM_BOOL, value_ptr := 0, max_size := 0 } ∧
      (ps_register_parameter (ps_create none [] [.bool false]) (some (bytes "flag"))
          .PS_PARAM_BOOL (some 0) 0).2.mem[0]? = some (.bool false)) ∧
    (∃ b sh1,
      ps_cmd_set demo_env
        (ps_register_parameter (ps_create none [] [.bool false]) (some (bytes "flag"))
          .PS_PARAM_BOOL (some 0) 0).2 [bytes "set", bytes "flag", bytes "yes"] = .ok (0, sh1) ∧
      sh1.mem[(0 : Nat)]? = some (.bool b) ∧
      (b = true ↔ (bytes "yes" = bytes "true" ∨ bytes "yes" = bytes "1" ∨
        bytes "yes" = bytes "yes"))) ∧
    (∀ t ∈ [bytes "yes", bytes "1", bytes "true"],
      (returned ((ps_cmd_set demo_env
        (ps_register_parameter (ps_create none [] [.bool false]) (some (bytes "flag"))
          .PS_PARAM_BOOL (some 0) 0).2 [bytes "set", bytes "flag", t]).map Prod.snd)
        (ps_create none [] [])).mem = [.bool true]) ∧
    (∀ t ∈ [bytes "maybe", bytes "True", bytes "YES", bytes "false", bytes "0"],
      (returned ((ps_cmd_set demo_env
        (ps_register_parameter (ps_create none [] [.bool true]) (some (bytes "flag"))
          .PS_PARAM_BOOL (some 0) 0).2 [bytes "set", bytes "flag", t]).map Prod.snd)
        (ps_create none [] [])).mem = [.bool false]) :=
  ⟨⟨by rfl, by rfl⟩,
    set_bool_coercion demo_env
      (ps_register_parameter (ps_create none [] [.bool false]) (some (bytes "flag"))
        .PS_PARAM_BOOL (some 0) 0).2 (bytes "flag") (bytes "yes")
      { name := bytes "flag", type := .PS_PARAM_BOOL, value_ptr := 0, max_size := 0 } false
      (by rfl) rfl (by rfl),
    by decide, by decide⟩

/-! ## C14: unknown parameter names -/

theorem get_parameter_none (sh : Shell) (name : Str)
    (h : ∀ p ∈ sh.parameters, p.name ≠ name) : ps_get_parameter sh name = none := by
  unfold ps_get_parameter
  rw [List.find?_eq_none]
  intro p hp
  simpa using h p hp

/-- C14: for every name that no registered parameter bears, `get <name>` and
`set <name> <value>` return -1 and change nothing but the output, to which
they append `Parameter not found: <name>` and a newline; so the storage of
every parameter and the `running` flag are as before. -/
theorem unknown_parameter_not_found (E : Env) (sh : Shell) (name value : Str)
    (more : List Str) (h : ∀ p ∈ sh.parameters, p.name ≠ name) :
    ps_cmd_get E sh (bytes "get" :: name :: more) =
        .ok (-1, { sh with output := sh.output ++ bytes "Parameter not found: " ++ name ++ [10] }) ∧
      ps_cmd_set E sh (bytes "set" :: name :: value :: more) =
        .ok (-1, { sh with output := sh.output ++ bytes "Parameter not found: " ++ name ++ [10] }) ∧
      ({ sh with output := sh.output ++ bytes "Parameter not found: " ++ name ++ [10] }).mem =
        sh.mem ∧
      ({ sh with output := sh.output ++ bytes "Parameter not found: " ++ name ++ [10] }).running =
        sh.running := by
  have hn := get_parameter_none sh name h
  refine ⟨?_, ?_, rfl, rfl⟩
  · unfold ps_cmd_get
    simp only
    rw [hn]
    rfl
  · unfold ps_cmd_set
    simp only
    rw [hn]
    rfl

set_option maxRecDepth 1000000 in
/-- Witness for C14: the parameter `x` is registered and `y` is asked for. -/
theorem unknown_parameter_not_found_witness :
    (∀ p ∈ (ps_register_parameter (ps_create none [] [.int 5]) (some (bytes "x"))
        .PS_PARAM_INT (some 0) 0).2.parameters, p.name ≠ bytes "y") ∧
      ps_cmd_get demo_env
        (ps_register_parameter (ps_create none [] [.int 5]) (some (bytes "x"))
          .PS_PARAM_INT (some 0) 0).2 (bytes "get" :: bytes "y" :: []) =
        .ok (-1, { (ps_register_parameter (ps_create none [] [.int 5]) (some (bytes "x"))
          .PS_PARAM_INT (some 0) 0).2 with
          output := (ps_register_parameter (ps_create none [] [.int 5]) (some (bytes "x"))
            .PS_PARAM_INT (some 0) 0).2.output ++ bytes "Parameter not found: " ++ bytes "y"
              ++ [10] }) :=
  ⟨by decide,
    (unknown_parameter_not_found demo_env
      (ps_register_parameter (ps_create none [] [.int 5]) (some (bytes "x"))
        .PS_PARAM_INT (some 0) 0).2 (bytes "y") (bytes "1") [] (by decide)).1⟩

/-! ## C13: `set` on a string -/

theorem size_pred_eq (c : Nat) (h1 : 1 ≤ c) (h2 : c < 2 ^ 64) : size_pred c = c - 1 := by
  unfold size_pred
  have e : (2 : Nat) ^ 64 = 18446744073709551616 := by norm_num
  rw [e] at h2 ⊢
  omega

theorem set_append_length {α : Type} (xs ds : List α) (n : Nat) (a : α)
    (hn : xs.length = n) : (xs ++ ds).set n a = xs ++ ds.set 0 a := by
  subst hn
  induction xs with
  | nil => rfl
  | cons x xs ih => simp [ih]

theorem store_string_eq (data : List Nat) (c : Nat) (t : Str) (h1 : 1 ≤ c)
    (h2 : c ≤ data.length) (h3 : c < 2 ^ 64) :
    store_string data c t =
      .ok (t.take (c - 1) ++ List.replicate (c - 1 - t.length) 0 ++ 0 :: data.drop c) := by
  unfold store_string
  rw [size_pred_eq c h1 h3, if_pos (by omega)]
  congr 1
  unfold strncpy
  rw [writeAt_eq _ _ _ (by rw [length_strncpy_data]; omega), length_strncpy_data,
    List.take_zero, List.nil_append, Nat.zero_add,
    set_append_length _ _ _ _ (length_strncpy_data t (c - 1))]
  congr 1
  rw [List.drop_eq_getElem_cons (by omega : c - 1 < data.length)]
  have e : c - 1 + 1 = c := by omega
  rw [e]
  rfl

theorem cstr_stored (t : Str) (n : Nat) (rest : List Nat) (hz : 0 ∉ t) :
    cstr (t.take n ++ List.replicate (n - t.length) 0 ++ 0 :: rest) =
      t.take (min t.length n) := by
  have hz2 : 0 ∉ t.take n := fun h => hz (List.mem_of_mem_take h)
  have e : t.take (min t.length n) = t.take n := by
    rw [Nat.min_comm, List.take_eq_take]
    simp
  rw [e, List.append_assoc]
  cases hk : n - t.length with
  | zero => exact cstr_append_nul _ _ hz2
  | succ k =>
    rw [List.replicate_succ, List.cons_append]
    exact cstr_append_nul _ _ hz2

/-- C13: for every parameter found by lookup whose type is string, whose
storage is a character array and whose capacity `c = max_size` satisfies
`1 <= c` and lies within the array, and every value token `t`, the command
`set <name> t` returns 0 and leaves in the array the NUL-terminated string
made of the first `min(|t|, c - 1)` bytes of `t`. -/
theorem set_string_truncates (E : Env) (sh : Shell) (x t : Str) (p : PSParameter)
    (data : List Nat) (hp : ps_get_parameter sh x = some p)
    (ht : p.type = .PS_PARAM_STRING) (hv : sh.mem[p.value_ptr]? = some (.chars data))
    (hc1 : 1 ≤ p.max_size) (hc2 : p.max_size ≤ data.length) (hc3 : p.max_size < 2 ^ 64)
    (hz : 0 ∉ t) :
    ∃ data1 sh1, ps_cmd_set E sh [bytes "set", x, t] = .ok (0, sh1) ∧
      sh1.mem[p.value_ptr]? = some (.chars data1) ∧ data1.length = data.length ∧
      cstr data1 = t.take (min t.length (p.max_size - 1)) := by
  have hlt := lt_length_of_getElem? _ _ _ hv
  have hst := store_string_eq data p.max_size t hc1 hc2 hc3
  refine ⟨t.take (p.max_size - 1) ++ List.replicate (p.max_size - 1 - t.length) 0
      ++ 0 :: data.drop p.max_size,
    ps_println (ps_print (ps_print (ps_print
      { sh with
        mem := sh.mem.set p.value_ptr
          (.chars (t.take (p.max_size - 1) ++ List.replicate (p.max_size - 1 - t.length) 0
            ++ 0 :: data.drop p.max_size)) }
      (bytes "Set ")) x) (bytes " = ")) t, ?_, ?_, ?_, cstr_stored t _ _ hz⟩
  · unfold ps_cmd_set
    simp only
    rw [hp]
    simp only
    rw [ht, hv]
    simp only
    rw [hst]
  · show (sh.mem.set p.value_ptr _)[p.value_ptr]? = _
    rw [List.getElem?_set_self hlt]
  · simp
    omega

set_option maxRecDepth 1000000 in
/-- Witness for C13: an array of 4 bytes registered with capacity 4; `set s
world` leaves `wor`, and `set s hi` leaves `hi`. -/
theorem set_string_truncates_witness :
    (ps_get_parameter
        (ps_register_parameter (ps_create none [] [.chars [97, 98, 99, 0]]) (some (bytes "s"))
          .PS_PARAM_STRING (some 0) 4).2 (bytes "s") =
        some { name := bytes "s", type := .PS_PARAM_STRING, value_ptr := 0, max_size := 4 } ∧
      (ps_register_parameter (ps_create none [] [.chars [97, 98, 99, 0]]) (some (bytes "s"))
          .PS_PARAM_STRING (some 0) 4).2.mem[0]? = some (.chars [97, 98, 99, 0]) ∧
      1 ≤ 4 ∧ 4 ≤ [97, 98, 99, 0].length ∧ 4 < 2 ^ 64 ∧ 0 ∉ bytes "world") ∧
    (∃ data1 sh1,
      ps_cmd_set demo_env
        (ps_register_parameter (ps_create none [] [.chars [97, 98, 99, 0]]) (some (bytes "s"))
          .PS_PARAM_STRING (some 0) 4).2 [bytes "set", bytes "s", bytes "world"] =
        .ok (0, sh1) ∧
      sh1.mem[(0 : Nat)]? = some (.chars data1) ∧ data1.length = [97, 98, 99, 0].length ∧
      cstr data1 = (bytes "world").take (min (bytes "world").length (4 - 1))) ∧
    (returned ((ps_cmd_set demo_env
        (ps_register_parameter (ps_create none [] [.chars [97, 98, 99, 0]]) (some (bytes "s"))
          .PS_PARAM_STRING (some 0) 4).2 [bytes "set", bytes "s", bytes "world"]).map Prod.snd)
        (ps_create none [] [])).mem = [.chars (bytes "wor" ++ [0])] ∧
    (returned ((ps_cmd_set demo_env
        (ps_register_parameter (ps_create none [] [.chars [97, 98, 99, 0]]) (some (bytes "s"))
          .PS_PARAM_STRING (some 0) 4).2 [bytes "set", bytes "s", bytes "hi"]).map Prod.snd)
        (ps_create none [] [])).mem = [.chars (bytes "hi" ++ [0, 0])] :=
  ⟨⟨by rfl, by rfl, by decide, by decide, by decide, by decide⟩,
    set_string_truncates demo_env
      (ps_register_parameter (ps_create none [] [.chars [97, 98, 99, 0]]) (some (bytes "s"))
        .PS_PARAM_STRING (some 0) 4).2 (bytes "s") (bytes "world")
      { name := bytes "s", type := .PS_PARAM_STRING, value_ptr := 0, max_size := 4 }
      [97, 98, 99, 0] (by rfl) rfl (by rfl) (by decide) (by decide) (by decide) (by decide),
    by decide, by decide⟩

/-! ## C12: `set` on an `int` with a value that is no number -/

theorem takeWhile_isdigit_nil (r : Str) (h : ∀ d ∈ r.head?, isdigit d = false) :
    r.takeWhile isdigit = [] := by
  cases r with
  | nil => rfl
  | cons d r =>
    have := h d (by simp)
    simp [List.takeWhile_cons, this]

theorem atoi_no_number (t : Str) (hnum : starts_with_number t = false)
    (hsp : ∀ c ∈ t, isspace c = false) : atoi t = 0 := by
  have h0 : to_int32 (clamp_long 0) = 0 := to_int32_clamp_long 0 (by norm_num) (by norm_num)
  unfold atoi
  cases t with
  | nil =>
    simp only [List.dropWhile_nil, List.takeWhile_nil, digits_value, List.foldl_nil]
    exact h0
  | cons c r =>
    have hc := hsp c (List.mem_cons_self _ _)
    have hdw : (c :: r).dropWhile isspace = c :: r := by
      rw [List.dropWhile_cons, if_neg (by simp [hc])]
    simp only [hdw]
    unfold starts_with_number at hnum
    simp only at hnum
    by_cases hd : isdigit c = true
    · rw [if_pos hd] at hnum
      cases hnum
    · rw [if_neg hd] at hnum
      have hd2 : isdigit c = false := by simpa using hd
      split
      · rename_i r2 heq
        simp only [List.cons.injEq] at heq
        obtain ⟨rfl, rfl⟩ := heq
        rw [if_pos (Or.inr rfl)] at hnum
        have : r.takeWhile isdigit = [] := by
          apply takeWhile_isdigit_nil
          intro d hdm
          cases r with
          | nil => simp at hdm
          | cons d2 r3 =>
            simp only [List.head?_cons, Option.mem_def, Option.some.injEq] at hdm
            subst hdm
            exact hnum
        rw [this]
        simp only [digits_value, List.foldl_nil, Nat.cast_zero, neg_zero]
        exact h0
      · rename_i r2 heq
        simp only [List.cons.injEq] at heq
        obtain ⟨rfl, rfl⟩ := heq
        rw [if_pos (Or.inl rfl)] at hnum
        have : r.takeWhile isdigit = [] := by
          apply takeWhile_isdigit_nil
          intro d hdm
          cases r with
          | nil => simp at hdm
          | cons d2 r3 =>
            simp only [List.head?_cons, Option.mem_def, Option.some.injEq] at hdm
            subst hdm
            exact hnum
        rw [this]
        simp only [digits_value, List.foldl_nil, Nat.cast_zero]
        exact h0
      · have : (c :: r).takeWhile isdigit = [] := by
          simp [List.takeWhile_cons, hd2]
        rw [this]
        simp only [digits_value, List.foldl_nil, Nat.cast_zero]
        exact h0

/-- C12 (as amended): for every parameter found by lookup whose type is `int`
and whose storage holds an `int`, and every value token without white space
that does not start with an optionally signed decimal digit sequence, the
command `set <name> <token>` returns 0, writes `Set <name> = <token>` and a
newline, stores 0 in the storage of the parameter and changes no other
object of the caller's storage and nothing else of the shell; so every
parameter that refers to other storage keeps its value. -/
theorem set_int_unparsable (E : Env) (sh : Shell) (x t : Str) (p : PSParameter) (v0 : Int)
    (hp : ps_get_parameter sh x = some p) (ht : p.type = .PS_PARAM_INT)
    (hv : sh.mem[p.value_ptr]? = some (.int v0))
    (hnum : starts_with_number t = false) (hsp : ∀ c ∈ t, isspace c = false) :
    ps_cmd_set E sh [bytes "set", x, t] =
        .ok (0, { sh with
          mem := sh.mem.set p.value_ptr (.int 0)
          output := sh.output ++ bytes "Set " ++ x ++ bytes " = " ++ t ++ [10] }) ∧
      (sh.mem.set p.value_ptr (.int 0))[p.value_ptr]? = some (.int 0) ∧
      (∀ q : Nat, q ≠ p.value_ptr → (sh.mem.set p.value_ptr (.int 0))[q]? = sh.mem[q]?) := by
  have hlt := lt_length_of_getElem? _ _ _ hv
  refine ⟨?_, List.getElem?_set_self hlt, fun q hq => List.getElem?_set_ne (Ne.symm hq)⟩
  unfold ps_cmd_set
  simp only
  rw [hp]
  simp only
  rw [ht, hv]
  simp only
  rw [atoi_no_number t hnum hsp]
  rfl

set_option maxRecDepth 1000000 in
/-- Witness for the amended C12: the parameters `a` and `c` on two `int`
objects; `set a abc` stores 0 in the first and leaves the second. -/
theorem set_int_unparsable_witness :
    (ps_get_parameter
        (ps_register_parameter
          (ps_register_parameter (ps_create none [] [.int 5, .int 7]) (some (bytes "a"))
            .PS_PARAM_INT (some 0) 0).2 (some (bytes "c")) .PS_PARAM_INT (some 1) 0).2
        (bytes "a") =
        some { name := bytes "a", type := .PS_PARAM_INT, value_ptr := 0, max_size := 0 } ∧
      starts_with_number (bytes "abc") = false ∧
      (∀ c ∈ bytes "abc", isspace c = false)) ∧
    (returned ((ps_cmd_set demo_env
        (ps_register_parameter
          (ps_register_parameter (ps_create none [] [.int 5, .int 7]) (some (bytes "a"))
            .PS_PARAM_INT (some 0) 0).2 (some (bytes "c")) .PS_PARAM_INT (some 1) 0).2
        [bytes "set", bytes "a", bytes "abc"]).map Prod.snd)
        (ps_create none [] [])).mem = [.int 0, .int 7] ∧
    ps_cmd_set demo_env
        (ps_register_parameter
          (ps_register_parameter (ps_create none [] [.int 5, .int 7]) (some (bytes "a"))
            .PS_PARAM_INT (some 0) 0).2 (some (bytes "c")) .PS_PARAM_INT (some 1) 0).2
        [bytes "set", bytes "a", bytes "abc"] =
      .ok (0, { (ps_register_parameter
          (ps_register_parameter (ps_create none [] [.int 5, .int 7]) (some (bytes "a"))
            .PS_PARAM_INT (some 0) 0).2 (some (bytes "c")) .PS_PARAM_INT (some 1) 0).2 with
        mem := [.int 5, .int 7].set 0 (.int 0)
        output := [] ++ bytes "Set " ++ bytes "a" ++ bytes " = " ++ bytes "abc" ++ [10] }) :=
  ⟨⟨by rfl, by rfl, by decide⟩, by rfl,
    (set_int_unparsable demo_env
      (ps_register_parameter
        (ps_register_parameter (ps_create none [] [.int 5, .int 7]) (some (bytes "a"))
          .PS_PARAM_INT (some 0) 0).2 (some (bytes "c")) .PS_PARAM_INT (some 1) 0).2
      (bytes "a") (bytes "abc")
      { name := bytes "a", type := .PS_PARAM_INT, value_ptr := 0, max_size := 0 } 5
      (by rfl) rfl (by rfl) (by rfl) (by decide)).1⟩

set_option maxRecDepth 1000000 in
/-- C12 (counterexample): the parameters `a` and `b` are registered on the
same `int`, which holds 5; `abc` is no number; `set a abc` returns 0 and the
value of the other parameter `b` is 0 afterwards: `get b` writes `b = 0`. -/
theorem set_changes_aliased_parameter :
    ps_get_parameter
        (ps_register_parameter
          (ps_register_parameter (ps_create none [] [.int 5]) (some (bytes "a"))
            .PS_PARAM_INT (some 0) 0).2 (some (bytes "b")) .PS_PARAM_INT (some 0) 0).2
        (bytes "b") =
        some { name := bytes "b", type := .PS_PARAM_INT, value_ptr := 0, max_size := 0 } ∧
      (ps_cmd_get demo_env
        (ps_register_parameter
          (ps_register_parameter (ps_create none [] [.int 5]) (some (bytes "a"))
            .PS_PARAM_INT (some 0) 0).2 (some (bytes "b")) .PS_PARAM_INT (some 0) 0).2
        [bytes "get", bytes "b"]).map (fun r => (r.1, r.2.output)) =
        .ok (0, bytes "b = 5\n") ∧
      starts_with_number (bytes "abc") = false ∧
      (ps_cmd_set demo_env
        (ps_register_parameter
          (ps_register_parameter (ps_create none [] [.int 5]) (some (bytes "a"))
            .PS_PARAM_INT (some 0) 0).2 (some (bytes "b")) .PS_PARAM_INT (some 0) 0).2
        [bytes "set", bytes "a", bytes "abc"]).map (fun r => (r.1, r.2.mem)) =
        .ok (0, [.int 0]) ∧
      (ps_cmd_get demo_env
        (returned ((ps_cmd_set demo_env
          (ps_register_parameter
            (ps_register_parameter (ps_create none [] [.int 5]) (some (bytes "a"))
              .PS_PARAM_INT (some 0) 0).2 (some (bytes "b")) .PS_PARAM_INT (some 0) 0).2
          [bytes "set", bytes "a", bytes "abc"]).map Prod.snd) (ps_create none [] []))
        [bytes "get", bytes "b"]).map (fun r => (r.1, r.2.output.drop 12)) =
        .ok (0, bytes "b = 0\n") :=
  ⟨by rfl, by rfl, by rfl, by rfl, by rfl⟩

/-! ## C17 and C18: the parameter browser -/

theorem edit_value_congr (E : Env) (a b : Shell) (p : PSParameter) (h : a.mem = b.mem) :
    edit_value E a p = edit_value E b p := by
  unfold edit_value
  rw [h]

theorem edit_rows_spec (E : Env) (sh : Shell) (ps : List PSParameter) (values : List Str)
    (h : List.Forall₂ (fun p v => edit_value E sh p = .ok v) ps values) (a : Shell)
    (ha : a.mem = sh.mem) :
    edit_rows E a ps = .ok { a with output := a.output ++ table_rows ps values } := by
  induction h generalizing a with
  | nil =>
    unfold edit_rows table_rows
    simp
  | @cons p v ps values hv _ ih =>
    unfold edit_rows
    rw [edit_value_congr E a sh p ha, hv]
    simp only
    rw [ih (ps_println a _) ha]
    simp [table_rows, edit_row, ps_println, ps_print, write_char]

theorem wait_for_q_spec (before rest : List Int) (q : Int) (hq : q = 113 ∨ q = 81)
    (hb : ∀ c ∈ before, c ≠ 113 ∧ c ≠ 81) : wait_for_q (before ++ q :: rest) = .ok rest := by
  induction before with
  | nil =>
    rw [List.nil_append, wait_for_q, if_pos hq]
  | cons c cs ih =>
    have hc := hb c (List.mem_cons_self _ _)
    rw [List.cons_append, wait_for_q, if_neg (by omega)]
    exact ih (fun x hx => hb x (List.mem_cons_of_mem _ hx))

theorem edit_header_eq (sh : Shell) :
    ps_println (ps_println (ps_println (ps_println (ps_vt100_reset (ps_print
      (ps_vt100_color (ps_vt100_clear_screen (ps_print sh (bytes "\x1b[?1049h"))) 37 44)
      (bytes " Parameter Editor - Use arrow keys to navigate, Enter to edit, 'q' to quit ")))
      []) []) (bytes "Parameter Name           Type      Value"))
      (bytes "--------------------------------------------------------") =
    { sh with output := sh.output ++ edit_header sh } := by
  have e : snprintf 32 (bytes "\x1b[" ++ fmt_d 37 ++ bytes ";" ++ fmt_d 44 ++ bytes "m") =
      bytes "\x1b[37;44m" := by decide
  have e2 : snprintf 32 (bytes "\x1b[" ++ (fmt_d 37 ++ (bytes ";" ++ (fmt_d 44 ++ bytes "m"))))
      = bytes "\x1b[37;44m" := by decide
  have hpos : (44 : Int) ≥ 0 := by decide
  by_cases h : sh.vt100_enabled = true
  · simp only [ps_println, ps_print, write_char, ps_vt100_reset, ps_vt100_color,
      ps_vt100_clear_screen, edit_header, h, if_true, hpos, e, e2, List.append_assoc,
      List.append_nil, List.nil_append, List.cons_append]
  · have h2 : sh.vt100_enabled = false := by simpa using h
    simp only [ps_println, ps_print, write_char, ps_vt100_reset, ps_vt100_color,
      ps_vt100_clear_screen, edit_header, h2, if_false, List.append_assoc,
      List.append_nil, List.nil_append, List.cons_append, Bool.false_eq_true]

theorem cmd_edit_spec (E : Env) (sh : Shell) (argv : List Str) (values : List Str)
    (rest : List Int) (hne : sh.parameters ≠ [])
    (hvals : List.Forall₂ (fun p v => edit_value E sh p = .ok v) sh.parameters values)
    (hq : wait_for_q sh.input = .ok rest) :
    ps_cmd_edit E sh argv =
      .ok (0, { sh with
        input := rest
        output := sh.output ++ edit_header sh ++ table_rows sh.parameters values
          ++ edit_footer ++ bytes "\x1b[?1049l" }) := by
  unfold ps_cmd_edit
  split
  · rename_i h
    exact absurd h hne
  · simp only
    rw [edit_header_eq sh]
    dsimp only
    rw [edit_rows_spec E sh sh.parameters values hvals
      { sh with output := sh.output ++ edit_header sh } rfl]
    simp only [ps_println, ps_print, write_char]
    rw [hq]
    simp [edit_footer]

theorem forall₂_edit_value (E : Env) (sh : Shell) (ps : List PSParameter)
    (h : ∀ p ∈ ps, ∃ v, edit_value E sh p = .ok v) :
    ∃ values, List.Forall₂ (fun p v => edit_value E sh p = .ok v) ps values := by
  induction ps with
  | nil => exact ⟨[], List.Forall₂.nil⟩
  | cons p ps ih =>
    obtain ⟨v, hv⟩ := h p (List.mem_cons_self _ _)
    obtain ⟨vs, hvs⟩ := ih (fun q hq => h q (List.mem_cons_of_mem _ hq))
    exact ⟨v :: vs, List.Forall₂.cons hv hvs⟩

theorem register_all_eq (sh : Shell) (regs : List PSParameter) :
    register_all sh regs = { sh with parameters := regs.reverse ++ sh.parameters } := by
  induction regs generalizing sh with
  | nil => rfl
  | cons p regs ih =>
    unfold register_all
    rw [List.foldl_cons]
    have := ih (ps_register_parameter sh (some p.name) p.type (some p.value_ptr) p.max_size).2
    unfold register_all at this
    rw [this]
    simp [ps_register_parameter]

/-- C17 (as amended): for every sequence of parameter registrations on a shell
without parameters, the table printed by `edit` has one row per registered
parameter, and the rows appear in the reverse of the registration order (the
parameter registered last first): the list of parameters is the reversed
sequence and the output is the header, the rows of that list in its order,
and the footer. -/
theorem edit_rows_newest_first (E : Env) (sh : Shell) (regs : List PSParameter)
    (values : List Str) (rest : List Int) (argv : List Str)
    (h0 : sh.parameters = []) (hne : regs ≠ [])
    (hvals : List.Forall₂ (fun p v => edit_value E sh p = .ok v) regs.reverse values)
    (hq : wait_for_q sh.input = .ok rest) :
    (register_all sh regs).parameters = regs.reverse ∧ values.length = regs.length ∧
      ps_cmd_edit E (register_all sh regs) argv =
        .ok (0, { register_all sh regs with
          input := rest
          output := sh.output ++ edit_header sh ++ table_rows regs.reverse values
            ++ edit_footer ++ bytes "\x1b[?1049l" }) := by
  have hpar : (register_all sh regs).parameters = regs.reverse := by
    rw [register_all_eq, h0]
    simp
  have hlen : values.length = regs.length := by
    have := hvals.length_eq
    simp at this
    exact this.symm
  refine ⟨hpar, hlen, ?_⟩
  have hv2 : List.Forall₂ (fun p v => edit_value E (register_all sh regs) p = .ok v)
      (register_all sh regs).parameters values := by
    rw [hpar]
    refine hvals.imp ?_
    intro p v hpv
    rw [edit_value_congr E (register_all sh regs) sh p (by rw [register_all_eq])]
    exact hpv
  have hq2 : wait_for_q (register_all sh regs).input = .ok rest := by
    rw [register_all_eq]
    exact hq
  have hne2 : (register_all sh regs).parameters ≠ [] := by
    rw [hpar]
    simpa using hne
  rw [cmd_edit_spec E (register_all sh regs) argv values rest hne2 hv2 hq2, hpar]
  have e1 : (register_all sh regs).output = sh.output := by rw [register_all_eq]
  have e2 : edit_header (register_all sh regs) = edit_header sh := by
    rw [register_all_eq]
    rfl
  rw [e1, e2]
  simp only [hpar]

/-- C18: with at least one parameter registered, every parameter readable
(its storage holds an object of its type, a string with its NUL), and an
input that holds `q` or `Q`, the command `edit` returns 0 with the input
consumed up to and including the first `q` or `Q`; the state it returns
differs from the state before in the input and the output only, so the
storage of the parameters, the line buffer and the history are as before; and
the output ends with `ESC[?1049l`. -/
theorem edit_view_only (E : Env) (sh : Shell) (argv : List Str) (before rest : List Int)
    (q : Int) (hne : sh.parameters ≠ [])
    (hread : ∀ p ∈ sh.parameters, ∃ v, edit_value E sh p = .ok v)
    (hin : sh.input = before ++ q :: rest) (hq : q = 113 ∨ q = 81)
    (hb : ∀ c ∈ before, c ≠ 113 ∧ c ≠ 81) :
    ∃ out, ps_cmd_edit E sh argv =
      .ok (0, { sh with input := rest, output := sh.output ++ out ++ bytes "\x1b[?1049l" }) := by
  obtain ⟨values, hvals⟩ := forall₂_edit_value E sh sh.parameters hread
  have hw : wait_for_q sh.input = .ok rest := by
    rw [hin]
    exact wait_for_q_spec before rest q hq hb
  refine ⟨edit_header sh ++ table_rows sh.parameters values ++ edit_footer, ?_⟩
  rw [cmd_edit_spec E sh argv values rest hne hvals hw]
  simp only [List.append_assoc]

set_option maxRecDepth 1000000 in
/-- Witness for the amended C17: `a` then `b` are registered; the rows are
those of `b` and `a`, in this order. -/
theorem edit_rows_newest_first_witness :
    (demo_edit_shell.parameters = [] ∧ demo_params ≠ [] ∧
      wait_for_q demo_edit_shell.input = .ok (keys "!")) ∧
    (register_all demo_edit_shell demo_params).parameters = demo_params.reverse ∧
    [bytes "2", bytes "1"].length = demo_params.length ∧
    ps_cmd_edit demo_env (register_all demo_edit_shell demo_params) [] =
      .ok (0, { register_all demo_edit_shell demo_params with
        input := keys "!"
        output := demo_edit_shell.output ++ edit_header demo_edit_shell
          ++ table_rows demo_params.reverse [bytes "2", bytes "1"]
          ++ edit_footer ++ bytes "\x1b[?1049l" }) :=
  ⟨⟨by rfl, by decide, by rfl⟩,
    edit_rows_newest_first demo_env demo_edit_shell demo_params [bytes "2", bytes "1"]
      (keys "!") [] (by rfl) (by decide)
      (List.Forall₂.cons (by rfl) (List.Forall₂.cons (by rfl) List.Forall₂.nil)) (by rfl)⟩

set_option maxRecDepth 1000000 in
/-- C17 (counterexample): `a` is registered first and `b` second; the table
printed by `edit` has the row of `b` first and the row of `a` second. -/
theorem edit_rows_not_in_registration_order :
    demo_params.map (fun p => p.name) = [bytes "a", bytes "b"] ∧
      (ps_cmd_edit demo_env (register_all demo_edit_shell demo_params) []).map
          (fun r => r.2.output) =
        .ok (edit_header demo_edit_shell
          ++ bytes "b                       int       2\n"
          ++ bytes "a                       int       1\n"
          ++ edit_footer ++ bytes "\x1b[?1049l") :=
  ⟨by rfl, by rfl⟩

set_option maxRecDepth 1000000 in
/-- Witness for C18: `a` and `b` are registered and `x`, `q`, `!` wait in the
transport; `edit` returns with `!` left and nothing but input and output
changed. -/
theorem edit_view_only_witness :
    ((register_all demo_edit_shell demo_params).parameters ≠ [] ∧
      (register_all demo_edit_shell demo_params).input = keys "x" ++ 113 :: keys "!" ∧
      ((113 : Int) = 113 ∨ (113 : Int) = 81) ∧ (∀ c ∈ keys "x", c ≠ 113 ∧ c ≠ 81)) ∧
    ∃ out, ps_cmd_edit demo_env (register_all demo_edit_shell demo_params) [] =
      .ok (0, { register_all demo_edit_shell demo_params with
        input := keys "!"
        output := (register_all demo_edit_shell demo_params).output ++ out
          ++ bytes "\x1b[?1049l" }) :=
  ⟨⟨by decide, by rfl, by decide, by decide⟩,
    edit_view_only demo_env (register_all demo_edit_shell demo_params) [] (keys "x")
      (keys "!") 113 (by decide)
      (fun p hp => by
        have e : (register_all demo_edit_shell demo_params).parameters =
            [ { name := bytes "b", type := .PS_PARAM_INT, value_ptr := 1, max_size := 0 },
              { name := bytes "a", type := .PS_PARAM_INT, value_ptr := 0, max_size := 0 } ] := by
          rfl
        rw [e] at hp
        simp only [List.mem_cons, List.mem_singleton, List.not_mem_nil, or_false] at hp
        rcases hp with h | h
        · exact ⟨bytes "2", by rw [h]; rfl⟩
        · exact ⟨bytes "1", by rw [h]; rfl⟩)
      (by rfl) (by decide) (by decide)⟩

/-! ## C20: the history with capacity 0 -/

theorem SameConfig.same (sh : Shell) : SameConfig sh sh := ⟨rfl, rfl, rfl, rfl, rfl, rfl, rfl⟩

theorem SameConfig.chain {a b c : Shell} (h1 : SameConfig a b) (h2 : SameConfig b c) :
    SameConfig a c := by
  obtain ⟨a1, a2, a3, a4, a5, a6, a7⟩ := h1
  obtain ⟨b1, b2, b3, b4, b5, b6, b7⟩ := h2
  exact ⟨b1.trans a1, b2.trans a2, b3.trans a3, b4.trans a4, b5.trans a5, b6.trans a6,
    b7.trans a7⟩

theorem SameConfig.framed {sh sh1 : Shell} (h : Frame sh sh1) : SameConfig sh sh1 := by
  obtain ⟨i, o, m, rfl⟩ := h
  exact ⟨rfl, rfl, rfl, rfl, rfl, rfl, rfl⟩

theorem SameConfig.redraw {sh a : Shell} (h : SameConfig sh a) :
    SameConfig sh (ps_redraw_line a) :=
  h.chain (SameConfig.framed (Frame.refl a).redraw_line)

theorem SameConfig.load {sh a : Shell} (h : SameConfig sh a) (idx : Int) :
    SameConfig sh (load_history a idx) := by
  unfold load_history
  split
  · exact h.chain ⟨rfl, rfl, rfl, rfl, rfl, rfl, rfl⟩
  · exact h

theorem SameConfig.commit (sh : Shell) (cmd : Str) :
    SameConfig sh (ps_add_to_history sh cmd) := by
  rw [add_to_history_fields]
  exact ⟨rfl, rfl, rfl, rfl, rfl, rfl, rfl⟩

theorem SameConfig.step {sh0 sh x b : Shell} (h0 : SameConfig sh0 sh) (hf : Frame x b)
    (hx : SameConfig sh x) : SameConfig sh0 b :=
  h0.chain (hx.chain (SameConfig.framed hf))

theorem SameConfig.escape (sh0 : Shell) :
    SameConfig sh0 (ps_handle_escape_sequence sh0) := by
  unfold ps_handle_escape_sequence
  have hf1 := SameConfig.framed (Frame.read_char (Frame.refl sh0))
  generalize read_char sh0 = r1 at hf1
  obtain ⟨c1, sh1⟩ := r1
  simp only at hf1 ⊢
  split
  · exact hf1
  have hf2 := hf1.chain (SameConfig.framed (Frame.read_char (Frame.refl sh1)))
  generalize read_char sh1 = r2 at hf2
  obtain ⟨c2, sh⟩ := r2
  simp only at hf2 ⊢
  split
  · split
    · have hx : SameConfig sh { sh with history_pos := u16_inc sh.history_pos } :=
        ⟨rfl, rfl, rfl, rfl, rfl, rfl, rfl⟩
      split
      · exact hf2.chain (hx.load _).redraw
      · exact hf2.chain hx
    · exact hf2
  split
  · split
    · have hx : SameConfig sh { sh with history_pos := u16_dec sh.history_pos } :=
        ⟨rfl, rfl, rfl, rfl, rfl, rfl, rfl⟩
      split
      · exact SameConfig.step hf2 (Frame.refl _).redraw_line ⟨rfl, rfl, rfl, rfl, rfl, rfl, rfl⟩
      · exact hf2.chain (hx.load _).redraw
    · exact hf2
  split
  · split
    · exact SameConfig.step hf2 ((Frame.refl _).cursor_right 1)
        ⟨rfl, rfl, rfl, rfl, rfl, rfl, rfl⟩
    · exact hf2
  split
  · split
    · exact SameConfig.step hf2 ((Frame.refl _).cursor_left 1)
        ⟨rfl, rfl, rfl, rfl, rfl, rfl, rfl⟩
    · exact hf2
  split
  · exact SameConfig.step hf2 ((Frame.refl _).cursor_move _) ⟨rfl, rfl, rfl, rfl, rfl, rfl, rfl⟩
  split
  · exact SameConfig.step hf2 ((Frame.refl _).cursor_move _) ⟨rfl, rfl, rfl, rfl, rfl, rfl, rfl⟩
  split
  · have hf3 := hf2.chain (SameConfig.framed (Frame.read_char (Frame.refl sh)))
    generalize read_char sh = r3 at hf3
    obtain ⟨c3, sh2⟩ := r3
    simp only at hf3 ⊢
    split
    · exact SameConfig.step hf3 (Frame.refl _).redraw_line ⟨rfl, rfl, rfl, rfl, rfl, rfl, rfl⟩
    · exact hf3
  · exact hf2

theorem SameConfig.key (E : Env) (sh : Shell) (c : Nat) (sh1 : Shell)
    (hb : ∀ cmd ∈ sh.commands, ∀ id, cmd.func ≠ .user id)
    (hr : ps_process_char E sh c = .ok sh1) : SameConfig sh sh1 := by
  unfold ps_process_char at hr
  split at hr
  · cases hr
    exact SameConfig.step (SameConfig.framed ((Frame.refl sh).println (bytes "^C")))
      (Frame.refl _).print_prompt ⟨rfl, rfl, rfl, rfl, rfl, rfl, rfl⟩
  split at hr
  · cases hr
    exact SameConfig.framed ((((Frame.refl sh).clear_screen).print_prompt).print _)
  split at hr
  · have h1 : SameConfig sh (ps_println sh []) :=
      SameConfig.framed ((Frame.refl sh).println _)
    simp only at hr
    split at hr
    · split at hr
      · cases hr
      · rename_i r sh4 hex
        cases hr
        have h2 : SameConfig (ps_println sh [])
            { ps_println sh [] with
              cmd_buffer := (ps_println sh []).cmd_buffer.set (ps_println sh []).cmd_len 0 } :=
          ⟨rfl, rfl, rfl, rfl, rfl, rfl, rfl⟩
        have h3 := (h1.chain h2).chain (SameConfig.commit _
          (cstr ((ps_println sh []).cmd_buffer.set (ps_println sh []).cmd_len 0)))
        have h4 : SameConfig sh sh4 := h3.chain (SameConfig.framed
          (frame_execute_command E _ r sh4 (by rw [h3.2.2.2.1]; exact hb) hex))
        exact SameConfig.step h4 (Frame.refl _).print_prompt ⟨rfl, rfl, rfl, rfl, rfl, rfl, rfl⟩
    · cases hr
      exact h1.chain (SameConfig.framed (Frame.refl _).print_prompt)
  split at hr
  · split at hr
    · cases hr
      exact SameConfig.step (SameConfig.same sh) (Frame.refl _).redraw_line
        ⟨rfl, rfl, rfl, rfl, rfl, rfl, rfl⟩
    · cases hr
      exact SameConfig.same sh
  split at hr
  · cases hr
    exact SameConfig.framed (Frame.refl sh).bell
  split at hr
  · cases hr
    exact SameConfig.escape sh
  split at hr
  · split at hr
    · cases hr
      exact SameConfig.step (SameConfig.same sh) (Frame.refl _).redraw_line
        ⟨rfl, rfl, rfl, rfl, rfl, rfl, rfl⟩
    · cases hr
      exact SameConfig.same sh
  · cases hr
    exact SameConfig.same sh

theorem run_body_same_config (E : Env) {sh sh1 : Shell} (h : Reachable E sh)
    (hr : run_body E sh = .ok sh1) : SameConfig sh sh1 := by
  unfold run_body at hr
  have h1 := Reachable.read_char h
  have hf := SameConfig.framed (Frame.read_char (Frame.refl sh))
  generalize read_char sh = r at hr h1 hf
  obtain ⟨c, sh0⟩ := r
  simp only at hr h1 hf
  split at hr
  · cases hr
    exact hf
  · exact hf.chain (SameConfig.key E sh0 _ sh1 (Inv.of_reachable E h1).builtin hr)

theorem run_steps_same_config (E : Env) (n : Nat) {sh sh1 : Shell} (h : Reachable E sh)
    (hr : run_steps E n sh = .ok sh1) : SameConfig sh sh1 := by
  induction n generalizing sh with
  | zero =>
    unfold run_steps at hr
    cases hr
    exact SameConfig.same _
  | succ n ih =>
    unfold run_steps at hr
    split at hr
    · cases hr
    · rename_i sh2 hb
      exact (run_body_same_config E h hb).chain (ih (h.run_body E hb) hr)

theorem Reachable.feed (E : Env) (cs : List Nat) {sh sh1 : Shell} (h : Reachable E sh)
    (hr : feed E sh cs = .ok sh1) : Reachable E sh1 ∧ SameConfig sh sh1 := by
  induction cs generalizing sh with
  | nil =>
    unfold PortableShell.feed at hr
    cases hr
    exact ⟨h, SameConfig.same _⟩
  | cons c cs ih =>
    unfold PortableShell.feed at hr
    split at hr
    · cases hr
    · rename_i sh2 hb
      have h2 := Reachable.process_char c h hb
      have := ih h2 hr
      exact ⟨this.1, (SameConfig.key E sh c sh2 (Inv.of_reachable E h).builtin hb).chain
        this.2⟩

/-- C20: in a session state with history capacity 0 the history is empty
(`history_count = 0`, browse position 0, no entry), it is so again after any
number of iterations of the session loop and after any sequence of bytes fed
to `ps_process_char`, the capacity staying 0; and the Up and Down arrow
sequences change nothing but the consumed input, so the line buffer is as
before. -/
theorem history_disabled (E : Env) (sh : Shell) (rest : List Int) (h : Reachable E sh)
    (h0 : sh.history_size = 0) :
    (sh.history_count = 0 ∧ sh.history_pos = 0 ∧ history_entries sh = []) ∧
      (∀ n sh1, run_steps E n sh = .ok sh1 →
        sh1.history_size = 0 ∧ sh1.history_count = 0 ∧ sh1.history_pos = 0 ∧
          history_entries sh1 = []) ∧
      (∀ cs sh1, feed E sh cs = .ok sh1 →
        sh1.history_size = 0 ∧ sh1.history_count = 0 ∧ sh1.history_pos = 0 ∧
          history_entries sh1 = []) ∧
      (sh.input = 27 :: 91 :: 65 :: rest → run_body E sh = .ok { sh with input := rest }) ∧
      (sh.input = 27 :: 91 :: 66 :: rest → run_body E sh = .ok { sh with input := rest }) := by
  have key : ∀ s : Shell, Reachable E s → s.history_size = 0 →
      s.history_count = 0 ∧ s.history_pos = 0 ∧ history_entries s = [] := by
    intro s hs hs0
    have hi := Inv.of_reachable E hs
    have hc : s.history_count = 0 := by
      have := hi.count_le
      omega
    have hp : s.history_pos = 0 := by
      have := hi.hpos_le
      omega
    refine ⟨hc, hp, ?_⟩
    unfold history_entries
    rw [hc]
    rfl
  have hk := key sh h h0
  refine ⟨hk, ?_, ?_, ?_, ?_⟩
  · intro n sh1 hr
    have hs := (run_steps_same_config E n h hr).2.2.1
    have h1 : sh1.history_size = 0 := by rw [hs, h0]
    exact ⟨h1, key sh1 (h.run_steps E n hr) h1⟩
  · intro cs sh1 hr
    have hf := h.feed E cs hr
    have h1 : sh1.history_size = 0 := by rw [hf.2.2.2.1, h0]
    exact ⟨h1, key sh1 hf.1 h1⟩
  · intro hin
    rw [run_body_esc E sh _ hin, handle_escape_csi _ 65 rest rfl]
    simp only [if_true]
    rw [if_neg (by have := hk.1; omega)]
  · intro hin
    rw [run_body_esc E sh _ hin, handle_escape_csi _ 66 rest rfl]
    simp only [if_true]
    rw [if_neg (by decide), if_neg (by have := hk.2.1; omega)]

theorem demo_capacity_reachable (capacity : Nat) (input : String) (n : Nat)
    (h : run_steps demo_env n (ps_create (some (demo_config (keys input) capacity)) [] []) =
      .ok (demo_run_capacity capacity input n)) :
    Reachable demo_env (demo_run_capacity capacity input n) :=
  Reachable.run_steps demo_env n (Reachable.create _ _ _) h

set_option maxRecDepth 1000000 in
/-- Witness for C20: capacity 0, the line `a` is submitted, then the Up arrow:
the history is empty and the arrow changes nothing. -/
theorem history_disabled_witness :
    (Reachable demo_env (demo_run_capacity 0 "a\n\x1b[A" 2) ∧
      (demo_run_capacity 0 "a\n\x1b[A" 2).history_size = 0 ∧
      (demo_run_capacity 0 "a\n\x1b[A" 2).input = 27 :: 91 :: 65 :: []) ∧
    ((demo_run_capacity 0 "a\n\x1b[A" 2).history_count = 0 ∧
      (demo_run_capacity 0 "a\n\x1b[A" 2).history_pos = 0 ∧
      history_entries (demo_run_capacity 0 "a\n\x1b[A" 2) = []) ∧
    run_body demo_env (demo_run_capacity 0 "a\n\x1b[A" 2) =
      .ok { demo_run_capacity 0 "a\n\x1b[A" 2 with input := [] } :=
  ⟨⟨demo_capacity_reachable _ _ _ (by rfl), by rfl, by rfl⟩,
    (history_disabled demo_env _ []
      (demo_capacity_reachable _ _ _ (by rfl)) (by rfl)).1,
    (history_disabled demo_env _ []
      (demo_capacity_reachable _ _ _ (by rfl)) (by rfl)).2.2.2.1
      (by rfl)⟩

/-! ## C16: the session loop at end-of-stream -/

theorem ps_run_loop_mono (E : Env) (fuel : Nat) (sh : Shell) (r : Except Stuck Shell)
    (h : ps_run_loop E fuel sh = some r) (k : Nat) :
    ps_run_loop E (fuel + k) sh = some r := by
  induction fuel generalizing sh with
  | zero =>
    unfold ps_run_loop at h
    cases h
  | succ fuel ih =>
    rw [Nat.succ_add]
    unfold ps_run_loop at h ⊢
    split
    · rename_i hrun
      rw [if_pos hrun] at h
      generalize read_char sh = rc at h ⊢
      obtain ⟨c, sh1⟩ := rc
      simp only at h ⊢
      split
      · rename_i hc
        rw [if_pos hc] at h
        exact h
      · rename_i hc
        rw [if_neg hc] at h
        split
        · rename_i e he
          rw [he] at h
          exact h
        · rename_i sh2 he
          rw [he] at h
          exact ih sh2 h
    · rename_i hrun
      rw [if_neg hrun] at h
      exact h

set_option maxRecDepth 1000000 in
/-- C16 (the code at the failing input): the `int` parameter `a` is registered
and the transport delivers `edit`, Enter and then end-of-stream.  The wait
loop of `ps_cmd_edit` never reads `q`, so `ps_run` does not return, whatever
the bound on the iterations of its loop (5 iterations reach the command).  When
the stream ends inside an escape sequence, or at once, `ps_run` returns. -/
theorem run_hangs_in_edit :
    (∀ k, ps_run demo_env (5 + k) (demo_param_shell "edit\n") = some (.error .hang)) ∧
      (∀ k, (ps_run demo_env (3 + k) (demo_param_shell "a\x1b[")).map
        (fun r => r.map (fun s => (s.input, cstr s.cmd_buffer))) = some (.ok ([], bytes "a"))) ∧
      (∀ k, (ps_run demo_env (1 + k) (demo_param_shell "")).map
        (fun r => r.map (fun s => s.input)) = some (.ok [])) := by
  refine ⟨fun k => ?_, fun k => ?_, fun k => ?_⟩
  · exact ps_run_loop_mono demo_env 5 _ _ (by rfl) k
  · have h := ps_run_loop_mono demo_env 3
      (ps_print_prompt { demo_param_shell "a\x1b[" with running := true })
      ((ps_run demo_env 3 (demo_param_shell "a\x1b[")).getD (.error .undefined)) (by rfl) k
    unfold ps_run
    rw [h]
    rfl
  · have h := ps_run_loop_mono demo_env 1
      (ps_print_prompt { demo_param_shell "" with running := true })
      ((ps_run demo_env 1 (demo_param_shell "")).getD (.error .undefined)) (by rfl) k
    unfold ps_run
    rw [h]
    rfl
/-! ## C15: the line buffer as a string, and the escape decoder -/

theorem cstr_split (b : List Nat) (k : Nat) (h : b[k]? = some 0) :
    ∃ tail, b = cstr b ++ 0 :: tail := by
  have hsplit := List.takeWhile_append_dropWhile (fun x => decide (x ≠ 0)) b
  cases hd : b.dropWhile (fun x => decide (x ≠ 0)) with
  | nil =>
    rw [List.dropWhile_eq_nil_iff] at hd
    have hk := lt_length_of_getElem? b k 0 h
    have hm : b[k] ∈ b := List.getElem_mem hk
    have := hd _ hm
    rw [List.getElem?_eq_getElem hk] at h
    simp only [Option.some.injEq] at h
    simp [h] at this
  | cons x tail =>
    have hx := List.head_dropWhile_not (fun x => decide (x ≠ 0)) b (by rw [hd]; simp)
    simp only [hd, List.head_cons] at hx
    have hx0 : x = 0 := by simpa using hx
    refine ⟨tail, ?_⟩
    rw [hd, hx0] at hsplit
    exact hsplit.symm

theorem memmove_left {α : Type} (pre mid post : List α) (x : α) :
    memmove (pre ++ x :: (mid ++ post)) pre.length (pre.length + 1) mid.length =
      pre ++ (mid ++ (x :: (mid ++ post)).drop mid.length) := by
  unfold memmove
  have h1 : ((pre ++ x :: (mid ++ post)).drop (pre.length + 1)).take mid.length = mid := by
    simp
  rw [h1, writeAt_eq _ _ _ (by simp; omega)]
  simp

theorem memmove_left_nul (pre m tail : List Nat) (x : Nat) :
    memmove (pre ++ x :: (m ++ 0 :: tail)) pre.length (pre.length + 1) (m.length + 1) =
      (pre ++ m) ++ 0 :: 0 :: tail := by
  have h := memmove_left pre (m ++ [0]) tail x
  have e1 : m ++ [0] ++ tail = m ++ 0 :: tail := by simp
  have e2 : (m ++ [0]).length = m.length + 1 := by simp
  rw [e1, e2] at h
  rw [h]
  have e3 : (x :: (m ++ 0 :: tail)).drop (m.length + 1) = 0 :: tail := by
    rw [List.drop_succ_cons, List.drop_left]
  rw [e3]
  simp

theorem line_remove (ln tail : List Nat) (i : Nat) (hi : i < ln.length) :
    memmove (ln ++ 0 :: tail) i (i + 1) (ln.length - i) =
      (ln.take i ++ ln.drop (i + 1)) ++ 0 :: 0 :: tail := by
  have hsplit : ln = ln.take i ++ ln[i] :: ln.drop (i + 1) := by
    rw [← List.drop_eq_getElem_cons hi, List.take_append_drop]
  have hl1 : (ln.take i).length = i := by simp; omega
  have hl2 : (ln.drop (i + 1)).length + 1 = ln.length - i := by simp; omega
  have h := memmove_left_nul (ln.take i) (ln.drop (i + 1)) tail ln[i]
  rw [hl1, hl2, ← List.cons_append, ← List.append_assoc, ← hsplit] at h
  exact h

theorem line_insert (a b tail : List Nat) (c t0 : Nat) :
    ((if a.length < (a ++ b).length then
        memmove (a ++ b ++ 0 :: t0 :: tail) (a.length + 1) a.length
          ((a ++ b).length - a.length)
      else a ++ b ++ 0 :: t0 :: tail).set a.length c).set ((a ++ b).length + 1) 0 =
      (a ++ c :: b) ++ 0 :: tail := by
  cases b with
  | nil => simp
  | cons b0 b1 =>
    have hlt : a.length < (a ++ b0 :: b1).length := by simp
    rw [if_pos hlt]
    unfold memmove
    have h1 : ((a ++ (b0 :: b1) ++ 0 :: t0 :: tail).drop a.length).take
        ((a ++ b0 :: b1).length - a.length) = b0 :: b1 := by
      simp
    rw [h1, writeAt_eq _ _ _ (by simp; omega)]
    have h2 : (a ++ (b0 :: b1) ++ 0 :: t0 :: tail).take (a.length + 1) = a ++ [b0] := by
      rw [List.append_assoc, List.take_append]
      rfl
    have h3 : (a ++ (b0 :: b1) ++ 0 :: t0 :: tail).drop (a.length + 1 + (b0 :: b1).length) =
        t0 :: tail := by
      have : a.length + 1 + (b0 :: b1).length = (a ++ (b0 :: b1) ++ [0]).length := by
        simp; omega
      rw [this]
      have e : a ++ (b0 :: b1) ++ 0 :: t0 :: tail = (a ++ (b0 :: b1) ++ [0]) ++ t0 :: tail := by
        simp
      rw [e, List.drop_left]
    rw [h2, h3]
    have h4 : (a ++ [b0] ++ b0 :: b1 ++ t0 :: tail).set a.length c =
        a ++ c :: (b0 :: b1 ++ t0 :: tail) := by
      simp
    rw [h4]
    have h5 : a ++ c :: (b0 :: b1 ++ t0 :: tail) = (a ++ c :: b0 :: b1) ++ t0 :: tail := by
      simp
    have h6 : (a ++ b0 :: b1).length + 1 = (a ++ c :: b0 :: b1).length := by simp; omega
    rw [h5, h6, List.set_append_right _ _ (le_refl _)]
    simp

theorem line_split (sh : Shell) (h : Inv sh) (hl : LineOK sh) :
    ∃ ln tail, cstr sh.cmd_buffer = ln ∧ sh.cmd_buffer = ln ++ 0 :: tail ∧ 0 ∉ ln ∧
      ln.length = sh.cmd_len ∧ ln.length + 1 + tail.length = 256 := by
  obtain ⟨tail, ht⟩ := cstr_split _ 255 h.buf_last
  refine ⟨_, tail, rfl, ht, not_mem_cstr _, hl, ?_⟩
  have := congrArg List.length ht
  rw [h.buf_len] at this
  simp at this
  omega

theorem line_ok_frame {sh sh1 : Shell} (hl : LineOK sh) (hf : Frame sh sh1) : LineOK sh1 := by
  obtain ⟨i, o, m, rfl⟩ := hf
  exact hl

theorem line_ok_of_eq {a : Shell} (buf : List Nat) (len : Nat) (hb : a.cmd_buffer = buf)
    (hl : a.cmd_len = len) (h : strlen buf = len) : LineOK a := by
  unfold LineOK
  rw [hb, hl, h]

theorem strlen_set_zero (buf : List Nat) : strlen (buf.set 0 0) = 0 := by
  unfold strlen
  rw [cstr_set_zero]
  rfl

theorem line_ok_cursor {sh : Shell} (hl : LineOK sh) (p : Nat) :
    LineOK { sh with cmd_pos := p } := line_ok_of_eq _ _ rfl rfl hl

theorem line_removed (sh : Shell) (h : Inv sh) (hl : LineOK sh) (i : Nat)
    (hi : i < sh.cmd_len) :
    cstr (memmove sh.cmd_buffer i (i + 1) (sh.cmd_len - i)) =
      (cstr sh.cmd_buffer).take i ++ (cstr sh.cmd_buffer).drop (i + 1) := by
  obtain ⟨ln, tail, hc, hb, hz, hlen, _⟩ := line_split sh h hl
  rw [hc, hb, ← hlen, line_remove ln tail i (by omega)]
  apply cstr_append_nul
  intro hm
  rcases List.mem_append.mp hm with hm | hm
  · exact hz (List.mem_of_mem_take hm)
  · exact hz (List.mem_of_mem_drop hm)

theorem line_inserted (sh : Shell) (h : Inv sh) (hl : LineOK sh) (c : Nat) (hc : c ≠ 0)
    (hlt : sh.cmd_len < 255) :
    cstr (((if sh.cmd_pos < sh.cmd_len then
        memmove sh.cmd_buffer (sh.cmd_pos + 1) sh.cmd_pos (sh.cmd_len - sh.cmd_pos)
      else sh.cmd_buffer).set sh.cmd_pos c).set (u16_inc sh.cmd_len) 0) =
      (cstr sh.cmd_buffer).take sh.cmd_pos ++ c :: (cstr sh.cmd_buffer).drop sh.cmd_pos := by
  obtain ⟨ln, tail, hcs, hb, hz, hlen, htl⟩ := line_split sh h hl
  have hpos := h.pos_le
  have hinc : u16_inc sh.cmd_len = sh.cmd_len + 1 := by unfold u16_inc; omega
  cases tail with
  | nil => simp at htl; omega
  | cons t0 tail =>
    have hl1 : (ln.take sh.cmd_pos).length = sh.cmd_pos := by simp; omega
    have hs : ln.take sh.cmd_pos ++ ln.drop sh.cmd_pos = ln := List.take_append_drop _ _
    have := line_insert (ln.take sh.cmd_pos) (ln.drop sh.cmd_pos) tail c t0
    rw [hs, hl1, hlen] at this
    rw [hcs, hb, hinc, this]
    apply cstr_append_nul
    intro hm
    rcases List.mem_append.mp hm with hm | hm
    · exact hz (List.mem_of_mem_take hm)
    · rcases List.mem_cons.mp hm with hm | hm
      · exact hc hm.symm
      · exact hz (List.mem_of_mem_drop hm)

theorem line_ok_load {sh : Shell} (h : Inv sh) (hl : LineOK sh) (idx : Int) :
    LineOK (load_history sh idx) := by
  have hi := h.load_history idx
  unfold load_history at hi ⊢
  split
  · rename_i entry _
    simp only [*] at hi
    unfold LineOK
    have hle := strlen_le_of_nul _ _ hi.buf_last
    dsimp only at hle ⊢
    omega
  · exact hl

theorem line_ok_escape {sh0 : Shell} (h0 : Inv sh0) (hl0 : LineOK sh0) :
    LineOK (ps_handle_escape_sequence sh0) := by
  unfold ps_handle_escape_sequence
  have hf1 := Frame.read_char (Frame.refl sh0)
  generalize read_char sh0 = r1 at hf1
  obtain ⟨c1, sh1⟩ := r1
  have h1 : Inv sh1 := h0.of_frame hf1
  have hl1 : LineOK sh1 := line_ok_frame hl0 hf1
  simp only
  split
  · exact hl1
  have hf2 := Frame.read_char (Frame.refl sh1)
  generalize read_char sh1 = r2 at hf2
  obtain ⟨c2, sh⟩ := r2
  have h : Inv sh := h1.of_frame hf2
  have hl : LineOK sh := line_ok_frame hl1 hf2
  have hsz := h.size_lt
  have hcnt := h.count_le
  have hpc := h.hpos_le
  have hpl := h.pos_le
  have hll := h.len_le
  simp only
  split
  · -- Up
    split
    · have h2 : Inv { sh with history_pos := u16_inc sh.history_pos } :=
        h.set_hpos _ (by unfold u16_inc; omega)
      have hl2 : LineOK { sh with history_pos := u16_inc sh.history_pos } :=
        line_ok_of_eq _ _ rfl rfl hl
      split
      · exact line_ok_frame (line_ok_load h2 hl2 _) (Frame.refl _).redraw_line
      · exact hl2
    · exact hl
  split
  · -- Down
    split
    · have h2 : Inv { sh with history_pos := u16_dec sh.history_pos } :=
        h.set_hpos _ (by unfold u16_dec; omega)
      have hl2 : LineOK { sh with history_pos := u16_dec sh.history_pos } :=
        line_ok_of_eq _ _ rfl rfl hl
      split
      · refine line_ok_frame ?_ (Frame.refl _).redraw_line
        exact line_ok_of_eq _ _ rfl rfl (strlen_set_zero _)
      · exact line_ok_frame (line_ok_load h2 hl2 _) (Frame.refl _).redraw_line
    · exact hl
  split
  · split
    · exact line_ok_frame (line_ok_cursor hl _) ((Frame.refl _).cursor_right 1)
    · exact hl
  split
  · split
    · exact line_ok_frame (line_ok_cursor hl _) ((Frame.refl _).cursor_left 1)
    · exact hl
  split
  · exact line_ok_frame (line_ok_cursor hl _) ((Frame.refl _).cursor_move _)
  split
  · exact line_ok_frame (line_ok_cursor hl _) ((Frame.refl _).cursor_move _)
  split
  · -- Delete
    have hf3 := Frame.read_char (Frame.refl sh)
    generalize read_char sh = r3 at hf3
    obtain ⟨c3, sh2⟩ := r3
    have h2 : Inv sh2 := h.of_frame hf3
    have hl2 : LineOK sh2 := line_ok_frame hl hf3
    have hll2 := h2.len_le
    simp only
    split
    · rename_i hc
      refine line_ok_frame ?_ (Frame.refl _).redraw_line
      refine line_ok_of_eq _ _ rfl rfl ?_
      unfold strlen
      rw [line_removed sh2 h2 hl2 _ hc.2]
      have := hl2
      unfold LineOK strlen at this
      simp only [List.length_append, List.length_take, List.length_drop, this]
      unfold u16_dec
      omega
    · exact hl2
  · exact hl

theorem line_ok_process_char (E : Env) {sh : Shell} (h : Inv sh) (hl : LineOK sh) (c : Nat)
    (sh1 : Shell) (hr : ps_process_char E sh c = .ok sh1) : LineOK sh1 := by
  have hpl := h.pos_le
  have hll := h.len_le
  have hclear : ∀ a : Shell,
      LineOK (ps_print_prompt
        { a with cmd_len := 0, cmd_pos := 0, cmd_buffer := a.cmd_buffer.set 0 0 }) := by
    intro a
    refine line_ok_frame ?_ (Frame.refl _).print_prompt
    exact line_ok_of_eq _ _ rfl rfl (strlen_set_zero _)
  unfold ps_process_char at hr
  split at hr
  · cases hr
    exact hclear _
  split at hr
  · cases hr
    exact line_ok_frame hl ((((Frame.refl sh).clear_screen).print_prompt).print _)
  split at hr
  · simp only at hr
    split at hr
    · split at hr
      · cases hr
      · cases hr
        exact hclear _
    · cases hr
      exact line_ok_frame hl (((Frame.refl sh).println _).print_prompt)
  split at hr
  · split at hr
    · rename_i hp
      cases hr
      refine line_ok_frame ?_ (Frame.refl _).redraw_line
      refine line_ok_of_eq _ _ rfl rfl ?_
      unfold strlen
      have hrem := line_removed sh h hl (sh.cmd_pos - 1) (by omega)
      have e1 : sh.cmd_pos - 1 + 1 = sh.cmd_pos := by omega
      have e2 : sh.cmd_len - (sh.cmd_pos - 1) = sh.cmd_len - sh.cmd_pos + 1 := by omega
      rw [e1, e2] at hrem
      rw [hrem]
      have := hl
      unfold LineOK strlen at this
      simp only [List.length_append, List.length_take, List.length_drop, this]
      unfold u16_dec
      omega
    · cases hr
      exact hl
  split at hr
  · cases hr
    exact line_ok_frame hl (Frame.refl sh).bell
  split at hr
  · cases hr
    exact line_ok_escape h hl
  split at hr
  · split at hr
    · rename_i hc hlt
      have hlt2 : sh.cmd_len < 255 := hlt
      cases hr
      refine line_ok_frame ?_ (Frame.refl _).redraw_line
      refine line_ok_of_eq _ _ rfl rfl ?_
      unfold strlen
      rw [line_inserted sh h hl c (by omega) hlt2]
      have := hl
      unfold LineOK strlen at this
      simp only [List.length_append, List.length_take, List.length_drop, List.length_cons, this]
      unfold u16_inc
      omega
    · cases hr
      exact hl
  · cases hr
    exact hl

theorem line_ok_reachable (E : Env) {sh : Shell} (h : Reachable E sh) : LineOK sh := by
  induction h with
  | create config stdin mem =>
    unfold LineOK strlen
    simp only [ps_create, PS_MAX_CMD_LENGTH]
    rfl
  | register_parameter name type value_ptr max_size _ ih =>
    unfold ps_register_parameter
    split
    · exact ih
    · exact ih
  | read_char _ ih => exact line_ok_frame ih (Frame.refl _).read_char
  | @process_char sh sh1 c hsh hstep ih =>
    exact line_ok_process_char E (Inv.of_reachable E hsh) ih c _ hstep

theorem abstract_state_frame {a b : Shell} (hf : Frame a b) :
    abstract_state b = abstract_state a := by
  obtain ⟨i, o, m, rfl⟩ := hf
  rfl

theorem input_redraw_line (a : Shell) : (ps_redraw_line a).input = a.input := by
  rw [redraw_line_fields]

theorem length_history_entries (sh : Shell) (h : Inv sh) :
    (history_entries sh).length = sh.history_count := by
  obtain ⟨es, hes, _, _⟩ := h.entries
  have hl := take_eq_map_some_length (by have := h.hist_len; have := h.count_le; omega) hes
  rw [history_entries_of_take sh es hes]
  exact hl

theorem spec_feed_one (s : SpecState) (x : Nat) :
    spec_escape_feed s [x] = spec_escape_step s x := by
  unfold spec_escape_feed
  cases spec_escape_step s x <;> rfl

theorem spec_feed_esc (s : SpecState) (hs : s.mode = .Normal) (bs : List Nat) :
    spec_escape_feed s (27 :: bs) = spec_escape_feed { s with mode := .EscapeSeen } bs := by
  rw [spec_escape_feed]
  simp [spec_escape_step, hs]

theorem spec_feed_bracket (s : SpecState) (hs : s.mode = .EscapeSeen) (bs : List Nat) :
    spec_escape_feed s (91 :: bs) = spec_escape_feed { s with mode := .CsiSeen } bs := by
  rw [spec_escape_feed]
  simp [spec_escape_step, hs]

theorem spec_feed_three (s : SpecState) (hs : s.mode = .CsiSeen) (bs : List Nat) :
    spec_escape_feed s (51 :: bs) = spec_escape_feed { s with mode := .CsiDigit3 } bs := by
  rw [spec_escape_feed]
  simp [spec_escape_step, hs]

theorem escape_other (sh : Shell) (x : Int) (rest : List Int) (hin : sh.input = x :: rest)
    (hx : x ≠ 91) : ps_handle_escape_sequence sh = { sh with input := rest } := by
  unfold ps_handle_escape_sequence read_char
  rw [hin]
  simp only [hx, ne_eq, not_false_eq_true, if_true]

theorem escape_up_abstract (sh : Shell) (h : Inv sh)
    (rest : List Int) (hin : sh.input = 91 :: 65 :: rest) :
    (ps_handle_escape_sequence sh).input = rest ∧
      spec_escape_step { abstract_state sh with mode := .CsiSeen } 65 =
        some (abstract_state (ps_handle_escape_sequence sh)) := by
  have hcnt := length_history_entries sh h
  have hsz := h.size_lt
  have hc := h.count_le
  have hpc := h.hpos_le
  rw [handle_escape_csi sh 65 rest hin]
  simp only [if_true]
  by_cases hp : sh.history_pos < sh.history_count
  · obtain ⟨entry, hat, hent, hle, hz⟩ :=
      history_at_entry sh h (sh.history_pos + 1) (by omega) (by omega)
    have hinc : u16_inc sh.history_pos = sh.history_pos + 1 := by unfold u16_inc; omega
    have hat2 : history_at
        { sh with input := rest, history_pos := sh.history_pos + 1 }
        ((sh.history_count : Int) - ((sh.history_pos + 1 : Nat) : Int)) = some entry := hat
    simp only [hinc]
    rw [if_pos ⟨by omega, hp⟩, hat2,
      load_history_eq _ _ entry hat2 h.buf_len h.buf_last hle hz]
    refine ⟨by rw [input_redraw_line], ?_⟩
    rw [abstract_state_frame (Frame.refl _).redraw_line]
    unfold spec_escape_step abstract_state
    simp only [if_true]
    rw [if_pos (by rw [hcnt]; exact hp)]
    have hg : (history_entries sh).getD (sh.history_count - (sh.history_pos + 1)) [] = entry := by
      rw [List.getD_eq_getElem?_getD, hent]
      rfl
    rw [hcnt, hg, cstr_entry _ _ hz]
    rfl
  · rw [if_neg (by intro hh; exact hp hh.2)]
    refine ⟨rfl, ?_⟩
    unfold spec_escape_step abstract_state
    simp only [if_true]
    rw [if_neg (by rw [hcnt]; exact hp)]
    rfl

theorem escape_down_abstract (sh : Shell) (h : Inv sh)
    (rest : List Int) (hin : sh.input = 91 :: 66 :: rest) :
    (ps_handle_escape_sequence sh).input = rest ∧
      spec_escape_step { abstract_state sh with mode := .CsiSeen } 66 =
        some (abstract_state (ps_handle_escape_sequence sh)) := by
  have hcnt := length_history_entries sh h
  have hsz := h.size_lt
  have hc := h.count_le
  have hpc := h.hpos_le
  rw [handle_escape_csi sh 66 rest hin]
  have h65 : ¬ ((66 : Int) = 65) := by decide
  simp only [h65, if_false, if_true]
  by_cases hp : sh.history_pos > 0
  · have hdec : u16_dec sh.history_pos = sh.history_pos - 1 := by unfold u16_dec; omega
    simp only [hdec]
    rw [if_pos hp]
    by_cases h1 : sh.history_pos - 1 = 0
    · rw [if_pos h1]
      refine ⟨by rw [input_redraw_line], ?_⟩
      rw [abstract_state_frame (Frame.refl _).redraw_line]
      unfold spec_escape_step abstract_state
      simp only [if_true]
      rw [if_pos hp, if_pos h1]
      simp only [cstr_set_zero, h1]
      rfl
    · rw [if_neg h1]
      obtain ⟨entry, hat, hent, hle, hz⟩ :=
        history_at_entry sh h (sh.history_pos - 1) (by omega) (by omega)
      have hat2 : history_at
          { sh with input := rest, history_pos := sh.history_pos - 1 }
          ((sh.history_count : Int) - ((sh.history_pos - 1 : Nat) : Int)) = some entry := hat
      rw [load_history_eq _ _ entry hat2 h.buf_len h.buf_last hle hz]
      refine ⟨by rw [input_redraw_line], ?_⟩
      rw [abstract_state_frame (Frame.refl _).redraw_line]
      unfold spec_escape_step abstract_state
      simp only [if_true]
      rw [if_pos hp, if_neg h1]
      have hg : (history_entries sh).getD (sh.history_count - (sh.history_pos - 1)) [] =
          entry := by
        rw [List.getD_eq_getElem?_getD, hent]
        rfl
      rw [hcnt, hg, cstr_entry _ _ hz]
      rfl
  · rw [if_neg hp]
    refine ⟨rfl, ?_⟩
    unfold spec_escape_step abstract_state
    simp only [if_true]
    rw [if_neg hp]
    rfl

theorem cursor_right_fields (a : Shell) (n : Int) :
    ps_vt100_cursor_right a n = { a with output := (ps_vt100_cursor_right a n).output } := by
  unfold ps_vt100_cursor_right
  split <;> rfl

theorem cursor_left_fields (a : Shell) (n : Int) :
    ps_vt100_cursor_left a n = { a with output := (ps_vt100_cursor_left a n).output } := by
  unfold ps_vt100_cursor_left
  split <;> rfl

theorem cursor_move_fields (a : Shell) (n : Int) :
    ps_vt100_cursor_move a n = { a with output := (ps_vt100_cursor_move a n).output } := by
  unfold ps_vt100_cursor_move
  split <;> rfl

theorem escape_cursor_abstract (sh : Shell) (h : Inv sh) (hl : LineOK sh) (x : Nat)
    (rest : List Int) (hin : sh.input = 91 :: (x : Int) :: rest)
    (h65 : x ≠ 65) (h66 : x ≠ 66) (h51 : x ≠ 51) :
    (ps_handle_escape_sequence sh).input = rest ∧
      spec_escape_step { abstract_state sh with mode := .CsiSeen } x =
        some (abstract_state (ps_handle_escape_sequence sh)) := by
  have hlen : (cstr sh.cmd_buffer).length = sh.cmd_len := hl
  have hpl := h.pos_le
  have hll := h.len_le
  have c65 : ¬ ((x : Int) = 65) := by omega
  have c66 : ¬ ((x : Int) = 66) := by omega
  have c51 : ¬ ((x : Int) = 51) := by omega
  rw [handle_escape_csi sh x rest hin]
  unfold spec_escape_step abstract_state
  simp only [c65, c66, h65, h66, if_false]
  by_cases h67 : x = 67
  · subst h67
    simp only [Nat.cast_ofNat, if_true, hlen]
    by_cases hp : sh.cmd_pos < sh.cmd_len
    · have hinc : u16_inc sh.cmd_pos = sh.cmd_pos + 1 := by unfold u16_inc; omega
      rw [if_pos hp, if_pos hp, hinc]
      rw [cursor_right_fields]
      exact ⟨rfl, rfl⟩
    · rw [if_neg hp, if_neg hp]
      exact ⟨rfl, rfl⟩
  have c67 : ¬ ((x : Int) = 67) := by omega
  simp only [c67, h67, if_false]
  by_cases h68 : x = 68
  · subst h68
    simp only [Nat.cast_ofNat, if_true]
    by_cases hp : sh.cmd_pos > 0
    · have hdec : u16_dec sh.cmd_pos = sh.cmd_pos - 1 := by unfold u16_dec; omega
      rw [if_pos hp, if_pos hp, hdec]
      rw [cursor_left_fields]
      exact ⟨rfl, rfl⟩
    · rw [if_neg hp, if_neg hp]
      exact ⟨rfl, rfl⟩
  have c68 : ¬ ((x : Int) = 68) := by omega
  simp only [c68, h68, if_false]
  by_cases h72 : x = 72
  · subst h72
    simp only [Nat.cast_ofNat, if_true]
    rw [cursor_move_fields]
    exact ⟨rfl, rfl⟩
  have c72 : ¬ ((x : Int) = 72) := by omega
  simp only [c72, h72, if_false]
  by_cases h70 : x = 70
  · subst h70
    simp only [Nat.cast_ofNat, if_true, hlen]
    rw [cursor_move_fields]
    exact ⟨rfl, rfl⟩
  have c70 : ¬ ((x : Int) = 70) := by omega
  rw [if_neg c70, if_neg c51, if_neg h70, if_neg h51]
  exact ⟨rfl, rfl⟩

theorem escape_delete_abstract (sh : Shell) (h : Inv sh) (hl : LineOK sh) (x : Nat)
    (rest : List Int) (hin : sh.input = 91 :: 51 :: (x : Int) :: rest) :
    (ps_handle_escape_sequence sh).input = rest ∧
      spec_escape_step { abstract_state sh with mode := .CsiDigit3 } x =
        some (abstract_state (ps_handle_escape_sequence sh)) := by
  have hlen : (cstr sh.cmd_buffer).length = sh.cmd_len := hl
  have hpl := h.pos_le
  have hll := h.len_le
  rw [handle_escape_csi sh 51 ((x : Int) :: rest) hin]
  have hread : read_char { sh with input := (x : Int) :: rest } =
      ((x : Int), { sh with input := rest }) := rfl
  have e1 : ¬ ((51 : Int) = 65) := by decide
  have e2 : ¬ ((51 : Int) = 66) := by decide
  have e3 : ¬ ((51 : Int) = 67) := by decide
  have e4 : ¬ ((51 : Int) = 68) := by decide
  have e5 : ¬ ((51 : Int) = 72) := by decide
  have e6 : ¬ ((51 : Int) = 70) := by decide
  simp only [e1, e2, e3, e4, e5, e6, if_false, if_true, hread]
  unfold spec_escape_step abstract_state
  simp only [hlen]
  have hcast : ((x : Int) = 126) ↔ x = 126 := by omega
  by_cases hc : x = 126 ∧ sh.cmd_pos < sh.cmd_len
  · rw [if_pos hc, if_pos ⟨hcast.mpr hc.1, hc.2⟩]
    have hrem := line_removed sh h hl sh.cmd_pos hc.2
    rw [redraw_line_fields]
    refine ⟨rfl, ?_⟩
    dsimp only
    rw [hrem]
    rfl
  · rw [if_neg hc, if_neg (by intro hh; exact hc ⟨hcast.mp hh.1, hh.2⟩)]
    exact ⟨rfl, rfl⟩
/-- C15 (amended): when the transport delivers an escape sequence in a session
state, the one iteration of the session loop that reads ESC consumes the whole
sequence (the call of `ps_process_char` for ESC reads the following bytes from
the read callback itself) and leaves the line, the cursor, the history entries
and the browse position that the four-state decoder of the specification
reaches from `Normal` when it is fed the same bytes one at a time, back in
`Normal`: for ESC `[` `x` with `x` other than `3`, for ESC `[` `3` `x`, and
for ESC `x` with `x` other than `[`. -/
theorem escape_sequence_refines_decoder (E : Env) (sh : Shell) (x : Nat) (rest : List Int)
    (h : Reachable E sh) :
    (sh.input = 27 :: 91 :: (x : Int) :: rest → x ≠ 51 →
      ∃ sh1, run_body E sh = .ok sh1 ∧ sh1.input = rest ∧
        spec_escape_feed (abstract_state sh) [27, 91, x] = some (abstract_state sh1)) ∧
    (sh.input = 27 :: 91 :: 51 :: (x : Int) :: rest →
      ∃ sh1, run_body E sh = .ok sh1 ∧ sh1.input = rest ∧
        spec_escape_feed (abstract_state sh) [27, 91, 51, x] = some (abstract_state sh1)) ∧
    (sh.input = 27 :: (x : Int) :: rest → x ≠ 91 →
      ∃ sh1, run_body E sh = .ok sh1 ∧ sh1.input = rest ∧
        spec_escape_feed (abstract_state sh) [27, x] = some (abstract_state sh1)) := by
  have hi := Inv.of_reachable E h
  have hl := line_ok_reachable E h
  have hfeed : ∀ i : List Int, Inv { sh with input := i } ∧ LineOK { sh with input := i } :=
    fun i => ⟨hi.of_frame ⟨i, sh.output, sh.mem, rfl⟩,
      line_ok_frame hl ⟨i, sh.output, sh.mem, rfl⟩⟩
  refine ⟨fun hin hx => ?_, fun hin => ?_, fun hin hx => ?_⟩
  · refine ⟨_, run_body_esc E sh _ hin, ?_⟩
    rw [spec_feed_esc _ rfl, spec_feed_bracket _ rfl, spec_feed_one]
    by_cases h65 : x = 65
    · subst h65
      exact escape_up_abstract _ (hfeed _).1 rest rfl
    by_cases h66 : x = 66
    · subst h66
      exact escape_down_abstract _ (hfeed _).1 rest rfl
    exact escape_cursor_abstract _ (hfeed _).1 (hfeed _).2 x rest rfl h65 h66 hx
  · refine ⟨_, run_body_esc E sh _ hin, ?_⟩
    rw [spec_feed_esc _ rfl, spec_feed_bracket _ rfl, spec_feed_three _ rfl, spec_feed_one]
    exact escape_delete_abstract _ (hfeed _).1 (hfeed _).2 x rest rfl
  · refine ⟨_, run_body_esc E sh _ hin, ?_⟩
    rw [escape_other { sh with input := (x : Int) :: rest } (x : Int) rest rfl (by omega),
      spec_feed_esc _ rfl, spec_feed_one]
    refine ⟨rfl, ?_⟩
    unfold spec_escape_step
    simp only [abstract_state]
    rw [if_neg hx]
    rfl

set_option maxRecDepth 1000000 in
/-- Witness for C15 (amended): `ab` is typed, the Left arrow moves the cursor
between the two letters, and ESC `[` `3` `~` is waiting in the transport: one
iteration consumes the four bytes and both the code and the decoder of the
specification reach the line `a` with the cursor at 1. -/
theorem escape_sequence_refines_decoder_witness :
    (Reachable demo_env (demo_run "ab\x1b[D\x1b[3~" 3) ∧
      (demo_run "ab\x1b[D\x1b[3~" 3).input = 27 :: 91 :: 51 :: ((126 : Nat) : Int) :: [] ∧
      abstract_state (demo_run "ab\x1b[D\x1b[3~" 3) =
        { mode := .Normal, line := bytes "ab", cursor := 1, entries := [], browse := 0 } ∧
      spec_escape_feed (abstract_state (demo_run "ab\x1b[D\x1b[3~" 3)) [27, 91, 51, 126] =
        some { mode := .Normal, line := bytes "a", cursor := 1, entries := [], browse := 0 }) ∧
    ∃ sh1, run_body demo_env (demo_run "ab\x1b[D\x1b[3~" 3) = .ok sh1 ∧ sh1.input = [] ∧
      spec_escape_feed (abstract_state (demo_run "ab\x1b[D\x1b[3~" 3)) [27, 91, 51, 126] =
        some (abstract_state sh1) :=
  ⟨⟨demo_reachable _ _ (by rfl), by rfl, by rfl, by rfl⟩,
    (escape_sequence_refines_decoder demo_env _ 126 []
      (demo_reachable _ _ (by rfl))).2.1 (by rfl)⟩

set_option maxRecDepth 1000000 in
/-- C15 (the code against the claim as written): with `ab` typed and `[`, `D`
waiting in the transport, the call of `ps_process_char` for ESC consumes both
waiting bytes; and with nothing waiting, the bytes ESC, `[`, `D` passed one per
call leave the line `ab[D` with the cursor at 4, where the decoder of the
specification leaves the line `ab` with the cursor at 1. -/
theorem escape_call_reads_ahead :
    (demo_run "ab[D" 2).input = [91, 68] ∧
      (ps_process_char demo_env (demo_run "ab[D" 2) 27).map (fun s => s.input) = .ok [] ∧
      (demo_run "ab" 2).input = [] ∧
      (feed demo_env (demo_run "ab" 2) [27, 91, 68]).map abstract_state =
        .ok { mode := .Normal, line := bytes "ab[D", cursor := 4, entries := [], browse := 0 } ∧
      spec_escape_feed (abstract_state (demo_run "ab" 2)) [27, 91, 68] =
        some { mode := .Normal, line := bytes "ab", cursor := 1, entries := [], browse := 0 } :=
  ⟨by rfl, by rfl, by rfl, by rfl, by rfl⟩
/-! ## C21, C22, C23: insert, Backspace and Delete on the line -/

theorem process_char_printable (E : Env) (sh : Shell) (c : Nat) (hc : 32 ≤ c ∧ c < 127) :
    ps_process_char E sh c =
      if sh.cmd_len < 255 then
        .ok (ps_redraw_line
          { sh with
            cmd_buffer := ((if sh.cmd_pos < sh.cmd_len then
                memmove sh.cmd_buffer (sh.cmd_pos + 1) sh.cmd_pos (sh.cmd_len - sh.cmd_pos)
              else sh.cmd_buffer).set sh.cmd_pos c).set (u16_inc sh.cmd_len) 0
            cmd_pos := u16_inc sh.cmd_pos
            cmd_len := u16_inc sh.cmd_len })
      else .ok sh := by
  unfold ps_process_char
  simp only [PS_KEY_CTRL_C, PS_KEY_CTRL_L, PS_KEY_ENTER, PS_KEY_BACKSPACE, PS_KEY_TAB,
    PS_KEY_ESC, PS_MAX_CMD_LENGTH]
  rw [if_neg (by omega), if_neg (by omega), if_neg (by omega), if_neg (by omega),
    if_neg (by omega), if_neg (by omega), if_pos hc]

theorem process_char_backspace (E : Env) (sh : Shell) (c : Nat) (hc : c = 127 ∨ c = 8) :
    ps_process_char E sh c =
      if sh.cmd_pos > 0 then
        .ok (ps_redraw_line
          { sh with
            cmd_buffer := memmove sh.cmd_buffer (sh.cmd_pos - 1) sh.cmd_pos
              (sh.cmd_len - sh.cmd_pos + 1)
            cmd_pos := u16_dec sh.cmd_pos
            cmd_len := u16_dec sh.cmd_len })
      else .ok sh := by
  unfold ps_process_char
  simp only [PS_KEY_CTRL_C, PS_KEY_CTRL_L, PS_KEY_ENTER, PS_KEY_BACKSPACE, PS_KEY_TAB,
    PS_KEY_ESC]
  rw [if_neg (by omega), if_neg (by omega), if_neg (by omega), if_pos hc]

/-- C21: in every session state with line `s`, cursor `p` and length `n` (the
length of `s`), a printable byte `c` (0x20..0x7E) handed to `ps_process_char`
gives, when `n < 255`, the line `s[0..p) ++ [c] ++ s[p..n)` with cursor `p + 1`
and length `n + 1`; when `n = 255` the state is returned unchanged. -/
theorem insert_printable (E : Env) (sh : Shell) (c : Nat) (h : Reachable E sh)
    (hc : 32 ≤ c ∧ c < 127) :
    (cstr sh.cmd_buffer).length = sh.cmd_len ∧ sh.cmd_pos ≤ sh.cmd_len ∧ sh.cmd_len ≤ 255 ∧
    (sh.cmd_len < 255 →
      ∃ sh1, ps_process_char E sh c = .ok sh1 ∧
        cstr sh1.cmd_buffer =
          (cstr sh.cmd_buffer).take sh.cmd_pos ++ [c] ++ (cstr sh.cmd_buffer).drop sh.cmd_pos ∧
        sh1.cmd_pos = sh.cmd_pos + 1 ∧ sh1.cmd_len = sh.cmd_len + 1 ∧
        (cstr sh1.cmd_buffer).length = sh1.cmd_len) ∧
    (sh.cmd_len = 255 → ps_process_char E sh c = .ok sh) := by
  have hi := Inv.of_reachable E h
  have hl := line_ok_reachable E h
  have hpl := hi.pos_le
  have hll := hi.len_le
  refine ⟨hl, hpl, hll, fun hlt => ?_, fun heq => ?_⟩
  · rw [process_char_printable E sh c hc, if_pos hlt, redraw_line_fields]
    have hins := line_inserted sh hi hl c (by omega) hlt
    have e1 : u16_inc sh.cmd_pos = sh.cmd_pos + 1 := by unfold u16_inc; omega
    have e2 : u16_inc sh.cmd_len = sh.cmd_len + 1 := by unfold u16_inc; omega
    refine ⟨_, rfl, ?_, e1, e2, ?_⟩
    · dsimp only
      rw [hins]
      simp
    · dsimp only
      rw [hins, e2]
      have : (cstr sh.cmd_buffer).length = sh.cmd_len := hl
      simp only [List.length_append, List.length_take, List.length_drop, List.length_cons,
        this]
      omega
  · rw [process_char_printable E sh c hc, if_neg (by omega)]

set_option maxRecDepth 1000000 in
/-- Witness for C21: with `ac` typed and the cursor moved left once, `b` is
inserted between the two letters. -/
theorem insert_printable_witness :
    (Reachable demo_env (demo_run "ac\x1b[D" 3) ∧ (32 ≤ 98 ∧ 98 < 127) ∧
      cstr (demo_run "ac\x1b[D" 3).cmd_buffer = bytes "ac" ∧
      (demo_run "ac\x1b[D" 3).cmd_pos = 1 ∧ (demo_run "ac\x1b[D" 3).cmd_len < 255) ∧
    ∃ sh1, ps_process_char demo_env (demo_run "ac\x1b[D" 3) 98 = .ok sh1 ∧
      cstr sh1.cmd_buffer =
        (cstr (demo_run "ac\x1b[D" 3).cmd_buffer).take (demo_run "ac\x1b[D" 3).cmd_pos ++ [98]
          ++ (cstr (demo_run "ac\x1b[D" 3).cmd_buffer).drop (demo_run "ac\x1b[D" 3).cmd_pos ∧
      sh1.cmd_pos = (demo_run "ac\x1b[D" 3).cmd_pos + 1 ∧
      sh1.cmd_len = (demo_run "ac\x1b[D" 3).cmd_len + 1 ∧
      (cstr sh1.cmd_buffer).length = sh1.cmd_len :=
  ⟨⟨demo_reachable _ _ (by rfl), by decide, by rfl, by rfl, by decide⟩,
    (insert_printable demo_env _ 98 (demo_reachable _ _ (by rfl)) (by decide)).2.2.2.1
      (by decide)⟩
/-- C22: in every session state with line `s`, cursor `p` and length `n`,
Backspace (0x7F or 0x08) handed to `ps_process_char` gives, when `p > 0`, the
line `s[0..p-1) ++ s[p..n)` with cursor `p - 1` and length `n - 1`; when
`p = 0` the state is returned unchanged, so nothing is written. -/
theorem backspace_removes_left (E : Env) (sh : Shell) (c : Nat) (h : Reachable E sh)
    (hc : c = 127 ∨ c = 8) :
    (cstr sh.cmd_buffer).length = sh.cmd_len ∧ sh.cmd_pos ≤ sh.cmd_len ∧
    (sh.cmd_pos > 0 →
      ∃ sh1, ps_process_char E sh c = .ok sh1 ∧
        cstr sh1.cmd_buffer =
          (cstr sh.cmd_buffer).take (sh.cmd_pos - 1) ++ (cstr sh.cmd_buffer).drop sh.cmd_pos ∧
        sh1.cmd_pos = sh.cmd_pos - 1 ∧ sh1.cmd_len = sh.cmd_len - 1 ∧
        (cstr sh1.cmd_buffer).length = sh1.cmd_len) ∧
    (sh.cmd_pos = 0 → ps_process_char E sh c = .ok sh) := by
  have hi := Inv.of_reachable E h
  have hl := line_ok_reachable E h
  have hpl := hi.pos_le
  have hll := hi.len_le
  refine ⟨hl, hpl, fun hp => ?_, fun hp => ?_⟩
  · rw [process_char_backspace E sh c hc, if_pos hp, redraw_line_fields]
    have hrem := line_removed sh hi hl (sh.cmd_pos - 1) (by omega)
    have e1 : sh.cmd_pos - 1 + 1 = sh.cmd_pos := by omega
    have e2 : sh.cmd_len - (sh.cmd_pos - 1) = sh.cmd_len - sh.cmd_pos + 1 := by omega
    rw [e1, e2] at hrem
    have d1 : u16_dec sh.cmd_pos = sh.cmd_pos - 1 := by unfold u16_dec; omega
    have d2 : u16_dec sh.cmd_len = sh.cmd_len - 1 := by unfold u16_dec; omega
    refine ⟨_, rfl, hrem, d1, d2, ?_⟩
    dsimp only
    rw [hrem, d2]
    have : (cstr sh.cmd_buffer).length = sh.cmd_len := hl
    simp only [List.length_append, List.length_take, List.length_drop, this]
    omega
  · rw [process_char_backspace E sh c hc, if_neg (by omega)]

set_option maxRecDepth 1000000 in
/-- Witness for C22: with `abc` typed and the cursor moved left once,
Backspace removes `b`. -/
theorem backspace_removes_left_witness :
    (Reachable demo_env (demo_run "abc\x1b[D" 4) ∧ (127 = 127 ∨ 127 = 8) ∧
      cstr (demo_run "abc\x1b[D" 4).cmd_buffer = bytes "abc" ∧
      (demo_run "abc\x1b[D" 4).cmd_pos = 2) ∧
    ∃ sh1, ps_process_char demo_env (demo_run "abc\x1b[D" 4) 127 = .ok sh1 ∧
      cstr sh1.cmd_buffer =
        (cstr (demo_run "abc\x1b[D" 4).cmd_buffer).take ((demo_run "abc\x1b[D" 4).cmd_pos - 1)
          ++ (cstr (demo_run "abc\x1b[D" 4).cmd_buffer).drop (demo_run "abc\x1b[D" 4).cmd_pos ∧
      sh1.cmd_pos = (demo_run "abc\x1b[D" 4).cmd_pos - 1 ∧
      sh1.cmd_len = (demo_run "abc\x1b[D" 4).cmd_len - 1 ∧
      (cstr sh1.cmd_buffer).length = sh1.cmd_len :=
  ⟨⟨demo_reachable _ _ (by rfl), by decide, by rfl, by rfl⟩,
    (backspace_removes_left demo_env _ 127 (demo_reachable _ _ (by rfl)) (by decide)).2.2.1
      (by decide)⟩

theorem handle_escape_delete (sh : Shell) (c3 : Int) (rest : List Int)
    (hin : sh.input = 91 :: 51 :: c3 :: rest) :
    ps_handle_escape_sequence sh =
      if c3 = 126 ∧ sh.cmd_pos < sh.cmd_len then
        ps_redraw_line
          { sh with
            input := rest
            cmd_buffer := memmove sh.cmd_buffer sh.cmd_pos (sh.cmd_pos + 1)
              (sh.cmd_len - sh.cmd_pos)
            cmd_len := u16_dec sh.cmd_len }
      else { sh with input := rest } := by
  rw [handle_escape_csi sh 51 (c3 :: rest) hin]
  have hread : read_char { sh with input := c3 :: rest } = (c3, { sh with input := rest }) :=
    rfl
  have e1 : ¬ ((51 : Int) = 65) := by decide
  have e2 : ¬ ((51 : Int) = 66) := by decide
  have e3 : ¬ ((51 : Int) = 67) := by decide
  have e4 : ¬ ((51 : Int) = 68) := by decide
  have e5 : ¬ ((51 : Int) = 72) := by decide
  have e6 : ¬ ((51 : Int) = 70) := by decide
  simp only [e1, e2, e3, e4, e5, e6, if_false, if_true, hread]

/-- C23: in every session state with line `s`, cursor `p` and length `n`, when
the transport delivers ESC `[` `3` `~` one iteration of the session loop
consumes the four bytes and gives, when `p < n`, the line
`s[0..p) ++ s[p+1..n)` with cursor `p` and length `n - 1`, and when `p = n`
the same state; and ESC `[` `3` followed by a byte other than `~` is consumed
with the state otherwise unchanged. -/
theorem delete_removes_at_cursor (E : Env) (sh : Shell) (x : Int) (rest : List Int)
    (h : Reachable E sh) :
    (cstr sh.cmd_buffer).length = sh.cmd_len ∧ sh.cmd_pos ≤ sh.cmd_len ∧
    (sh.input = 27 :: 91 :: 51 :: 126 :: rest → sh.cmd_pos < sh.cmd_len →
      ∃ sh1, run_body E sh = .ok sh1 ∧ sh1.input = rest ∧
        cstr sh1.cmd_buffer =
          (cstr sh.cmd_buffer).take sh.cmd_pos ++ (cstr sh.cmd_buffer).drop (sh.cmd_pos + 1) ∧
        sh1.cmd_pos = sh.cmd_pos ∧ sh1.cmd_len = sh.cmd_len - 1 ∧
        (cstr sh1.cmd_buffer).length = sh1.cmd_len) ∧
    (sh.input = 27 :: 91 :: 51 :: 126 :: rest → sh.cmd_pos = sh.cmd_len →
      run_body E sh = .ok { sh with input := rest }) ∧
    (sh.input = 27 :: 91 :: 51 :: x :: rest → x ≠ 126 →
      run_body E sh = .ok { sh with input := rest }) := by
  have hi := Inv.of_reachable E h
  have hl := line_ok_reachable E h
  have hpl := hi.pos_le
  have hll := hi.len_le
  refine ⟨hl, hpl, fun hin hp => ?_, fun hin hp => ?_, fun hin hx => ?_⟩
  · rw [run_body_esc E sh _ hin, handle_escape_delete _ 126 rest rfl,
      if_pos ⟨rfl, hp⟩, redraw_line_fields]
    have hrem := line_removed sh hi hl sh.cmd_pos hp
    have d2 : u16_dec sh.cmd_len = sh.cmd_len - 1 := by unfold u16_dec; omega
    refine ⟨_, rfl, rfl, hrem, rfl, d2, ?_⟩
    dsimp only
    rw [hrem, d2]
    have : (cstr sh.cmd_buffer).length = sh.cmd_len := hl
    simp only [List.length_append, List.length_take, List.length_drop, this]
    omega
  · rw [run_body_esc E sh _ hin, handle_escape_delete _ 126 rest rfl,
      if_neg (by intro hh; have := hh.2; dsimp only at this; omega)]
  · rw [run_body_esc E sh _ hin, handle_escape_delete _ x rest rfl,
      if_neg (by intro hh; exact hx hh.1)]

set_option maxRecDepth 1000000 in
/-- Witness for C23: with `abc` typed and the cursor moved left twice, the
delete sequence removes `b`. -/
theorem delete_removes_at_cursor_witness :
    (Reachable demo_env (demo_run "abc\x1b[D\x1b[D\x1b[3~" 5) ∧
      (demo_run "abc\x1b[D\x1b[D\x1b[3~" 5).input = 27 :: 91 :: 51 :: 126 :: [] ∧
      cstr (demo_run "abc\x1b[D\x1b[D\x1b[3~" 5).cmd_buffer = bytes "abc" ∧
      (demo_run "abc\x1b[D\x1b[D\x1b[3~" 5).cmd_pos = 1 ∧
      (demo_run "abc\x1b[D\x1b[D\x1b[3~" 5).cmd_len = 3) ∧
    ∃ sh1, run_body demo_env (demo_run "abc\x1b[D\x1b[D\x1b[3~" 5) = .ok sh1 ∧
      sh1.input = [] ∧
      cstr sh1.cmd_buffer =
        (cstr (demo_run "abc\x1b[D\x1b[D\x1b[3~" 5).cmd_buffer).take
            (demo_run "abc\x1b[D\x1b[D\x1b[3~" 5).cmd_pos
          ++ (cstr (demo_run "abc\x1b[D\x1b[D\x1b[3~" 5).cmd_buffer).drop
            ((demo_run "abc\x1b[D\x1b[D\x1b[3~" 5).cmd_pos + 1) ∧
      sh1.cmd_pos = (demo_run "abc\x1b[D\x1b[D\x1b[3~" 5).cmd_pos ∧
      sh1.cmd_len = (demo_run "abc\x1b[D\x1b[D\x1b[3~" 5).cmd_len - 1 ∧
      (cstr sh1.cmd_buffer).length = sh1.cmd_len :=
  ⟨⟨demo_reachable _ _ (by rfl), by rfl, by rfl, by rfl, by rfl⟩,
    (delete_removes_at_cursor demo_env _ 0 [] (demo_reachable _ _ (by rfl))).2.2.1
      (by rfl) (by decide)⟩
/-! ## C24 and C25: ignored bytes and malformed escape sequences -/

/-- C24: a byte that is neither printable (0x20..0x7E) nor one of the handled
controls 0x03, 0x08, 0x09, 0x0A, 0x0C, 0x0D, 0x1B, 0x7F is ignored:
`ps_process_char` returns the state it was given, so the line buffer, the
cursor, the history and the parameters are unchanged and nothing is written. -/
theorem unhandled_byte_ignored (E : Env) (sh : Shell) (c : Nat)
    (hp : ¬ (32 ≤ c ∧ c < 127)) (hctl : c ∉ [3, 8, 9, 10, 12, 13, 27, 127]) :
    ps_process_char E sh c = .ok sh := by
  simp only [List.mem_cons, List.mem_singleton, List.not_mem_nil, or_false, not_or] at hctl
  unfold ps_process_char
  simp only [PS_KEY_CTRL_C, PS_KEY_CTRL_L, PS_KEY_ENTER, PS_KEY_BACKSPACE, PS_KEY_TAB,
    PS_KEY_ESC]
  rw [if_neg (by omega), if_neg (by omega), if_neg (by omega), if_neg (by omega),
    if_neg (by omega), if_neg (by omega), if_neg hp]

set_option maxRecDepth 1000000 in
/-- Witness for C24: the bytes 0x00, 0x01, 0x80 and 0xFF with `ab` typed. -/
theorem unhandled_byte_ignored_witness :
    ps_process_char demo_env (demo_run "ab" 2) 0 = .ok (demo_run "ab" 2) ∧
      ps_process_char demo_env (demo_run "ab" 2) 1 = .ok (demo_run "ab" 2) ∧
      ps_process_char demo_env (demo_run "ab" 2) 128 = .ok (demo_run "ab" 2) ∧
      ps_process_char demo_env (demo_run "ab" 2) 255 = .ok (demo_run "ab" 2) :=
  ⟨unhandled_byte_ignored demo_env _ 0 (by decide) (by decide),
    unhandled_byte_ignored demo_env _ 1 (by decide) (by decide),
    unhandled_byte_ignored demo_env _ 128 (by decide) (by decide),
    unhandled_byte_ignored demo_env _ 255 (by decide) (by decide)⟩

/-- C25: when the transport delivers ESC and a value other than `[`, or ESC,
`[` and a value outside `A`, `B`, `C`, `D`, `H`, `F`, `3`, one iteration of
the session loop consumes these values and returns the state otherwise
unchanged: the line buffer, the cursor and the history are as before, nothing
is written, and no byte of the sequence is inserted into the line. -/
theorem malformed_escape_dropped (E : Env) (sh : Shell) (x : Int) (rest : List Int) :
    (sh.input = 27 :: x :: rest → x ≠ 91 → run_body E sh = .ok { sh with input := rest }) ∧
    (sh.input = 27 :: 91 :: x :: rest → x ∉ [65, 66, 67, 68, 72, 70, 51] →
      run_body E sh = .ok { sh with input := rest }) := by
  refine ⟨fun hin hx => ?_, fun hin hx => ?_⟩
  · rw [run_body_esc E sh _ hin, escape_other _ x rest rfl hx]
  · simp only [List.mem_cons, List.mem_singleton, List.not_mem_nil, or_false, not_or] at hx
    rw [run_body_esc E sh _ hin, handle_escape_csi _ x rest rfl]
    simp only [hx.1, hx.2.1, hx.2.2.1, hx.2.2.2.1, hx.2.2.2.2.1, hx.2.2.2.2.2.1,
      hx.2.2.2.2.2.2, if_false]

set_option maxRecDepth 1000000 in
/-- Witness for C25: with `ab` typed, ESC `x` and ESC `[` `Z` are consumed and
the line stays `ab`. -/
theorem malformed_escape_dropped_witness :
    ((demo_run "ab\x1bx" 2).input = 27 :: 120 :: [] ∧ (120 : Int) ≠ 91 ∧
      (demo_run "ab\x1b[Z" 2).input = 27 :: 91 :: 90 :: [] ∧
      (90 : Int) ∉ [65, 66, 67, 68, 72, 70, 51] ∧
      cstr (demo_run "ab\x1bx" 2).cmd_buffer = bytes "ab") ∧
    run_body demo_env (demo_run "ab\x1bx" 2) = .ok { demo_run "ab\x1bx" 2 with input := [] } ∧
    run_body demo_env (demo_run "ab\x1b[Z" 2) = .ok { demo_run "ab\x1b[Z" 2 with input := [] } :=
  ⟨⟨by rfl, by decide, by rfl, by decide, by rfl⟩,
    (malformed_escape_dropped demo_env _ 120 []).1 (by rfl) (by decide),
    (malformed_escape_dropped demo_env _ 90 []).2 (by rfl) (by decide)⟩

/-! ## C30: registering and unregistering a command -/

theorem remove_command_none (name : Str) (cs : List PSCommand) :
    remove_command name cs = none ↔ ∀ c ∈ cs, c.name ≠ name := by
  induction cs with
  | nil => simp [remove_command]
  | cons c cs ih =>
    unfold remove_command
    by_cases hc : c.name = name
    · rw [if_pos hc]
      simp [hc]
    · rw [if_neg hc]
      simp only [Option.map_eq_none', ih, List.mem_cons, forall_eq_or_imp, hc, ne_eq,
        not_false_eq_true, true_and]

/-- C30: for every registry state and every name, `ps_register_command` with
a name and a function returns 0 and puts the node at the head; then
`ps_unregister_command` with this name returns 0 and gives back the state
before the registration, so the list of commands is the same in the same
order and lookup finds what it found before; and `ps_unregister_command`
returns -1 exactly when no node has the name, and then it changes nothing;
otherwise it returns 0. -/
theorem register_unregister_round_trip (sh : Shell) (name : Str) (help : Option Str)
    (f : PSCommandFunc) :
    ps_register_command sh (some name) help (some f) =
        (0, { sh with commands := { name := name, help := help, func := f } :: sh.commands }) ∧
      ps_unregister_command (ps_register_command sh (some name) help (some f)).2 (some name) =
        (0, sh) ∧
      (∀ n, find_command n
          (ps_unregister_command (ps_register_command sh (some name) help (some f)).2
            (some name)).2.commands = find_command n sh.commands) ∧
      ((ps_unregister_command sh (some name)).1 = -1 ↔ ∀ c ∈ sh.commands, c.name ≠ name) ∧
      ((∀ c ∈ sh.commands, c.name ≠ name) → ps_unregister_command sh (some name) = (-1, sh)) ∧
      ((ps_unregister_command sh (some name)).1 = 0 ∨
        (ps_unregister_command sh (some name)).1 = -1) := by
  have h2 : ps_unregister_command (ps_register_command sh (some name) help (some f)).2
      (some name) = (0, sh) := by
    simp only [ps_register_command, ps_unregister_command, remove_command, if_true]
  have hu : ps_unregister_command sh (some name) =
      (match remove_command name sh.commands with
        | some cs => (0, { sh with commands := cs })
        | none => (-1, sh)) := rfl
  have hnone := remove_command_none name sh.commands
  refine ⟨rfl, h2, ?_, ?_, ?_, ?_⟩
  · intro n
    rw [h2]
  · rw [← hnone, hu]
    cases remove_command name sh.commands with
    | none => simp
    | some cs => simp
  · intro hno
    rw [hu, hnone.mpr hno]
  · rw [hu]
    cases remove_command name sh.commands with
    | none => exact Or.inr rfl
    | some cs => exact Or.inl rfl

set_option maxRecDepth 1000000 in
/-- Witness for C30: a callback registered under the name `help` shadows the
built-in command; after it is unregistered the built-in is found again, and a
name that is not registered gives -1. -/
theorem register_unregister_round_trip_witness :
    find_command (bytes "help")
        (ps_register_command (demo_create "") (some (bytes "help")) none
          (some (.user 1))).2.commands =
        some { name := bytes "help", help := none, func := .user 1 } ∧
      ps_unregister_command
        (ps_register_command (demo_create "") (some (bytes "help")) none (some (.user 1))).2
        (some (bytes "help")) = (0, demo_create "") ∧
      (find_command (bytes "help") (demo_create "").commands).map (fun c => c.func) =
        some .ps_cmd_help ∧
      ps_unregister_command (demo_create "") (some (bytes "nope")) = (-1, demo_create "") :=
  ⟨by rfl,
    (register_unregister_round_trip (demo_create "") (bytes "help") none (.user 1)).2.1,
    by rfl, by rfl⟩
/-! ## C29: the index read while browsing the history -/

/-- C29: in every session state `history_pos <= history_count <=
history_size`; when the Up arrow reads a history entry (the count is positive
and the position below it) the index `history_count - history_pos`, taken
after the increment, lies in `[0, history_count)` and the slot holds an entry,
so the iteration is the copy of that entry and the redraw; and when the Down
arrow reads an entry (the position is positive and not 0 after the decrement)
the same holds for the index taken after the decrement. -/
theorem browse_index_in_range (E : Env) (sh : Shell) (rest : List Int) (h : Reachable E sh) :
    sh.history_pos ≤ sh.history_count ∧ sh.history_count ≤ sh.history_size ∧
    (sh.input = 27 :: 91 :: 65 :: rest →
      sh.history_count > 0 ∧ sh.history_pos < sh.history_count →
      0 ≤ (sh.history_count : Int) - (u16_inc sh.history_pos : Int) ∧
      (sh.history_count : Int) - (u16_inc sh.history_pos : Int) < (sh.history_count : Int) ∧
      (∃ entry, history_at sh ((sh.history_count : Int) - (u16_inc sh.history_pos : Int)) =
        some entry) ∧
      run_body E sh = .ok (ps_redraw_line (load_history
        { sh with input := rest, history_pos := u16_inc sh.history_pos }
        ((sh.history_count : Int) - (u16_inc sh.history_pos : Int))))) ∧
    (sh.input = 27 :: 91 :: 66 :: rest →
      sh.history_pos > 0 ∧ u16_dec sh.history_pos ≠ 0 →
      0 ≤ (sh.history_count : Int) - (u16_dec sh.history_pos : Int) ∧
      (sh.history_count : Int) - (u16_dec sh.history_pos : Int) < (sh.history_count : Int) ∧
      (∃ entry, history_at sh ((sh.history_count : Int) - (u16_dec sh.history_pos : Int)) =
        some entry) ∧
      run_body E sh = .ok (ps_redraw_line (load_history
        { sh with input := rest, history_pos := u16_dec sh.history_pos }
        ((sh.history_count : Int) - (u16_dec sh.history_pos : Int))))) := by
  have hi := Inv.of_reachable E h
  have hsz := hi.size_lt
  have hc := hi.count_le
  have hpc := hi.hpos_le
  refine ⟨hpc, hc, fun hin hcond => ?_, fun hin hcond => ?_⟩
  · have hinc : u16_inc sh.history_pos = sh.history_pos + 1 := by unfold u16_inc; omega
    obtain ⟨entry, hat, _, _, _⟩ :=
      history_at_entry sh hi (sh.history_pos + 1) (by omega) (by omega)
    rw [hinc]
    refine ⟨by omega, by omega, ⟨entry, hat⟩, ?_⟩
    have hat2 : history_at
        { sh with input := rest, history_pos := sh.history_pos + 1 }
        ((sh.history_count : Int) - ((sh.history_pos + 1 : Nat) : Int)) = some entry := hat
    rw [run_body_esc E sh _ hin, handle_escape_csi _ 65 rest rfl]
    simp only [if_true, hinc]
    rw [if_pos hcond, hat2]
  · obtain ⟨hp, hne⟩ := hcond
    have hdec : u16_dec sh.history_pos = sh.history_pos - 1 := by unfold u16_dec; omega
    rw [hdec] at hne ⊢
    obtain ⟨entry, hat, _, _, _⟩ :=
      history_at_entry sh hi (sh.history_pos - 1) (by omega) (by omega)
    refine ⟨by omega, by omega, ⟨entry, hat⟩, ?_⟩
    rw [run_body_esc E sh _ hin, handle_escape_csi _ 66 rest rfl]
    have h65 : ¬ ((66 : Int) = 65) := by decide
    simp only [h65, if_false, if_true, hdec]
    rw [if_pos hp, if_neg hne]

set_option maxRecDepth 1000000 in
/-- Witness for C29: two entries `a` and `b`; the first Up arrow reads index 1
and the second reads index 0. -/
theorem browse_index_in_range_witness :
    (Reachable demo_env (demo_run "a\nb\n\x1b[A\x1b[A" 5) ∧
      (demo_run "a\nb\n\x1b[A\x1b[A" 5).input = 27 :: 91 :: 65 :: [] ∧
      (demo_run "a\nb\n\x1b[A\x1b[A" 5).history_count = 2 ∧
      (demo_run "a\nb\n\x1b[A\x1b[A" 5).history_pos = 1) ∧
    (0 ≤ ((demo_run "a\nb\n\x1b[A\x1b[A" 5).history_count : Int) -
        (u16_inc (demo_run "a\nb\n\x1b[A\x1b[A" 5).history_pos : Int) ∧
      ((demo_run "a\nb\n\x1b[A\x1b[A" 5).history_count : Int) -
        (u16_inc (demo_run "a\nb\n\x1b[A\x1b[A" 5).history_pos : Int) <
        ((demo_run "a\nb\n\x1b[A\x1b[A" 5).history_count : Int) ∧
      (∃ entry, history_at (demo_run "a\nb\n\x1b[A\x1b[A" 5)
        (((demo_run "a\nb\n\x1b[A\x1b[A" 5).history_count : Int) -
          (u16_inc (demo_run "a\nb\n\x1b[A\x1b[A" 5).history_pos : Int)) = some entry) ∧
      run_body demo_env (demo_run "a\nb\n\x1b[A\x1b[A" 5) = .ok (ps_redraw_line (load_history
        { demo_run "a\nb\n\x1b[A\x1b[A" 5 with
          input := []
          history_pos := u16_inc (demo_run "a\nb\n\x1b[A\x1b[A" 5).history_pos }
        (((demo_run "a\nb\n\x1b[A\x1b[A" 5).history_count : Int) -
          (u16_inc (demo_run "a\nb\n\x1b[A\x1b[A" 5).history_pos : Int))))) :=
  ⟨⟨demo_reachable _ _ (by rfl), by rfl, by rfl, by rfl⟩,
    (browse_index_in_range demo_env _ [] (demo_reachable _ _ (by rfl))).2.2.1 (by rfl)
      (by decide)⟩
/-! ## C28: the line and the history entries are printable -/

theorem line_printable_of_eq {a : Shell} (ln : Str) (es : List Str)
    (hb : cstr a.cmd_buffer = ln) (he : history_entries a = es)
    (h1 : ∀ b ∈ ln, 32 ≤ b ∧ b < 127) (h2 : ∀ e ∈ es, ∀ b ∈ e, 32 ≤ b ∧ b < 127) :
    LinePrintable a := by
  unfold LinePrintable
  rw [hb, he]
  exact ⟨h1, h2⟩

theorem line_printable_frame {sh sh1 : Shell} (hp : LinePrintable sh) (hf : Frame sh sh1) :
    LinePrintable sh1 := by
  obtain ⟨i, o, m, rfl⟩ := hf
  exact hp

theorem set_len_nul (sh : Shell) (h : Inv sh) (hl : LineOK sh) :
    sh.cmd_buffer.set sh.cmd_len 0 = sh.cmd_buffer := by
  obtain ⟨ln, tail, _, hb, _, hlen, _⟩ := line_split sh h hl
  rw [hb, ← hlen, List.set_append_right _ _ (le_refl _)]
  simp

theorem next_entries_mem (n : Nat) (es : List Str) (cmd e : Str)
    (he : e ∈ next_entries n es cmd) : e ∈ es ∨ e = cmd := by
  unfold next_entries at he
  split at he
  · exact Or.inl he
  · have hsuf : last_n n (es ++ [cmd]) <:+ es ++ [cmd] := List.drop_suffix _ _
    have hmem := hsuf.subset he
    rcases List.mem_append.mp hmem with h | h
    · exact Or.inl h
    · exact Or.inr (List.mem_singleton.mp h)

theorem line_printable_load (sh : Shell) (h : Inv sh) (hp : LinePrintable sh) (p q : Nat)
    (hq1 : 1 ≤ q) (hq2 : q ≤ sh.history_count) :
    LinePrintable (load_history { sh with history_pos := p }
      ((sh.history_count : Int) - (q : Int))) := by
  obtain ⟨entry, hat, hent, hle, hz⟩ := history_at_entry sh h q hq1 hq2
  have hat2 : history_at { sh with history_pos := p }
      ((sh.history_count : Int) - (q : Int)) = some entry := hat
  rw [load_history_eq _ _ entry hat2 h.buf_len h.buf_last hle hz]
  refine line_printable_of_eq entry (history_entries sh) (cstr_entry _ _ hz) rfl ?_ hp.2
  exact hp.2 entry (List.getElem?_mem hent)

theorem line_printable_escape {sh0 : Shell} (h0 : Inv sh0) (hl0 : LineOK sh0)
    (hp0 : LinePrintable sh0) : LinePrintable (ps_handle_escape_sequence sh0) := by
  unfold ps_handle_escape_sequence
  have hf1 := Frame.read_char (Frame.refl sh0)
  generalize read_char sh0 = r1 at hf1
  obtain ⟨c1, sh1⟩ := r1
  have h1 : Inv sh1 := h0.of_frame hf1
  have hl1 : LineOK sh1 := line_ok_frame hl0 hf1
  have hp1 : LinePrintable sh1 := line_printable_frame hp0 hf1
  simp only
  split
  · exact hp1
  have hf2 := Frame.read_char (Frame.refl sh1)
  generalize read_char sh1 = r2 at hf2
  obtain ⟨c2, sh⟩ := r2
  have h : Inv sh := h1.of_frame hf2
  have hl : LineOK sh := line_ok_frame hl1 hf2
  have hp : LinePrintable sh := line_printable_frame hp1 hf2
  have hsz := h.size_lt
  have hcnt := h.count_le
  have hpc := h.hpos_le
  have hpl := h.pos_le
  have hll := h.len_le
  have hcur : ∀ p : Nat, LinePrintable { sh with cmd_pos := p } := fun p =>
    line_printable_of_eq _ _ rfl rfl hp.1 hp.2
  have hhp : ∀ p : Nat, LinePrintable { sh with history_pos := p } := fun p =>
    line_printable_of_eq _ _ rfl rfl hp.1 hp.2
  simp only
  split
  · -- Up
    split
    · rename_i hc
      split
      · exact line_printable_frame
          (line_printable_load sh h hp _ (u16_inc sh.history_pos)
            (by unfold u16_inc; omega) (by unfold u16_inc; omega))
          (Frame.refl _).redraw_line
      · exact hhp _
    · exact hp
  split
  · -- Down
    split
    · rename_i hc
      split
      · refine line_printable_frame ?_ (Frame.refl _).redraw_line
        exact line_printable_of_eq [] (history_entries sh) (cstr_set_zero _) rfl
          (by simp) hp.2
      · rename_i hne
        exact line_printable_frame
          (line_printable_load sh h hp _ (u16_dec sh.history_pos)
            (by
              have : u16_dec sh.history_pos ≠ 0 := hne
              omega)
            (by unfold u16_dec; omega))
          (Frame.refl _).redraw_line
    · exact hp
  split
  · split
    · exact line_printable_frame (hcur _) ((Frame.refl _).cursor_right 1)
    · exact hp
  split
  · split
    · exact line_printable_frame (hcur _) ((Frame.refl _).cursor_left 1)
    · exact hp
  split
  · exact line_printable_frame (hcur _) ((Frame.refl _).cursor_move _)
  split
  · exact line_printable_frame (hcur _) ((Frame.refl _).cursor_move _)
  split
  · -- Delete
    have hf3 := Frame.read_char (Frame.refl sh)
    generalize read_char sh = r3 at hf3
    obtain ⟨c3, sh2⟩ := r3
    have h2 : Inv sh2 := h.of_frame hf3
    have hl2 : LineOK sh2 := line_ok_frame hl hf3
    have hp2 : LinePrintable sh2 := line_printable_frame hp hf3
    simp only
    split
    · rename_i hc
      refine line_printable_frame ?_ (Frame.refl _).redraw_line
      refine line_printable_of_eq _ (history_entries sh2)
        (line_removed sh2 h2 hl2 _ hc.2) rfl ?_ hp2.2
      intro b hb
      rcases List.mem_append.mp hb with hb | hb
      · exact hp2.1 b (List.mem_of_mem_take hb)
      · exact hp2.1 b (List.mem_of_mem_drop hb)
    · exact hp2
  · exact hp

theorem line_printable_process_char (E : Env) {sh : Shell} (h : Inv sh) (hl : LineOK sh)
    (hp : LinePrintable sh) (c : Nat) (sh1 : Shell)
    (hr : ps_process_char E sh c = .ok sh1) : LinePrintable sh1 := by
  have hpl := h.pos_le
  have hll := h.len_le
  unfold ps_process_char at hr
  split at hr
  · cases hr
    refine line_printable_frame ?_ (Frame.refl _).print_prompt
    exact line_printable_of_eq [] (history_entries sh) (cstr_set_zero _) rfl (by simp) hp.2
  split at hr
  · cases hr
    exact line_printable_frame hp ((((Frame.refl sh).clear_screen).print_prompt).print _)
  split at hr
  · -- Enter
    have hf1 : Frame sh (ps_println sh []) := (Frame.refl sh).println _
    have h1 : Inv (ps_println sh []) := h.of_frame hf1
    have hl1 : LineOK (ps_println sh []) := line_ok_frame hl hf1
    have hp1 : LinePrintable (ps_println sh []) := line_printable_frame hp hf1
    simp only at hr
    split at hr
    · rw [set_len_nul _ h1 hl1] at hr
      obtain ⟨es, hes, hprops, hch⟩ := h1.entries
      have hes2 : ({ ps_println sh [] with cmd_buffer := (ps_println sh []).cmd_buffer } :
          Shell).history.take (ps_println sh []).history_count = es.map some := hes
      obtain ⟨_, _, _, _, h4⟩ := add_to_history_spec
        { ps_println sh [] with cmd_buffer := (ps_println sh []).cmd_buffer }
        (cstr (ps_println sh []).cmd_buffer) es h1.hist_len h1.size_lt h1.count_le h1.hpos_le
        hes2
      have hent := history_entries_of_take _ _ h4
      have hes0 : history_entries (ps_println sh []) = es := history_entries_of_take _ _ hes
      split at hr
      · cases hr
      · rename_i r sh4 hex
        cases hr
        have hb3 : ∀ cmd ∈ (ps_add_to_history
            { ps_println sh [] with cmd_buffer := (ps_println sh []).cmd_buffer }
            (cstr (ps_println sh []).cmd_buffer)).commands, ∀ id, cmd.func ≠ .user id := by
          rw [add_to_history_fields]
          exact h1.builtin
        obtain ⟨i, o, m, rfl⟩ := frame_execute_command E _ r sh4 hb3 hex
        refine line_printable_frame ?_ (Frame.refl _).print_prompt
        refine line_printable_of_eq [] _ (cstr_set_zero _) hent (by simp) ?_
        intro e he
        rcases next_entries_mem _ _ _ _ he with he | he
        · rw [← hes0] at he
          exact hp1.2 e he
        · rw [he]
          exact hp1.1
    · cases hr
      exact line_printable_frame hp (((Frame.refl sh).println _).print_prompt)
  split at hr
  · split at hr
    · rename_i hpos
      cases hr
      refine line_printable_frame ?_ (Frame.refl _).redraw_line
      have hrem := line_removed sh h hl (sh.cmd_pos - 1) (by omega)
      have e1 : sh.cmd_pos - 1 + 1 = sh.cmd_pos := by omega
      have e2 : sh.cmd_len - (sh.cmd_pos - 1) = sh.cmd_len - sh.cmd_pos + 1 := by omega
      rw [e1, e2] at hrem
      refine line_printable_of_eq _ (history_entries sh) hrem rfl ?_ hp.2
      intro b hb
      rcases List.mem_append.mp hb with hb | hb
      · exact hp.1 b (List.mem_of_mem_take hb)
      · exact hp.1 b (List.mem_of_mem_drop hb)
    · cases hr
      exact hp
  split at hr
  · cases hr
    exact line_printable_frame hp (Frame.refl sh).bell
  split at hr
  · cases hr
    exact line_printable_escape h hl hp
  split at hr
  · split at hr
    · rename_i hc hlt
      have hlt2 : sh.cmd_len < 255 := hlt
      cases hr
      refine line_printable_frame ?_ (Frame.refl _).redraw_line
      refine line_printable_of_eq _ (history_entries sh)
        (line_inserted sh h hl c (by omega) hlt2) rfl ?_ hp.2
      intro b hb
      rcases List.mem_append.mp hb with hb | hb
      · exact hp.1 b (List.mem_of_mem_take hb)
      · rcases List.mem_cons.mp hb with hb | hb
        · rw [hb]
          exact hc
        · exact hp.1 b (List.mem_of_mem_drop hb)
    · cases hr
      exact hp
  · cases hr
    exact hp

theorem line_printable_reachable (E : Env) {sh : Shell} (h : Reachable E sh) :
    LinePrintable sh := by
  induction h with
  | create config stdin mem =>
    refine line_printable_of_eq [] [] ?_ ?_ (by simp) (by simp)
    · simp only [ps_create, PS_MAX_CMD_LENGTH]
      rfl
    · simp only [ps_create, history_entries, List.take_zero]
      rfl
  | register_parameter name type value_ptr max_size _ ih =>
    unfold ps_register_parameter
    split
    · exact ih
    · exact ih
  | read_char _ ih => exact line_printable_frame ih (Frame.refl _).read_char
  | @process_char sh sh1 c hsh hstep ih =>
    exact line_printable_process_char E (Inv.of_reachable E hsh) (line_ok_reachable E hsh) ih
      c _ hstep
/-- C28: in every session state `cmd_buffer[cmd_len]` is NUL and every byte of
`cmd_buffer` at an index below `cmd_len` is printable (0x20..0x7E); and every
stored history entry consists of printable bytes only and has a length
between 1 and 255. -/
theorem line_and_history_printable (E : Env) (sh : Shell) (h : Reachable E sh) :
    sh.cmd_buffer[sh.cmd_len]? = some 0 ∧
      (∀ i, i < sh.cmd_len → ∃ b, sh.cmd_buffer[i]? = some b ∧ 32 ≤ b ∧ b < 127) ∧
      (∀ e ∈ history_entries sh,
        (∀ b ∈ e, 32 ≤ b ∧ b < 127) ∧ 1 ≤ e.length ∧ e.length ≤ 255) := by
  have hi := Inv.of_reachable E h
  have hl := line_ok_reachable E h
  have hp := line_printable_reachable E h
  obtain ⟨ln, tail, hc, hb, _, hlen, _⟩ := line_split sh hi hl
  refine ⟨?_, ?_, ?_⟩
  · rw [hb, ← hlen, List.getElem?_append_right (le_refl _)]
    simp
  · intro i hlt
    have hlt2 : i < ln.length := by omega
    refine ⟨ln[i], ?_, ?_⟩
    · rw [hb, List.getElem?_append_left hlt2, List.getElem?_eq_getElem hlt2]
    · have := hp.1
      rw [hc] at this
      exact this _ (List.getElem_mem hlt2)
  · intro e he
    refine ⟨hp.2 e he, ?_⟩
    obtain ⟨es, hes, hprops, _⟩ := hi.entries
    rw [history_entries_of_take sh es hes] at he
    have := hprops e he
    refine ⟨?_, this.2.1⟩
    have hne := this.1
    cases e with
    | nil => exact absurd rfl hne
    | cons x xs => simp

set_option maxRecDepth 1000000 in
/-- Witness for C28: the line `hi` is submitted and `ab` is typed, with bytes
that are not printable in between. -/
theorem line_and_history_printable_witness :
    (Reachable demo_env (demo_run "h\x01i\n\x02a\x7fab" 9) ∧
      cstr (demo_run "h\x01i\n\x02a\x7fab" 9).cmd_buffer = bytes "ab" ∧
      (demo_run "h\x01i\n\x02a\x7fab" 9).cmd_len = 2 ∧
      history_entries (demo_run "h\x01i\n\x02a\x7fab" 9) = [bytes "hi"]) ∧
    ((demo_run "h\x01i\n\x02a\x7fab" 9).cmd_buffer[(demo_run "h\x01i\n\x02a\x7fab" 9).cmd_len]?
        = some 0 ∧
      (∀ i, i < (demo_run "h\x01i\n\x02a\x7fab" 9).cmd_len →
        ∃ b, (demo_run "h\x01i\n\x02a\x7fab" 9).cmd_buffer[i]? = some b ∧ 32 ≤ b ∧ b < 127) ∧
      (∀ e ∈ history_entries (demo_run "h\x01i\n\x02a\x7fab" 9),
        (∀ b ∈ e, 32 ≤ b ∧ b < 127) ∧ 1 ≤ e.length ∧ e.length ≤ 255)) :=
  ⟨⟨demo_reachable _ _ (by rfl), by rfl, by rfl, by rfl⟩,
    line_and_history_printable demo_env _ (demo_reachable _ _ (by rfl))⟩
/-! ## C26: the redraw protocol -/

theorem fmt_d_natCast (n : Nat) : fmt_d (n : Int) = fmt_nat n := by
  unfold fmt_d
  rw [if_neg (by omega)]
  simp

theorem redraw_line_output (a : Shell) (hv : a.vt100_enabled = true)
    (hb : a.prompt.length + a.cmd_pos + 1 < 2 ^ 31) :
    ps_redraw_line a = { a with output := a.output ++ redraw_bytes a } := by
  have hcast : (a.prompt.length : Int) + (a.cmd_pos : Int) + 1 =
      ((a.prompt.length + a.cmd_pos + 1 : Nat) : Int) := by push_cast; rfl
  have hlen : (fmt_nat (a.prompt.length + a.cmd_pos + 1)).length ≤ 10 :=
    (fmt_nat_spec _).2.2.2 10 (by decide) (by
      have e10 : (10 : Nat) ^ 10 = 10000000000 := by norm_num
      have e31 : (2 : Nat) ^ 31 = 2147483648 := by norm_num
      omega)
  have hsn : snprintf 16
      (bytes "\x1b[" ++ fmt_nat (a.prompt.length + a.cmd_pos + 1) ++ bytes "G") =
      bytes "\x1b[" ++ fmt_nat (a.prompt.length + a.cmd_pos + 1) ++ bytes "G" := by
    unfold snprintf
    apply List.take_of_length_le
    have e1 : (bytes "\x1b[").length = 2 := by decide
    have e2 : (bytes "G").length = 1 := by decide
    simp only [List.length_append, e1, e2]
    omega
  have hsn2 : snprintf 16
      (bytes "\x1b[" ++ (fmt_nat (a.prompt.length + a.cmd_pos + 1) ++ bytes "G")) =
      bytes "\x1b[" ++ (fmt_nat (a.prompt.length + a.cmd_pos + 1) ++ bytes "G") := by
    rw [← List.append_assoc]
    exact hsn.trans (List.append_assoc _ _ _)
  unfold ps_redraw_line redraw_bytes
  simp only [ps_vt100_clear_line, ps_vt100_cursor_move, ps_print, write_char, hv, if_true,
    hcast, fmt_d_natCast, hsn2, List.append_assoc]

theorem redraw_step_output (E : Env) (X sh1 : Shell) (o : List Nat) (hr : Reachable E sh1)
    (he : sh1 = ps_redraw_line X) (ho : X.output = o) (hv : X.vt100_enabled = true)
    (hprompt : X.prompt.length + 256 < 2 ^ 31) :
    sh1.output = o ++ redraw_bytes sh1 ∧ (cstr sh1.cmd_buffer).length = sh1.cmd_len := by
  subst ho
  have hi := Inv.of_reachable E hr
  have hl : (cstr sh1.cmd_buffer).length = sh1.cmd_len := line_ok_reachable E hr
  refine ⟨?_, hl⟩
  have hpl := hi.pos_le
  have hll := hi.len_le
  have hpos : sh1.cmd_pos = X.cmd_pos := by rw [he, redraw_line_fields]
  rw [he, redraw_line_output X hv (by omega)]
  rfl

theorem load_history_out (a : Shell) (idx : Int) :
    (load_history a idx).output = a.output ∧
      (load_history a idx).vt100_enabled = a.vt100_enabled ∧
      (load_history a idx).prompt = a.prompt := by
  unfold load_history
  split
  · exact ⟨rfl, rfl, rfl⟩
  · exact ⟨rfl, rfl, rfl⟩

theorem run_body_up (E : Env) (sh : Shell) (rest : List Int) (h : Inv sh)
    (hin : sh.input = 27 :: 91 :: 65 :: rest) (hp : sh.history_pos < sh.history_count) :
    run_body E sh = .ok (ps_redraw_line (load_history
      { sh with input := rest, history_pos := sh.history_pos + 1 }
      ((sh.history_count : Int) - ((sh.history_pos + 1 : Nat) : Int)))) := by
  have hsz := h.size_lt
  have hc := h.count_le
  have hinc : u16_inc sh.history_pos = sh.history_pos + 1 := by unfold u16_inc; omega
  obtain ⟨entry, hat, _, _, _⟩ :=
    history_at_entry sh h (sh.history_pos + 1) (by omega) (by omega)
  have hat2 : history_at
      { sh with input := rest, history_pos := sh.history_pos + 1 }
      ((sh.history_count : Int) - ((sh.history_pos + 1 : Nat) : Int)) = some entry := hat
  rw [run_body_esc E sh _ hin, handle_escape_csi _ 65 rest rfl]
  simp only [if_true, hinc]
  rw [if_pos ⟨by omega, hp⟩, hat2]

theorem run_body_down (E : Env) (sh : Shell) (rest : List Int) (h : Inv sh)
    (hin : sh.input = 27 :: 91 :: 66 :: rest) (hp : sh.history_pos > 0) :
    run_body E sh = .ok (ps_redraw_line
      (if sh.history_pos - 1 = 0 then
        { sh with
          input := rest
          history_pos := sh.history_pos - 1
          cmd_buffer := sh.cmd_buffer.set 0 0
          cmd_len := 0
          cmd_pos := 0 }
      else load_history
        { sh with input := rest, history_pos := sh.history_pos - 1 }
        ((sh.history_count : Int) - ((sh.history_pos - 1 : Nat) : Int)))) := by
  have hsz := h.size_lt
  have hc := h.count_le
  have hpc := h.hpos_le
  have hdec : u16_dec sh.history_pos = sh.history_pos - 1 := by unfold u16_dec; omega
  rw [run_body_esc E sh _ hin, handle_escape_csi _ 66 rest rfl]
  have h65 : ¬ ((66 : Int) = 65) := by decide
  simp only [h65, if_false, if_true, hdec]
  rw [if_pos hp]
  split <;> rfl

/-- C26: with VT100 enabled (and a prompt short enough for the column to be an
`int`), every insert of a printable byte below capacity, every Backspace with
the cursor past column 0, every delete sequence with the cursor before the
end of the line and every Up or Down arrow that moves the browse position
appends to the output exactly the redraw of the state it leaves: carriage
return, `ESC[2K`, the prompt, the line (as many bytes as its length), and
`ESC[<k>G` with `k` the decimal of prompt length + cursor + 1. -/
theorem redraw_protocol (E : Env) (sh : Shell) (c : Nat) (rest : List Int)
    (h : Reachable E sh) (hv : sh.vt100_enabled = true)
    (hprompt : sh.prompt.length + 256 < 2 ^ 31) :
    (32 ≤ c ∧ c < 127 → sh.cmd_len < 255 →
      ∃ sh1, ps_process_char E sh c = .ok sh1 ∧
        sh1.output = sh.output ++ redraw_bytes sh1 ∧
        (cstr sh1.cmd_buffer).length = sh1.cmd_len) ∧
    (c = 127 ∨ c = 8 → sh.cmd_pos > 0 →
      ∃ sh1, ps_process_char E sh c = .ok sh1 ∧
        sh1.output = sh.output ++ redraw_bytes sh1 ∧
        (cstr sh1.cmd_buffer).length = sh1.cmd_len) ∧
    (sh.input = 27 :: 91 :: 51 :: 126 :: rest → sh.cmd_pos < sh.cmd_len →
      ∃ sh1, run_body E sh = .ok sh1 ∧
        sh1.output = sh.output ++ redraw_bytes sh1 ∧
        (cstr sh1.cmd_buffer).length = sh1.cmd_len) ∧
    (sh.input = 27 :: 91 :: 65 :: rest → sh.history_pos < sh.history_count →
      ∃ sh1, run_body E sh = .ok sh1 ∧
        sh1.output = sh.output ++ redraw_bytes sh1 ∧
        (cstr sh1.cmd_buffer).length = sh1.cmd_len) ∧
    (sh.input = 27 :: 91 :: 66 :: rest → sh.history_pos > 0 →
      ∃ sh1, run_body E sh = .ok sh1 ∧
        sh1.output = sh.output ++ redraw_bytes sh1 ∧
        (cstr sh1.cmd_buffer).length = sh1.cmd_len) := by
  have hi := Inv.of_reachable E h
  refine ⟨fun hc hlt => ?_, fun hc hp => ?_, fun hin hp => ?_, fun hin hp => ?_,
    fun hin hp => ?_⟩
  · have hstep := process_char_printable E sh c hc
    rw [if_pos hlt] at hstep
    exact ⟨_, hstep, redraw_step_output E _ _ _ (Reachable.process_char c h hstep) rfl rfl hv hprompt⟩
  · have hstep := process_char_backspace E sh c hc
    rw [if_pos hp] at hstep
    exact ⟨_, hstep, redraw_step_output E _ _ _ (Reachable.process_char c h hstep) rfl rfl hv hprompt⟩
  · have hstep : run_body E sh = .ok (ps_redraw_line
        { sh with
          input := rest
          cmd_buffer := memmove sh.cmd_buffer sh.cmd_pos (sh.cmd_pos + 1)
            (sh.cmd_len - sh.cmd_pos)
          cmd_len := u16_dec sh.cmd_len }) := by
      rw [run_body_esc E sh _ hin, handle_escape_delete _ 126 rest rfl, if_pos ⟨rfl, hp⟩]
    exact ⟨_, hstep, redraw_step_output E _ _ _ (h.run_body E hstep) rfl rfl hv hprompt⟩
  · have hstep := run_body_up E sh rest hi hin hp
    have ho := load_history_out
      { sh with input := rest, history_pos := sh.history_pos + 1 }
      ((sh.history_count : Int) - ((sh.history_pos + 1 : Nat) : Int))
    exact ⟨_, hstep, redraw_step_output E _ _ _ (h.run_body E hstep) rfl ho.1
      (by rw [ho.2.1]; exact hv) (by rw [ho.2.2]; exact hprompt)⟩
  · have hstep := run_body_down E sh rest hi hin hp
    by_cases h0 : sh.history_pos - 1 = 0
    · rw [if_pos h0] at hstep
      exact ⟨_, hstep, redraw_step_output E _ _ _ (h.run_body E hstep) rfl rfl hv hprompt⟩
    · rw [if_neg h0] at hstep
      have ho := load_history_out
        { sh with input := rest, history_pos := sh.history_pos - 1 }
        ((sh.history_count : Int) - ((sh.history_pos - 1 : Nat) : Int))
      exact ⟨_, hstep, redraw_step_output E _ _ _ (h.run_body E hstep) rfl ho.1
        (by rw [ho.2.1]; exact hv) (by rw [ho.2.2]; exact hprompt)⟩

theorem demo_vt100_reachable (input : String) (n : Nat)
    (h : run_steps demo_env n (ps_create (some (demo_vt100_config (keys input))) [] []) =
      .ok (demo_vt100_run input n)) :
    Reachable demo_env (demo_vt100_run input n) :=
  Reachable.run_steps demo_env n (Reachable.create _ _ _) h

set_option maxRecDepth 1000000 in
/-- Witness for C26: with escape output enabled, the prompt `> ` and `a`
typed, the byte `b` appends carriage return, `ESC[2K`, `> `, `ab` and
`ESC[5G`. -/
theorem redraw_protocol_witness :
    (Reachable demo_env (demo_vt100_run "a" 1) ∧
      (demo_vt100_run "a" 1).vt100_enabled = true ∧
      (demo_vt100_run "a" 1).prompt.length + 256 < 2 ^ 31 ∧ (32 ≤ 98 ∧ 98 < 127) ∧
      (demo_vt100_run "a" 1).cmd_len < 255 ∧
      (returned (ps_process_char demo_env (demo_vt100_run "a" 1) 98)
        (demo_vt100_run "a" 1)).output =
        (demo_vt100_run "a" 1).output ++ bytes "\r\x1b[2K> ab\x1b[5G") ∧
    ∃ sh1, ps_process_char demo_env (demo_vt100_run "a" 1) 98 = .ok sh1 ∧
      sh1.output = (demo_vt100_run "a" 1).output ++ redraw_bytes sh1 ∧
      (cstr sh1.cmd_buffer).length = sh1.cmd_len :=
  ⟨⟨demo_vt100_reachable _ _ (by rfl), by rfl, by decide, by decide, by decide, by rfl⟩,
    (redraw_protocol demo_env _ 98 [] (demo_vt100_reachable _ _ (by rfl))
      (by rfl) (by decide)).1 (by decide) (by decide)⟩
/-! ## C27: type a line, submit it and recall it -/

theorem out_frame_refl (sh : Shell) : OutFrame sh sh := ⟨sh.output, rfl⟩

theorem out_frame_print {sh a : Shell} (h : OutFrame sh a) (s : Str) :
    OutFrame sh (ps_print a s) := by
  obtain ⟨o, rfl⟩ := h
  exact ⟨_, rfl⟩

theorem out_frame_write_char {sh a : Shell} (h : OutFrame sh a) (c : Nat) :
    OutFrame sh (write_char a c) := by
  obtain ⟨o, rfl⟩ := h
  exact ⟨_, rfl⟩

theorem out_frame_println {sh a : Shell} (h : OutFrame sh a) (s : Str) :
    OutFrame sh (ps_println a s) :=
  out_frame_write_char (out_frame_print h s) 10

theorem out_frame_clear_screen {sh a : Shell} (h : OutFrame sh a) :
    OutFrame sh (ps_vt100_clear_screen a) := by
  unfold ps_vt100_clear_screen
  split
  · exact out_frame_print h _
  · exact h

theorem out_frame_cursor_home {sh a : Shell} (h : OutFrame sh a) :
    OutFrame sh (ps_vt100_cursor_home a) := by
  unfold ps_vt100_cursor_home
  split
  · exact out_frame_print h _
  · exact h

theorem out_frame_help_loop {sh a : Shell} (h : OutFrame sh a) (cs : List PSCommand) :
    OutFrame sh (help_loop a cs) := by
  induction cs generalizing a with
  | nil => exact h
  | cons cmd rest ih =>
    unfold help_loop
    apply ih
    apply out_frame_println
    cases cmd.help with
    | none => exact out_frame_print (out_frame_print h _) _
    | some t => exact out_frame_print (out_frame_print (out_frame_print (out_frame_print h _) _) _) _

theorem call_func_out (E : Env) (f : PSCommandFunc) (sh : Shell) (argv : List Str)
    (hf : ∀ id, f ≠ .user id) (hp : sh.parameters = []) :
    ∃ r sh1, call_func E f sh argv = .ok (r, sh1) ∧ OutFrame sh sh1 := by
  have hnone : ∀ x, ps_get_parameter sh x = none := by
    intro x
    unfold ps_get_parameter
    rw [hp]
    rfl
  cases f with
  | ps_cmd_help =>
    exact ⟨_, _, rfl, out_frame_help_loop (out_frame_println (out_frame_refl sh) _) _⟩
  | ps_cmd_clear =>
    exact ⟨_, _, rfl, out_frame_cursor_home (out_frame_clear_screen (out_frame_refl sh))⟩
  | ps_cmd_get =>
    unfold call_func ps_cmd_get
    simp only
    split
    · rw [hnone]
      exact ⟨_, _, rfl, out_frame_println (out_frame_print (out_frame_refl sh) _) _⟩
    · exact ⟨_, _, rfl, out_frame_println (out_frame_refl sh) _⟩
  | ps_cmd_set =>
    unfold call_func ps_cmd_set
    simp only
    split
    · rw [hnone]
      exact ⟨_, _, rfl, out_frame_println (out_frame_print (out_frame_refl sh) _) _⟩
    · exact ⟨_, _, rfl, out_frame_println (out_frame_refl sh) _⟩
  | ps_cmd_edit =>
    unfold call_func ps_cmd_edit
    simp only
    rw [hp]
    exact ⟨_, _, rfl, out_frame_println (out_frame_refl sh) _⟩
  | user id => exact absurd rfl (hf id)

theorem execute_command_out (E : Env) (sh : Shell)
    (hb : ∀ cmd ∈ sh.commands, ∀ id, cmd.func ≠ .user id) (hp : sh.parameters = []) :
    ∃ r sh1, ps_execute_command E sh = .ok (r, sh1) ∧ OutFrame sh sh1 := by
  unfold ps_execute_command
  split
  · exact ⟨_, _, rfl, out_frame_refl sh⟩
  · split
    · rename_i cmd hfind
      exact call_func_out E _ sh _ (hb cmd (find_command_mem _ _ _ hfind).1) hp
    · exact ⟨_, _, rfl, out_frame_println (out_frame_print (out_frame_refl sh) _) _⟩

theorem add_to_history_first (sh : Shell) (cmd : Str) (h0 : sh.history_count = 0)
    (hs : 1 ≤ sh.history_size) (hc : cmd ≠ []) :
    ps_add_to_history sh cmd =
      { sh with
        history := sh.history.set 0 (some cmd)
        history_count := 1
        history_pos := 0 } := by
  unfold ps_add_to_history
  have hlen : ¬ cmd.length = 0 := by
    intro h
    exact hc (List.eq_nil_of_length_eq_zero h)
  rw [if_neg (by omega), if_neg hlen, if_neg (by omega)]
  simp only
  rw [if_neg (by omega)]
  simp only [h0]
  rfl

theorem enter_no_params (E : Env) (sh : Shell) (c : Nat) (hc : c = 13 ∨ c = 10)
    (hi : Inv sh) (hl : LineOK sh) (hp : sh.parameters = []) (hlen : 0 < sh.cmd_len)
    (h0 : sh.history_count = 0) (hs : 1 ≤ sh.history_size) :
    ∃ o, ps_process_char E sh c =
      .ok { sh with
        output := o
        cmd_len := 0
        cmd_pos := 0
        cmd_buffer := sh.cmd_buffer.set 0 0
        history := sh.history.set 0 (some (cstr sh.cmd_buffer))
        history_count := 1
        history_pos := 0 } := by
  have hne : cstr sh.cmd_buffer ≠ [] := by
    intro h
    have : (cstr sh.cmd_buffer).length = sh.cmd_len := hl
    rw [h] at this
    simp at this
    omega
  have hset : sh.cmd_buffer.set sh.cmd_len 0 = sh.cmd_buffer := set_len_nul sh hi hl
  have hfirst := add_to_history_first
    { sh with output := sh.output ++ [] ++ [10], cmd_buffer := sh.cmd_buffer }
    (cstr sh.cmd_buffer) h0 hs hne
  obtain ⟨r, sh4, hex, o4, rfl⟩ := execute_command_out E
    { sh with
      output := sh.output ++ [] ++ [10]
      cmd_buffer := sh.cmd_buffer
      history := sh.history.set 0 (some (cstr sh.cmd_buffer))
      history_count := 1
      history_pos := 0 }
    hi.builtin hp
  unfold ps_process_char
  simp only [PS_KEY_CTRL_C, PS_KEY_CTRL_L, PS_KEY_ENTER]
  rw [if_neg (by omega), if_neg (by omega), if_pos hc]
  simp only [ps_println, ps_print, write_char]
  rw [if_pos hlen, hset, hfirst, hex]
  simp only
  rw [print_prompt_eq]
  exact ⟨_, rfl⟩
theorem run_body_byte (E : Env) (sh : Shell) (c : Nat) (rest : List Int)
    (hin : sh.input = (c : Int) :: rest) (hc : c < 256) :
    run_body E sh = ps_process_char E { sh with input := rest } c := by
  unfold run_body read_char
  rw [hin]
  simp only
  rw [if_neg (by omega)]
  have : (c : Int).toNat % 256 = c := by
    rw [Int.toNat_ofNat]
    omega
  rw [this]

theorem run_steps_add (E : Env) (m n : Nat) (sh sh1 : Shell)
    (h : run_steps E m sh = .ok sh1) :
    run_steps E (m + n) sh = run_steps E n sh1 := by
  induction m generalizing sh with
  | zero =>
    unfold run_steps at h
    cases h
    rw [Nat.zero_add]
  | succ m ih =>
    have e1 : run_steps E (m + 1) sh =
        (match run_body E sh with
          | .error e => .error e
          | .ok s => run_steps E m s) := rfl
    have e2 : run_steps E (m + n + 1) sh =
        (match run_body E sh with
          | .error e => .error e
          | .ok s => run_steps E (m + n) s) := rfl
    rw [Nat.succ_add]
    rw [e1] at h
    rw [e2]
    cases hb : run_body E sh with
    | error e => rw [hb] at h; cases h
    | ok sh2 =>
      rw [hb] at h
      exact ih sh2 h

theorem typing_steps (E : Env) (L : List Nat) (hp : ∀ c ∈ L, 32 ≤ c ∧ c < 127) :
    ∀ (sh : Shell) (rest : List Int), Reachable E sh → sh.cmd_pos = sh.cmd_len →
      sh.input = L.map Int.ofNat ++ rest →
      ∃ buf len out, run_steps E L.length sh =
          .ok { sh with
            input := rest
            output := out
            cmd_buffer := buf
            cmd_pos := len
            cmd_len := len } ∧
        cstr buf = (cstr sh.cmd_buffer ++ L).take 255 := by
  induction L with
  | nil =>
    intro sh rest hr hpos hin
    refine ⟨sh.cmd_buffer, sh.cmd_len, sh.output, ?_, ?_⟩
    · simp only [List.map_nil, List.nil_append] at hin
      have e : ({ sh with
          input := rest
          output := sh.output
          cmd_buffer := sh.cmd_buffer
          cmd_pos := sh.cmd_len
          cmd_len := sh.cmd_len } : Shell) = sh := by
        cases sh
        simp only at hpos hin
        subst hpos hin
        rfl
      rw [e]
      rfl
    · have hl : (cstr sh.cmd_buffer).length = sh.cmd_len := line_ok_reachable E hr
      have := (Inv.of_reachable E hr).len_le
      rw [List.append_nil, List.take_of_length_le (by omega)]
  | cons c L ih =>
    intro sh rest hr hpos hin
    have hc := hp c (List.mem_cons_self _ _)
    have hi := Inv.of_reachable E hr
    have hl := line_ok_reachable E hr
    have hlen : (cstr sh.cmd_buffer).length = sh.cmd_len := hl
    have hll := hi.len_le
    have hin2 : sh.input = ((c : Nat) : Int) :: (L.map Int.ofNat ++ rest) := by
      rw [hin]
      rfl
    have hbody := run_body_byte E sh c _ hin2 (by omega)
    have hi2 : Inv { sh with input := L.map Int.ofNat ++ rest } :=
      hi.of_frame ⟨_, sh.output, sh.mem, rfl⟩
    have hl2 : LineOK { sh with input := L.map Int.ofNat ++ rest } :=
      line_ok_frame hl ⟨_, sh.output, sh.mem, rfl⟩
    rw [process_char_printable E _ c hc] at hbody
    by_cases hlt : sh.cmd_len < 255
    · rw [if_pos hlt, redraw_line_fields] at hbody
      have hins := line_inserted { sh with input := L.map Int.ofNat ++ rest } hi2 hl2 c
        (by omega) hlt
      have hr2 := hr.run_body E hbody
      obtain ⟨buf, len, out, hrun, hcs⟩ := ih (fun x hx => hp x (List.mem_cons_of_mem _ hx))
        _ rest hr2 (by show u16_inc sh.cmd_pos = u16_inc sh.cmd_len; rw [hpos]) rfl
      refine ⟨buf, len, out, ?_, ?_⟩
      · rw [List.length_cons]
        unfold run_steps
        rw [hbody]
        exact hrun
      · rw [hcs]
        dsimp only at hins ⊢
        rw [hins, hpos, ← hlen, List.take_length, List.drop_length]
        simp
    · rw [if_neg hlt] at hbody
      have hr2 := hr.run_body E hbody
      obtain ⟨buf, len, out, hrun, hcs⟩ := ih (fun x hx => hp x (List.mem_cons_of_mem _ hx))
        _ rest hr2 hpos rfl
      refine ⟨buf, len, out, ?_, ?_⟩
      · rw [List.length_cons]
        unfold run_steps
        rw [hbody]
        exact hrun
      · rw [hcs]
        dsimp only
        have h255 : (cstr sh.cmd_buffer).length = 255 := by omega
        rw [List.take_append_of_le_length (by omega), List.take_append_of_le_length (by omega)]
theorem history_entries_first (sh : Shell) (hi : Inv sh) (hist : List (Option Str)) (s : Str)
    (h1 : sh.history = hist.set 0 (some s)) (h2 : sh.history_count = 1)
    (hs : 1 ≤ sh.history_size) : history_entries sh = [s] := by
  have h := hi.hist_len
  rw [h1, List.length_set] at h
  unfold history_entries
  rw [h1, h2]
  cases hist with
  | nil => simp at h; omega
  | cons x xs => simp

theorem enter_first_line (E : Env) (sh : Shell) (e : Nat) (rest : List Int)
    (hr : Reachable E sh) (hin : sh.input = (e : Int) :: rest) (he : e = 13 ∨ e = 10)
    (hp : sh.parameters = []) (hlen : 0 < sh.cmd_len) (h0 : sh.history_count = 0)
    (hs : 1 ≤ sh.history_size) :
    ∃ sh1, run_body E sh = .ok sh1 ∧ sh1.input = rest ∧
      history_entries sh1 = [cstr sh.cmd_buffer] ∧ sh1.history_pos = 0 := by
  have hi := Inv.of_reachable E hr
  have hl := line_ok_reachable E hr
  have hb := run_body_byte E sh e rest hin (by omega)
  obtain ⟨o, hent⟩ := enter_no_params E { sh with input := rest } e he
    (hi.of_frame ⟨_, sh.output, sh.mem, rfl⟩) (line_ok_frame hl ⟨_, sh.output, sh.mem, rfl⟩)
    hp hlen h0 hs
  rw [hent] at hb
  have hi2 := Inv.of_reachable E (hr.run_body E hb)
  exact ⟨_, hb, rfl, history_entries_first _ hi2 sh.history (cstr sh.cmd_buffer) rfl rfl hs,
    rfl⟩

theorem up_after_first (E : Env) (sh : Shell) (s : Str) (rest : List Int)
    (hr : Reachable E sh) (hin : sh.input = 27 :: 91 :: 65 :: rest)
    (hes : history_entries sh = [s]) (hpos : sh.history_pos = 0) :
    ∃ sh1, run_body E sh = .ok sh1 ∧ sh1.input = rest ∧ cstr sh1.cmd_buffer = s ∧
      sh1.cmd_pos = s.length ∧ sh1.cmd_len = s.length ∧ history_entries sh1 = [s] := by
  have hi := Inv.of_reachable E hr
  have hcnt := length_history_entries sh hi
  rw [hes] at hcnt
  simp only [List.length_singleton] at hcnt
  have hb := run_body_up E sh rest hi hin (by omega)
  obtain ⟨entry, hat, hent, hle, hz⟩ :=
    history_at_entry sh hi (sh.history_pos + 1) (by omega) (by omega)
  rw [hes, hpos, ← hcnt] at hent
  simp only [Nat.zero_add, Nat.sub_self, List.getElem?_cons_zero, Option.some.injEq] at hent
  subst hent
  have hat2 : history_at
      { sh with input := rest, history_pos := sh.history_pos + 1 }
      ((sh.history_count : Int) - ((sh.history_pos + 1 : Nat) : Int)) = some s := hat
  rw [load_history_eq _ _ s hat2 hi.buf_len hi.buf_last hle hz, redraw_line_fields] at hb
  exact ⟨_, hb, rfl, cstr_entry _ _ hz, rfl, rfl, hes⟩

/-- C27: in a freshly created shell with history capacity at least 1, when the
transport delivers a non-empty sequence `L` of printable bytes, then Enter
(0x0D or `\n`), then ESC `[` `A`, the session loop consumes all of it in
`|L| + 2` iterations and leaves the line buffer equal to the first
`min(|L|, 255)` bytes of `L`, with cursor and length both `min(|L|, 255)`;
the history then holds this one line. -/
theorem type_enter_up_round_trip (E : Env) (config : Option PSConfig) (stdin : List Int)
    (mem : List Obj) (L : List Nat) (e : Nat) (rest : List Int)
    (hcap : 1 ≤ (ps_create config stdin mem).history_size)
    (hL : L ≠ []) (hp : ∀ c ∈ L, 32 ≤ c ∧ c < 127) (he : e = 13 ∨ e = 10)
    (hin : (ps_create config stdin mem).input =
      L.map Int.ofNat ++ (e : Int) :: 27 :: 91 :: 65 :: rest) :
    ∃ sh1, run_steps E (L.length + 2) (ps_create config stdin mem) = .ok sh1 ∧
      sh1.input = rest ∧ cstr sh1.cmd_buffer = L.take 255 ∧
      sh1.cmd_pos = min L.length 255 ∧ sh1.cmd_len = min L.length 255 ∧
      history_entries sh1 = [L.take 255] := by
  have hr0 : Reachable E (ps_create config stdin mem) := Reachable.create _ _ _
  have hc0 : cstr (ps_create config stdin mem).cmd_buffer = [] := by
    have := line_ok_reachable E hr0
    unfold LineOK strlen at this
    exact List.eq_nil_of_length_eq_zero this
  obtain ⟨buf, len, out, hrun, hcs⟩ := typing_steps E L hp _ _ hr0 rfl hin
  rw [hc0, List.nil_append] at hcs
  have hr1 := Reachable.run_steps E _ hr0 hrun
  have hl1 : (cstr buf).length = len := line_ok_reachable E hr1
  have hlen : 0 < len := by
    rw [← hl1, hcs, List.length_take]
    have : 0 < L.length := List.length_pos.mpr hL
    omega
  obtain ⟨sh2, hb1, hin2, hes2, hpos2⟩ := enter_first_line E _ e (27 :: 91 :: 65 :: rest) hr1
    rfl he rfl hlen rfl hcap
  obtain ⟨sh3, hb2, hin3, hc3, hp3, hl3, hes3⟩ := up_after_first E sh2 (cstr buf) rest
    (hr1.run_body E hb1) hin2 hes2 hpos2
  have hrun2 : run_steps E (L.length + 2) (ps_create config stdin mem) = .ok sh3 := by
    rw [run_steps_add E _ 2 _ _ hrun]
    unfold run_steps
    rw [hb1]
    simp only
    unfold run_steps
    rw [hb2]
    rfl
  have hlen2 : (L.take 255).length = min L.length 255 := by
    rw [List.length_take, Nat.min_comm]
  rw [hcs] at hc3 hp3 hl3 hes3
  rw [hlen2] at hp3 hl3
  exact ⟨sh3, hrun2, hin3, hc3, hp3, hl3, hes3⟩

set_option maxRecDepth 1000000 in
/-- Witness for C27: the line `hi`, Enter and the Up arrow in the example
shell (history capacity 2). -/
theorem type_enter_up_round_trip_witness :
    (1 ≤ (demo_create "hi\n\x1b[A").history_size ∧ bytes "hi" ≠ [] ∧
      (∀ c ∈ bytes "hi", 32 ≤ c ∧ c < 127) ∧ ((10 : Nat) = 13 ∨ (10 : Nat) = 10) ∧
      (demo_create "hi\n\x1b[A").input =
        (bytes "hi").map Int.ofNat ++ ((10 : Nat) : Int) :: 27 :: 91 :: 65 :: [] ∧
      cstr (demo_run "hi\n\x1b[A" 4).cmd_buffer = bytes "hi") ∧
    ∃ sh1, run_steps demo_env ((bytes "hi").length + 2) (demo_create "hi\n\x1b[A") = .ok sh1 ∧
      sh1.input = [] ∧ cstr sh1.cmd_buffer = (bytes "hi").take 255 ∧
      sh1.cmd_pos = min (bytes "hi").length 255 ∧ sh1.cmd_len = min (bytes "hi").length 255 ∧
      history_entries sh1 = [(bytes "hi").take 255] :=
  ⟨⟨by decide, by decide, by decide, by decide, by rfl, by rfl⟩,
    type_enter_up_round_trip demo_env (some (demo_config (keys "hi\n\x1b[A") 2)) [] []
      (bytes "hi") 10 [] (by decide) (by decide) (by decide) (by decide) (by rfl)⟩
/-! ## C31: the stores of `set` on a string parameter -/

theorem store_string_frame (data : List Nat) (c : Nat) (t : Str) (data1 : List Nat)
    (h1 : 1 ≤ c) (h2 : c < 2 ^ 64) (h : store_string data c t = .ok data1) :
    data1.length = data.length ∧ ∀ i, c ≤ i → data1[i]? = data[i]? := by
  unfold store_string at h
  rw [size_pred_eq c h1 h2] at h
  split at h
  · cases h
    refine ⟨by rw [List.length_set, length_strncpy], fun i hi => ?_⟩
    rw [List.getElem?_set_ne (by omega)]
    unfold strncpy
    rw [getElem?_writeAt_of_ge _ _ _ _ (by rw [length_strncpy_data]; omega)]
  · cases h

set_option maxRecDepth 1000000 in
/-- C31 (the code at the failing input): `ps_register_parameter` accepts the
string parameter `s` with `max_size = 0` on an array of eight bytes (it
returns 0 and lookup finds the parameter).  The `size_t` value `max_size - 1`
is then `2^64 - 1`, which is not below `max_size`, and `set s ab` stores at
that index and below it, outside the array: the call has no defined result.
With `max_size = 4` on the same array the stores stay below index 4: the
array holds `abc`, a NUL and its last four bytes as before. -/
theorem set_string_zero_capacity :
    (ps_register_parameter (ps_create (some (demo_config [] 2)) [] [.chars (List.replicate 8 120)])
        (some (bytes "s")) .PS_PARAM_STRING (some 0) 0).1 = 0 ∧
      ps_get_parameter (demo_string_shell 0) (bytes "s") =
        some { name := bytes "s", type := .PS_PARAM_STRING, value_ptr := 0, max_size := 0 } ∧
      (demo_string_shell 0).mem = [.chars (List.replicate 8 120)] ∧
      size_pred 0 = 2 ^ 64 - 1 ∧ ¬ (size_pred 0 < 0) ∧
      store_string (List.replicate 8 120) 0 (bytes "ab") = .error .undefined ∧
      ps_cmd_set demo_env (demo_string_shell 0) [bytes "set", bytes "s", bytes "ab"] =
        .error .undefined ∧
      (ps_cmd_set demo_env (demo_string_shell 4)
        [bytes "set", bytes "s", bytes "abcdef"]).map (fun r => (r.1, r.2.mem)) =
        .ok (0, [.chars (bytes "abc" ++ [0] ++ List.replicate 4 120)]) :=
  ⟨by rfl, by rfl, by rfl, by decide, by decide, by rfl, by rfl, by rfl⟩

/-! ## C32: escape bytes with VT100 off -/

set_option maxRecDepth 1000000 in
/-- C32 (the code at the failing input): VT100 is off, the prompt is `> `, the
commands are the built-in ones and the `int` parameter `a` is registered; the
transport delivers `edit`, Enter and `q`.  No ESC byte is written while the
line is typed, but the call of `ps_run` returns with ESC bytes in the output:
`edit` writes `ESC[?1049h` before the table and `ESC[?1049l` after it, and the
output ends with that sequence and the prompt.  Without a parameter `edit`
and Enter write no ESC byte. -/
theorem edit_writes_escape_with_vt100_off :
    (demo_param_shell "edit\nq").vt100_enabled = false ∧
      (demo_param_shell "edit\nq").prompt = bytes "> " ∧
      (demo_param_shell "edit\nq").commands = builtin_commands ∧
      (demo_param_shell "edit\nq").parameters =
        [{ name := bytes "a", type := .PS_PARAM_INT, value_ptr := 0, max_size := 0 }] ∧
      (run_steps demo_env 4 (demo_param_shell "edit\nq")).map
        (fun s => (cstr s.cmd_buffer, decide (27 ∈ s.output))) = .ok (bytes "edit", false) ∧
      (ps_run demo_env 6 (demo_param_shell "edit\nq")).map
        (fun r => r.map (fun s => (s.input, decide (27 ∈ s.output),
          s.output.drop (s.output.length - 10)))) =
        some (.ok ([], true, bytes "\x1b[?1049l> ")) ∧
      (ps_run demo_env 6 (demo_param_shell "edit\nq")).map
        (fun r => r.map (fun s => (s.output.drop 25).take 8)) =
        some (.ok (bytes "\x1b[?1049h")) ∧
      (ps_run demo_env 6 (demo_create "edit\n")).map
        (fun r => r.map (fun s => (s.input, decide (27 ∈ s.output)))) =
        some (.ok ([], false)) :=
  ⟨by rfl, by rfl, by rfl, by rfl, by rfl, by rfl, by rfl, by rfl⟩

end PortableShell
